import Mathlib

/-!
# plotutil: spaced error points and interpolation builders

A shallow embedding of `plotutil/errorpoints_spaced.go` and the properties of
its interpolation builders (`StepFunction`, `LinearInterpolationFunction`), of
its spaced generators (`NewErrorPointsSpaced`, `NewErrorPointsXSpaced`) and of
`NewPaddedErrorPoints`.

Numbers. A Go `float64` is modelled by `F64`: an exact rational for every finite
value, together with the three special values `+Inf`, `-Inf` and `NaN`, which
follow the IEEE rules (`x / 0`, `Inf - Inf`, comparisons with `NaN`, ...). The
operations `+`, `-`, `*`, `/` of `F64` are exact on finite values, and the
functions are first given in this exact arithmetic. `F64.round` is the rounding
of an exact result to binary64 (to nearest, ties to even, overflow to an
infinity); `NewErrorPointsSpacedRounded` is `NewErrorPointsSpaced` with a
rounding after every operation, which is the arithmetic of `float64` when the
rounding is `F64.round` and the exact arithmetic when it is `id`. The sign of
zero is not modelled.

Panics. A Go `panic` (explicit or raised by the runtime) is an explicit `Fault`.

Loops. A `for` loop that may run forever is run with a fuel bound on its
iterations; running out of fuel is a distinct outcome.
-/

namespace Plotutil

/-! ## float64 -/

/-- A `float64`: a finite value (an exact rational), an infinity, or NaN. -/
inductive F64 where
  | fin (q : ℚ)
  | posInf
  | negInf
  | nan
  deriving DecidableEq

namespace F64

/-- Unary minus. -/
def neg : F64 → F64
  | fin a => fin (-a)
  | posInf => negInf
  | negInf => posInf
  | nan => nan

/-- Go `a + b`. -/
def add : F64 → F64 → F64
  | fin a, fin b => fin (a + b)
  | fin _, posInf => posInf
  | fin _, negInf => negInf
  | posInf, fin _ => posInf
  | posInf, posInf => posInf
  | posInf, negInf => nan
  | negInf, fin _ => negInf
  | negInf, negInf => negInf
  | negInf, posInf => nan
  | nan, _ => nan
  | _, nan => nan

/-- Go `a - b`. -/
def sub (a b : F64) : F64 := add a (neg b)

/-- An infinity of the sign of `q` (a zero counts as positive), as in `Inf * q`. -/
def infOfSign (q : ℚ) : F64 := if 0 ≤ q then posInf else negInf

/-- Go `a * b`. -/
def mul : F64 → F64 → F64
  | fin a, fin b => fin (a * b)
  | fin a, posInf => if a = 0 then nan else infOfSign a
  | fin a, negInf => if a = 0 then nan else infOfSign (-a)
  | posInf, fin b => if b = 0 then nan else infOfSign b
  | negInf, fin b => if b = 0 then nan else infOfSign (-b)
  | posInf, posInf => posInf
  | posInf, negInf => negInf
  | negInf, posInf => negInf
  | negInf, negInf => posInf
  | nan, _ => nan
  | _, nan => nan

/-- Go `a / b`: a finite non-zero value over zero is an infinity, `0 / 0` and
`Inf / Inf` are NaN, a finite value over an infinity is zero. -/
def div : F64 → F64 → F64
  | fin a, fin b => if b = 0 then (if a = 0 then nan else infOfSign a) else fin (a / b)
  | fin _, posInf => fin 0
  | fin _, negInf => fin 0
  | posInf, fin b => infOfSign b
  | negInf, fin b => neg (infOfSign b)
  | posInf, posInf => nan
  | posInf, negInf => nan
  | negInf, posInf => nan
  | negInf, negInf => nan
  | nan, _ => nan
  | _, nan => nan

/-- Go `a < b`; false as soon as one side is NaN. -/
def lt : F64 → F64 → Bool
  | fin a, fin b => decide (a < b)
  | fin _, posInf => true
  | negInf, fin _ => true
  | negInf, posInf => true
  | _, _ => false

/-- Go `a <= b`; false as soon as one side is NaN. -/
def le : F64 → F64 → Bool
  | fin a, fin b => decide (a ≤ b)
  | fin _, posInf => true
  | negInf, fin _ => true
  | negInf, posInf => true
  | posInf, posInf => true
  | negInf, negInf => true
  | _, _ => false

/-- Go `a == b` (NaN is equal to nothing, itself included). -/
def eq : F64 → F64 → Bool
  | fin a, fin b => decide (a = b)
  | posInf, posInf => true
  | negInf, negInf => true
  | _, _ => false

/-- The test `math.IsNaN`. -/
def isNaN : F64 → Bool
  | nan => true
  | _ => false

/-- A value that is neither NaN nor an infinity. -/
def isFinite : F64 → Bool
  | fin _ => true
  | _ => false

/-- The conversion `float64(n)` of an integer. -/
def ofInt (n : Int) : F64 := fin (n : ℚ)

instance : Add F64 := ⟨add⟩
instance : Sub F64 := ⟨sub⟩
instance : Mul F64 := ⟨mul⟩
instance : Div F64 := ⟨div⟩
instance : LT F64 := ⟨fun a b => lt a b = true⟩
instance : LE F64 := ⟨fun a b => le a b = true⟩
instance (a b : F64) : Decidable (a < b) := inferInstanceAs (Decidable (lt a b = true))
instance (a b : F64) : Decidable (a ≤ b) := inferInstanceAs (Decidable (le a b = true))

end F64

/-! ## Rounding to binary64 -/

/-- The integer nearest to `num / den`, a tie going to the even one. -/
def roundHalfEven (num den : Nat) : Nat :=
  let q := num / den
  let r := num % den
  if 2 * r < den then q
  else if den < 2 * r then q + 1
  else if q % 2 = 0 then q
  else q + 1

/-- The position of the leading binary digit of `n ≥ 1`: the `e` with
`2^e ≤ n < 2^(e+1)`; `fuel` bounds the number of halvings. -/
def leadingBit : Nat → Nat → Nat
  | 0, _ => 0
  | fuel + 1, n => if n < 2 then 0 else leadingBit fuel (n / 2) + 1

/-- The binary exponent of the positive rational `num / den`: the `e` with
`2^e ≤ num / den < 2^(e+1)`, which is the difference of the leading digits of
`num` and `den`, or one less. -/
def binaryExponent (num den : Nat) : Int :=
  let e : Int := (leadingBit num num : Int) - (leadingBit den den : Int)
  if num * 2 ^ (-e).toNat < den * 2 ^ e.toNat then e - 1 else e

/-- The binary64 value nearest to the positive rational `num / den`, a tie going
to the even significand; `none` when that is beyond the largest finite value.
Around `num / den` the binary64 values are the multiples of `2^k`, where `k` is
the exponent less the 52 fraction bits and at least `-1074` (subnormal values). -/
def roundMagnitude (num den : Nat) : Option ℚ :=
  let k : Int := max (binaryExponent num den) (-1022) - 52
  let n := roundHalfEven (num * 2 ^ (-k).toNat) (den * 2 ^ k.toNat)
  if 2 ^ 1024 ≤ n * 2 ^ k.toNat then none
  else some ((n * 2 ^ k.toNat : Nat) / (2 ^ (-k).toNat : Nat))

/-- Rounding of an exact result to `float64` (round to nearest, ties to even,
overflow to an infinity). -/
def F64.round : F64 → F64
  | .fin q =>
    if q = 0 then .fin 0
    else
      match roundMagnitude q.num.natAbs q.den with
      | none => if 0 < q then .posInf else .negInf
      | some m => .fin (if 0 < q then m else -m)
  | x => x

/-! ## Panics -/

/-- The ways the code can panic. -/
inductive Fault where
  /-- The `panic("undefined value")` of the two interpolation functions. -/
  | undefinedValue
  /-- The `panic("LinearInterpolationFunction -- mismatched []float64 sizes, ...")`. -/
  | mismatchedSizes
  /-- The `panic("NewErrorPointsXSpaced: only 2 or more points can be used")`. -/
  | tooFewPoints
  /-- Runtime panic: index out of range. -/
  | indexOutOfRange
  /-- Runtime panic of `make` with a negative length. -/
  | makeSliceLen
  deriving DecidableEq

/-- The result of running code that may panic. -/
inductive Res (α : Type) where
  | ok (a : α)
  | panic (p : Fault)
  deriving DecidableEq

/-! ## Interpolation builders -/

/-- A `map[float64][]float64`, as the list of its entries in the order in which
`range` visits them (an order Go leaves unspecified). -/
abbrev FMap := List (F64 × List F64)

/-- The keys of a Go map are pairwise different for `==`. -/
def FMap.WellFormed (data : FMap) : Prop :=
  (data.map Prod.fst).Pairwise (fun a b => F64.eq a b = false)

/-- The map access `data[k]`: the stored slice, or the nil slice when no key is
`==` to `k`. -/
def FMap.get (data : FMap) (k : F64) : List F64 :=
  match data.find? (fun e => F64.eq e.1 k) with
  | some e => e.2
  | none => []

/-- The order of `sort.Float64s`: `a` may stand before `b` unless `b` is less
than `a`, where less is `b < a || (isNaN(b) && !isNaN(a))` (NaN first). -/
def sortLE (a b : F64) : Prop := ¬ (F64.lt b a = true ∨ (F64.isNaN b = true ∧ F64.isNaN a = false))

instance : DecidableRel sortLE := fun a b => by unfold sortLE; exact inferInstance

instance sortLE_total : IsTotal F64 sortLE :=
  ⟨fun a b => by
    cases a <;> cases b <;> simp [sortLE, F64.lt, F64.isNaN]
    exact le_total _ _⟩

instance sortLE_trans : IsTrans F64 sortLE :=
  ⟨fun a b c => by
    cases a <;> cases b <;> cases c <;> simp [sortLE, F64.lt, F64.isNaN]
    exact fun h1 h2 => le_trans h1 h2⟩

/-- The library call `sort.Float64s`: the values in increasing order, NaN first. -/
def sortFloat64s (l : List F64) : List F64 := l.insertionSort sortLE

/-- The keys of the map in visiting order, then sorted: the slice `sorted` that
both builders capture. -/
def sortedKeys (data : FMap) : List F64 := sortFloat64s (data.map Prod.fst)

/-- The loop `for ; curPoint < len(sorted) && sorted[curPoint] <= x; curPoint++ {}`
of `StepFunction`, run on `sorted[curPoint:]`; returns the final `curPoint`. -/
def stepScan (x : F64) : List F64 → Nat → Nat
  | [], curPoint => curPoint
  | k :: rest, curPoint => if k ≤ x then stepScan x rest (curPoint + 1) else curPoint

/-- The function `StepFunction(data)`; `Res.panic` is a panic of the returned
closure. -/
def StepFunction (data : FMap) : F64 → Res (List F64) :=
  let sorted := sortedKeys data
  fun x =>
    let curPoint : Int := stepScan x sorted 0
    let curPoint : Int := if curPoint ≥ sorted.length then (sorted.length : Int) - 1 else curPoint
    if curPoint < 0 then .panic .indexOutOfRange
    else
      match sorted[curPoint.toNat]? with
      | none => .panic .indexOutOfRange
      | some k =>
        if curPoint = 0 ∧ k > x then .panic .undefinedValue
        else .ok (data.get k)

/-- The loop `for key, slice := range data` of `LinearInterpolationFunction`,
checking the sizes; `i` counts the entries visited so far. -/
def checkSizes : FMap → Nat → Int → Res Int
  | [], _, size => .ok size
  | (_, slice) :: rest, i, size =>
    if i = 0 then checkSizes rest (i + 1) slice.length
    else if size ≠ slice.length then .panic .mismatchedSizes
    else checkSizes rest (i + 1) size

/-- The loop `for ; point2 < len(sorted) && sorted[point2] < x; point2++ {}` of
`LinearInterpolationFunction`, run on `sorted[point2:]`. -/
def linearScan (x : F64) : List F64 → Nat → Nat
  | [], point2 => point2
  | k :: rest, point2 => if k < x then linearScan x rest (point2 + 1) else point2

/-- The loop `for i := range values` filling `values[i] = (v1[i] + v2[i]) / 2.0`,
where `values` has the length of `v1`; reading `v2[i]` past its end panics. -/
def average : List F64 → List F64 → Res (List F64)
  | [], _ => .ok []
  | _ :: _, [] => .panic .indexOutOfRange
  | a :: v1, b :: v2 =>
    match average v1 v2 with
    | .ok values => .ok ((a + b) / F64.fin 2 :: values)
    | .panic e => .panic e

/-- The closure returned by `LinearInterpolationFunction(data)`. -/
def linearQuery (data : FMap) (sorted : List F64) (x : F64) : Res (List F64) :=
  let point2 := linearScan x sorted 0
  if point2 ≥ sorted.length ∨ point2 = 0 then
    -- the diagnostic reads `sorted[0]` and `sorted[len(sorted)-1]` before the panic
    if sorted.length = 0 then .panic .indexOutOfRange else .panic .undefinedValue
  else
    let point1 := point2 - 1
    match sorted[point1]?, sorted[point2]? with
    | some k1, some k2 => average (data.get k1) (data.get k2)
    | _, _ => .panic .indexOutOfRange

/-- The function `LinearInterpolationFunction(data)`: the outer `Res.panic` is
a panic while building, the inner one a panic of the returned closure. -/
def LinearInterpolationFunction (data : FMap) :
    Res (F64 → Res (List F64)) :=
  match checkSizes data 0 (-1) with
  | .panic e => .panic e
  | .ok _ => .ok (linearQuery data (sortedKeys data))

/-! ## Spaced generators: data -/

/-- A point of a `plotter.XYs`. -/
structure XY where
  X : F64
  Y : F64
  deriving DecidableEq

/-- An element of `plotter.XErrors` or `plotter.YErrors`: `struct{ Low, High float64 }`. -/
structure LowHigh where
  Low : F64
  High : F64
  deriving DecidableEq

/-- The struct `ErrorPoints`: three slices. -/
structure ErrorPoints where
  XYs : List XY
  XErrors : List LowHigh
  YErrors : List LowHigh
  deriving DecidableEq

/-- The struct `Float64Range`. -/
structure Float64Range where
  min : F64
  max : F64

/-- The struct `PointGenerator`. -/
structure PointGenerator where
  generator : F64 → List F64
  pointRange : Float64Range

/-- The struct `PointsAndErrorPoints`, its two pointers dereferenced. -/
structure PointsAndErrorPoints where
  points : List XY
  errorPoints : ErrorPoints
  deriving DecidableEq

/-- The zero value of a point. -/
def XY.zero : XY := ⟨F64.fin 0, F64.fin 0⟩

/-- The zero value of an error pair. -/
def LowHigh.zero : LowHigh := ⟨F64.fin 0, F64.fin 0⟩

/-- The allocation `make([]T, n)` for `n ≥ 0`: `n` zero values. -/
def makeSlice {α : Type} (zero : α) (n : Int) : List α := List.replicate n.toNat zero

/-- The indexed store `s[i] = v`; `none` is the runtime panic for an index out
of range. -/
def store {α : Type} (s : List α) (i : Nat) (v : α) : Option (List α) :=
  if i < s.length then some (s.set i v) else none

/-- Modelled from the spec: `plotter.CheckFloats` (package `plotter`, not among
the sources) is the Float Validator, which rejects non-finite values (NaN or an
infinity); `true` stands for the `nil` error. -/
def CheckFloats (fs : List F64) : Bool := fs.all F64.isFinite

/-! ## Spaced generators: runs -/

/-- A call of one of the two functions the caller supplies. -/
inductive Call where
  /-- The generator called at `x`. -/
  | gen (x : F64)
  /-- The aggregation function called on `ys`. -/
  | agg (ys : List F64)
  deriving DecidableEq

/-- How a run ends. -/
inductive Outcome (α : Type) where
  /-- Returned `a` and a `nil` error. -/
  | ok (a : α)
  /-- Returned `nil` data and the error of `CheckFloats`. -/
  | error
  /-- Panicked. -/
  | panic (p : Fault)
  /-- A loop used up its fuel. -/
  | outOfFuel
  deriving DecidableEq

/-- A run: the calls of the supplied functions, in order, and the outcome. -/
structure Run (α : Type) where
  calls : List Call
  outcome : Outcome α
  deriving DecidableEq

/-- The run `r` preceded by the calls `cs`. -/
def Run.after {α : Type} (cs : List Call) (r : Run α) : Run α := ⟨cs ++ r.calls, r.outcome⟩

/-- Sequencing: if `r` returns a value, go on with `k`; otherwise stop there. -/
def Run.bind {α β : Type} (r : Run α) (k : α → Run β) : Run β :=
  match r.outcome with
  | .ok a => Run.after r.calls (k a)
  | .error => ⟨r.calls, .error⟩
  | .panic p => ⟨r.calls, .panic p⟩
  | .outOfFuel => ⟨r.calls, .outOfFuel⟩

/-! ## NewErrorPointsSpaced -/

/-- The first loop of `NewErrorPointsSpaced` (the points of the line), from the
state `i`, `curX`, `points`; returns the final `i` and `points`. -/
def spacedLineLoop (f : List F64 → F64 × F64 × F64) (pointsGenerator : F64 → List F64)
    (maxX xIncr minRange maxRange : F64) :
    Nat → Nat → F64 → List XY → Run (Nat × List XY)
  | 0, _, _, _ => ⟨[], .outOfFuel⟩
  | fuel + 1, i, curX, points =>
    if i < points.length ∧ curX ≤ maxX + xIncr then
      if curX < minRange ∨ curX > maxRange then
        spacedLineLoop f pointsGenerator maxX xIncr minRange maxRange fuel i (curX + xIncr) points
      else if CheckFloats [curX] = false then ⟨[], .error⟩
      else
        let ys := pointsGenerator curX
        if ys.all (fun y => CheckFloats [y]) = false then ⟨[.gen curX], .error⟩
        else
          let y := (f ys).1
          match store points i ⟨curX, y⟩ with
          | none => ⟨[.gen curX], .panic .indexOutOfRange⟩
          | some points =>
            if CheckFloats [y] = false then ⟨[.gen curX, .agg ys], .error⟩
            else
              Run.after [.gen curX, .agg ys]
                (spacedLineLoop f pointsGenerator maxX xIncr minRange maxRange fuel (i + 1)
                  (curX + xIncr) points)
    else ⟨[], .ok (i, points)⟩

/-- The second loop of `NewErrorPointsSpaced` (the error bars), from the state
`i`, `curX`, `errorBars`; returns the final `i` and `errorBars`. -/
def spacedErrorLoop (f : List F64 → F64 × F64 × F64) (pointsGenerator : F64 → List F64)
    (maxX xIncr xOffset minRange maxRange : F64) :
    Nat → Nat → F64 → ErrorPoints → Run (Nat × ErrorPoints)
  | 0, _, _, _ => ⟨[], .outOfFuel⟩
  | fuel + 1, i, curX, errorBars =>
    if i < errorBars.XYs.length ∧ curX ≤ maxX + xIncr then
      let x := curX + xOffset
      if curX < minRange ∨ curX > maxRange ∨ x < minRange ∨ x > maxRange then
        spacedErrorLoop f pointsGenerator maxX xIncr xOffset minRange maxRange fuel i
          (curX + xIncr) errorBars
      else if CheckFloats [x] = false then ⟨[], .error⟩
      else
        let ys := pointsGenerator x
        if ys.all (fun y => CheckFloats [y]) = false then ⟨[.gen x], .error⟩
        else
          let r := f ys
          match store errorBars.XYs i ⟨x, r.1⟩, store errorBars.XErrors i ⟨F64.fin 0, F64.fin 0⟩,
              store errorBars.YErrors i ⟨r.2.1, r.2.2⟩ with
          | some xys, some xerrs, some yerrs =>
            if CheckFloats [r.2.1, r.2.2] = false then ⟨[.gen x, .agg ys], .error⟩
            else
              Run.after [.gen x, .agg ys]
                (spacedErrorLoop f pointsGenerator maxX xIncr xOffset minRange maxRange fuel
                  (i + 1) (curX + xIncr) ⟨xys, xerrs, yerrs⟩)
          | _, _, _ => ⟨[.gen x], .panic .indexOutOfRange⟩
    else ⟨[], .ok (i, errorBars)⟩

/-- The function `NewErrorPointsSpaced`; each of its two loops may run for
`fuel` iterations. -/
def NewErrorPointsSpaced (fuel : Nat) (f : List F64 → F64 × F64 × F64)
    (pointSet totalNumberOfPointSets howManyPoints howManyErrorBars : Int)
    (minX maxX : F64) (pointsGenerator : F64 → List F64) (minRange maxRange : F64) :
    Run (List XY × ErrorPoints) :=
  if howManyPoints < 2 then ⟨[], .panic .tooFewPoints⟩
  else if howManyErrorBars < 0 then ⟨[], .panic .makeSliceLen⟩
  else
    let points := makeSlice XY.zero howManyPoints
    let errorBars : ErrorPoints :=
      ⟨makeSlice XY.zero howManyErrorBars, makeSlice LowHigh.zero howManyErrorBars,
        makeSlice LowHigh.zero howManyErrorBars⟩
    let xIncr := (maxX - minX) / (F64.ofInt howManyPoints - F64.fin 1)
    (spacedLineLoop f pointsGenerator maxX xIncr minRange maxRange fuel 0 minX points).bind
      fun (i, points) =>
        let points := points.take i
        let xIncr := (maxX - minX) / F64.ofInt howManyErrorBars
        let xOffset := xIncr / F64.fin 4 +
          F64.ofInt pointSet * (xIncr / F64.fin 2) / F64.ofInt totalNumberOfPointSets
        (spacedErrorLoop f pointsGenerator maxX xIncr xOffset minRange maxRange fuel 0 minX
          errorBars).bind
          fun (i, errorBars) =>
            ⟨[], .ok (points,
              ⟨errorBars.XYs.take i, errorBars.XErrors.take i, errorBars.YErrors.take i⟩)⟩

/-! ## NewErrorPointsSpaced in rounded arithmetic -/

/-- The first loop of `NewErrorPointsSpaced` when every arithmetic operation is
followed by the rounding `rnd`. -/
def spacedLineLoopRounded (rnd : F64 → F64) (f : List F64 → F64 × F64 × F64)
    (pointsGenerator : F64 → List F64) (maxX xIncr minRange maxRange : F64) :
    Nat → Nat → F64 → List XY → Run (Nat × List XY)
  | 0, _, _, _ => ⟨[], .outOfFuel⟩
  | fuel + 1, i, curX, points =>
    if i < points.length ∧ curX ≤ rnd (maxX + xIncr) then
      if curX < minRange ∨ curX > maxRange then
        spacedLineLoopRounded rnd f pointsGenerator maxX xIncr minRange maxRange fuel i
          (rnd (curX + xIncr)) points
      else if CheckFloats [curX] = false then ⟨[], .error⟩
      else
        let ys := pointsGenerator curX
        if ys.all (fun y => CheckFloats [y]) = false then ⟨[.gen curX], .error⟩
        else
          let y := (f ys).1
          match store points i ⟨curX, y⟩ with
          | none => ⟨[.gen curX], .panic .indexOutOfRange⟩
          | some points =>
            if CheckFloats [y] = false then ⟨[.gen curX, .agg ys], .error⟩
            else
              Run.after [.gen curX, .agg ys]
                (spacedLineLoopRounded rnd f pointsGenerator maxX xIncr minRange maxRange fuel
                  (i + 1) (rnd (curX + xIncr)) points)
    else ⟨[], .ok (i, points)⟩

/-- The second loop of `NewErrorPointsSpaced` when every arithmetic operation is
followed by the rounding `rnd`. -/
def spacedErrorLoopRounded (rnd : F64 → F64) (f : List F64 → F64 × F64 × F64)
    (pointsGenerator : F64 → List F64) (maxX xIncr xOffset minRange maxRange : F64) :
    Nat → Nat → F64 → ErrorPoints → Run (Nat × ErrorPoints)
  | 0, _, _, _ => ⟨[], .outOfFuel⟩
  | fuel + 1, i, curX, errorBars =>
    if i < errorBars.XYs.length ∧ curX ≤ rnd (maxX + xIncr) then
      let x := rnd (curX + xOffset)
      if curX < minRange ∨ curX > maxRange ∨ x < minRange ∨ x > maxRange then
        spacedErrorLoopRounded rnd f pointsGenerator maxX xIncr xOffset minRange maxRange fuel i
          (rnd (curX + xIncr)) errorBars
      else if CheckFloats [x] = false then ⟨[], .error⟩
      else
        let ys := pointsGenerator x
        if ys.all (fun y => CheckFloats [y]) = false then ⟨[.gen x], .error⟩
        else
          let r := f ys
          match store errorBars.XYs i ⟨x, r.1⟩, store errorBars.XErrors i ⟨F64.fin 0, F64.fin 0⟩,
              store errorBars.YErrors i ⟨r.2.1, r.2.2⟩ with
          | some xys, some xerrs, some yerrs =>
            if CheckFloats [r.2.1, r.2.2] = false then ⟨[.gen x, .agg ys], .error⟩
            else
              Run.after [.gen x, .agg ys]
                (spacedErrorLoopRounded rnd f pointsGenerator maxX xIncr xOffset minRange
                  maxRange fuel (i + 1) (rnd (curX + xIncr)) ⟨xys, xerrs, yerrs⟩)
          | _, _, _ => ⟨[.gen x], .panic .indexOutOfRange⟩
    else ⟨[], .ok (i, errorBars)⟩

/-- The spacing of the line in rounded arithmetic,
`xIncr := (maxX - minX) / (float64(howManyPoints) - 1.0)`. -/
def lineSpacingRounded (rnd : F64 → F64) (minX maxX : F64) (howManyPoints : Int) : F64 :=
  rnd (rnd (maxX - minX) / rnd (rnd (F64.ofInt howManyPoints) - F64.fin 1))

/-- The spacing of the error bars in rounded arithmetic,
`xIncr = (maxX - minX) / float64(howManyErrorBars)`. -/
def errorBarSpacingRounded (rnd : F64 → F64) (minX maxX : F64) (howManyErrorBars : Int) : F64 :=
  rnd (rnd (maxX - minX) / rnd (F64.ofInt howManyErrorBars))

/-- The offset of the error bars of one series in rounded arithmetic,
`xOffset := (xIncr / 4.0) + float64(pointSet) * (xIncr / 2.0) / float64(totalNumberOfPointSets)`. -/
def errorBarOffsetRounded (rnd : F64 → F64) (xIncr : F64)
    (pointSet totalNumberOfPointSets : Int) : F64 :=
  rnd (rnd (xIncr / F64.fin 4) +
    rnd (rnd (rnd (F64.ofInt pointSet) * rnd (xIncr / F64.fin 2)) /
      rnd (F64.ofInt totalNumberOfPointSets)))

/-- The function `NewErrorPointsSpaced` when every arithmetic operation (and
every conversion of an integer) is followed by the rounding `rnd`: with
`F64.round` this is the arithmetic of `float64`, with `id` the exact arithmetic
of `NewErrorPointsSpaced` above. -/
def NewErrorPointsSpacedRounded (rnd : F64 → F64) (fuel : Nat) (f : List F64 → F64 × F64 × F64)
    (pointSet totalNumberOfPointSets howManyPoints howManyErrorBars : Int)
    (minX maxX : F64) (pointsGenerator : F64 → List F64) (minRange maxRange : F64) :
    Run (List XY × ErrorPoints) :=
  if howManyPoints < 2 then ⟨[], .panic .tooFewPoints⟩
  else if howManyErrorBars < 0 then ⟨[], .panic .makeSliceLen⟩
  else
    let points := makeSlice XY.zero howManyPoints
    let errorBars : ErrorPoints :=
      ⟨makeSlice XY.zero howManyErrorBars, makeSlice LowHigh.zero howManyErrorBars,
        makeSlice LowHigh.zero howManyErrorBars⟩
    let xIncr := lineSpacingRounded rnd minX maxX howManyPoints
    (spacedLineLoopRounded rnd f pointsGenerator maxX xIncr minRange maxRange fuel 0 minX
      points).bind
      fun (i, points) =>
        let points := points.take i
        let xIncr := errorBarSpacingRounded rnd minX maxX howManyErrorBars
        let xOffset := errorBarOffsetRounded rnd xIncr pointSet totalNumberOfPointSets
        (spacedErrorLoopRounded rnd f pointsGenerator maxX xIncr xOffset minRange maxRange fuel 0
          minX errorBars).bind
          fun (i, errorBars) =>
            ⟨[], .ok (points,
              ⟨errorBars.XYs.take i, errorBars.XErrors.take i, errorBars.YErrors.take i⟩)⟩

/-! ## NewErrorPointsXSpaced -/

/-- The first inner loop of `NewErrorPointsXSpaced` (the points of the line of
one generator), from the state `ptsAdded`, `curX`, `points`. -/
def xSpacedLineLoop (f : List F64 → F64 × F64 × F64) (generator : F64 → List F64)
    (dataMax xIncr genRangeMin genRangeMax : F64) :
    Nat → Nat → F64 → List XY → Run (Nat × List XY)
  | 0, _, _, _ => ⟨[], .outOfFuel⟩
  | fuel + 1, ptsAdded, curX, points =>
    if ptsAdded < points.length ∧ curX ≤ dataMax + xIncr then
      if curX < genRangeMin ∨ curX > genRangeMax then
        xSpacedLineLoop f generator dataMax xIncr genRangeMin genRangeMax fuel ptsAdded
          (curX + xIncr) points
      else if CheckFloats [curX] = false then ⟨[], .error⟩
      else
        let ys := generator curX
        if CheckFloats ys = false then ⟨[.gen curX], .error⟩
        else
          let y := (f ys).1
          match store points ptsAdded ⟨curX, y⟩ with
          | none => ⟨[.gen curX], .panic .indexOutOfRange⟩
          | some points =>
            if CheckFloats [y] = false then ⟨[.gen curX, .agg ys], .error⟩
            else
              Run.after [.gen curX, .agg ys]
                (xSpacedLineLoop f generator dataMax xIncr genRangeMin genRangeMax fuel
                  (ptsAdded + 1) (curX + xIncr) points)
    else ⟨[], .ok (ptsAdded, points)⟩

/-- The second inner loop of `NewErrorPointsXSpaced` (the error bars of one
generator), from the state `numErrsAdded`, `curX`, `errorPoints`. -/
def xSpacedErrorLoop (f : List F64 → F64 × F64 × F64) (generator : F64 → List F64)
    (dataMax xIncr xOffset genRangeMin genRangeMax : F64) :
    Nat → Nat → F64 → ErrorPoints → Run (Nat × ErrorPoints)
  | 0, _, _, _ => ⟨[], .outOfFuel⟩
  | fuel + 1, numErrsAdded, curX, errorPoints =>
    if numErrsAdded < errorPoints.XYs.length ∧ curX ≤ dataMax + xIncr then
      let x := curX + xOffset
      if curX < genRangeMin ∨ curX > genRangeMax ∨ x < genRangeMin ∨ x > genRangeMax then
        xSpacedErrorLoop f generator dataMax xIncr xOffset genRangeMin genRangeMax fuel
          numErrsAdded (curX + xIncr) errorPoints
      else if CheckFloats [x] = false then ⟨[], .error⟩
      else
        let ys := generator x
        if CheckFloats ys = false then ⟨[.gen x], .error⟩
        else
          match store errorPoints.XYs numErrsAdded ⟨x, (f ys).1⟩,
              store errorPoints.XErrors numErrsAdded ⟨F64.fin 0, F64.fin 0⟩,
              store errorPoints.YErrors numErrsAdded ⟨(f ys).2.1, (f ys).2.2⟩ with
          | some xys, some xerrs, some yerrs =>
            if CheckFloats [(f ys).2.1, (f ys).2.2] = false then ⟨[.gen x, .agg ys], .error⟩
            else
              Run.after [.gen x, .agg ys]
                (xSpacedErrorLoop f generator dataMax xIncr xOffset genRangeMin genRangeMax
                  fuel (numErrsAdded + 1) (curX + xIncr) ⟨xys, xerrs, yerrs⟩)
          | _, _, _ => ⟨[.gen x], .panic .indexOutOfRange⟩
    else ⟨[], .ok (numErrsAdded, errorPoints)⟩

/-- One turn of the loop `for curGeneratorIndex, pointsGenerator := range pointsGenerators`
of `NewErrorPointsXSpaced`. The variable `xIncr` is declared before that loop
and assigned inside it, so a turn starts with the value the turn before left:
the turn returns its entry of `ptsNerrs` and the `xIncr` it leaves. -/
def xSpacedTurn (fuel : Nat) (f : List F64 → F64 × F64 × F64)
    (howManyPoints howManyErrorBars : Int) (dataMin dataMax : F64) (numGenerators : Nat)
    (curGeneratorIndex : Nat) (pointsGenerator : PointGenerator) (xIncr : F64) :
    Run (PointsAndErrorPoints × F64) :=
  let points := makeSlice XY.zero howManyPoints
  if howManyErrorBars < 0 then ⟨[], .panic .makeSliceLen⟩
  else
    let errorPoints : ErrorPoints :=
      ⟨makeSlice XY.zero howManyErrorBars, makeSlice LowHigh.zero howManyErrorBars,
        makeSlice LowHigh.zero howManyErrorBars⟩
    let genRangeMin := pointsGenerator.pointRange.min
    let genRangeMax := pointsGenerator.pointRange.max
    let generator := pointsGenerator.generator
    (xSpacedLineLoop f generator dataMax xIncr genRangeMin genRangeMax fuel 0 dataMin points).bind
      fun (ptsAdded, points) =>
        let points := points.take ptsAdded
        let xIncr := (dataMax - dataMin) / F64.ofInt howManyErrorBars
        let xOffset := xIncr / F64.fin 4 +
          F64.ofInt curGeneratorIndex * (xIncr / F64.fin 2) / F64.ofInt numGenerators
        (xSpacedErrorLoop f generator dataMax xIncr xOffset genRangeMin genRangeMax fuel 0
          dataMin errorPoints).bind
          fun (numErrsAdded, errorPoints) =>
            ⟨[], .ok (⟨points, ⟨errorPoints.XYs.take numErrsAdded,
              errorPoints.XErrors.take numErrsAdded, errorPoints.YErrors.take numErrsAdded⟩⟩,
              xIncr)⟩

/-- The loop over the generators of `NewErrorPointsXSpaced`, from the state
`curGeneratorIndex`, `xIncr` and the entries of `ptsNerrs` filled so far. -/
def xSpacedLoop (fuel : Nat) (f : List F64 → F64 × F64 × F64)
    (howManyPoints howManyErrorBars : Int) (dataMin dataMax : F64) (numGenerators : Nat) :
    List PointGenerator → Nat → F64 → List PointsAndErrorPoints →
      Run (List PointsAndErrorPoints)
  | [], _, _, ptsNerrs => ⟨[], .ok ptsNerrs⟩
  | pointsGenerator :: rest, curGeneratorIndex, xIncr, ptsNerrs =>
    (xSpacedTurn fuel f howManyPoints howManyErrorBars dataMin dataMax numGenerators
      curGeneratorIndex pointsGenerator xIncr).bind
      fun (entry, xIncr) =>
        xSpacedLoop fuel f howManyPoints howManyErrorBars dataMin dataMax numGenerators rest
          (curGeneratorIndex + 1) xIncr (ptsNerrs ++ [entry])

/-- The function `NewErrorPointsXSpaced`; each of its inner loops may run for
`fuel` iterations. -/
def NewErrorPointsXSpaced (fuel : Nat) (f : List F64 → F64 × F64 × F64)
    (howManyPoints howManyErrorBars : Int) (dataRange : Float64Range)
    (pointsGenerators : List PointGenerator) : Run (List PointsAndErrorPoints) :=
  if howManyPoints < 2 then ⟨[], .panic .tooFewPoints⟩
  else
    let dataMin := dataRange.min
    let dataMax := dataRange.max
    let xIncr := (dataMax - dataMin) / (F64.ofInt howManyPoints - F64.fin 1)
    xSpacedLoop fuel f howManyPoints howManyErrorBars dataMin dataMax pointsGenerators.length
      pointsGenerators 0 xIncr []

/-! ## NewPaddedErrorPoints -/

/-- The function `newPaddedErrorPoints`: it reads none of its arguments and
returns three slices of `defaultNumErrBars` zero values and a `nil` error. The
type `XYer` stands for the interface `plotter.XYer`. -/
def newPaddedErrorPoints {XYer : Type} (_f : List F64 → F64 × F64 × F64) (_cur _total : Int)
    (_points : List XYer) : Run ErrorPoints :=
  let defaultNumErrBars : Int := 4
  ⟨[], .ok ⟨makeSlice XY.zero defaultNumErrBars, makeSlice LowHigh.zero defaultNumErrBars,
    makeSlice LowHigh.zero defaultNumErrBars⟩⟩

/-- The loop `for i, line := range lines` of `NewPaddedErrorPoints`, from the
state `i` and the entries of `errPts` filled so far. -/
def paddedLoop {XYer : Type} (f : List F64 → F64 × F64 × F64) (total : Nat) :
    List (List XYer) → Nat → List ErrorPoints → Run (List ErrorPoints)
  | [], _, errPts => ⟨[], .ok errPts⟩
  | line :: rest, i, errPts =>
    (newPaddedErrorPoints f i total line).bind
      fun pts => paddedLoop f total rest (i + 1) (errPts ++ [pts])

/-- The function `NewPaddedErrorPoints`. -/
def NewPaddedErrorPoints {XYer : Type} (f : List F64 → F64 × F64 × F64)
    (lines : List (List XYer)) : Run (List ErrorPoints) :=
  paddedLoop f lines.length lines 0 []

/-! ## Vocabulary of the properties -/

/-- The keys of a map. -/
def FMap.keys (data : FMap) : List F64 := data.map Prod.fst

/-- The key `k` is the smallest key of the map. -/
def IsSmallestKey (data : FMap) (k : F64) : Prop := k ∈ data.keys ∧ ∀ k' ∈ data.keys, k ≤ k'

/-- The key `k` is the largest key of the map. -/
def IsLargestKey (data : FMap) (k : F64) : Prop := k ∈ data.keys ∧ ∀ k' ∈ data.keys, k' ≤ k

instance (data : FMap) (k : F64) : Decidable (IsSmallestKey data k) := by
  unfold IsSmallestKey; exact inferInstance

instance (data : FMap) (k : F64) : Decidable (IsLargestKey data k) := by
  unfold IsLargestKey; exact inferInstance

instance (data : FMap) : Decidable data.WellFormed := by
  unfold FMap.WellFormed; exact inferInstance

/-- The element-wise average `(v1[i] + v2[i]) / 2.0` of two vectors. -/
def halfSum (v1 v2 : List F64) : List F64 := List.zipWith (fun a b => (a + b) / F64.fin 2) v1 v2

/-- The value of the loop variable `curX` after `m` turns of `curX += xIncr`. -/
def iterX (curX xIncr : F64) : Nat → F64
  | 0 => curX
  | m + 1 => iterX (curX + xIncr) xIncr m

/-- The spacing of the error bars, `xIncr = (maxX - minX) / float64(howManyErrorBars)`. -/
def errorBarSpacing (minX maxX : F64) (howManyErrorBars : Int) : F64 :=
  (maxX - minX) / F64.ofInt howManyErrorBars

/-- The offset of the error bars of one series,
`xOffset = (xIncr / 4.0) + float64(pointSet) * (xIncr / 2.0) / float64(totalNumberOfPointSets)`. -/
def errorBarOffset (xIncr : F64) (pointSet totalNumberOfPointSets : Int) : F64 :=
  xIncr / F64.fin 4 + F64.ofInt pointSet * (xIncr / F64.fin 2) / F64.ofInt totalNumberOfPointSets

/-- The point the first loop writes for the position `x`: `(x, central estimate)`. -/
def linePoint (f : List F64 → F64 × F64 × F64) (g : F64 → List F64) (x : F64) : XY :=
  ⟨x, (f (g x)).1⟩

/-- The y-deviation the second loop writes for the position `x`: `(low, high)`. -/
def barDeviation (f : List F64 → F64 × F64 × F64) (g : F64 → List F64) (x : F64) : LowHigh :=
  ⟨(f (g x)).2.1, (f (g x)).2.2⟩

/-- The calls made for one retained position `x`: the generator at `x`, then the
aggregation function on its observations. -/
def callsAt (g : F64 → List F64) (x : F64) : List Call := [.gen x, .agg (g x)]

/-- The positions at which a run called the generator, in order. -/
def genPositions : List Call → List F64
  | [] => []
  | .gen x :: rest => x :: genPositions rest
  | .agg _ :: rest => genPositions rest

/-- The conditions under which the first loop retains the position `x`. -/
def LineKept (f : List F64 → F64 × F64 × F64) (g : F64 → List F64)
    (maxX xIncr minRange maxRange x : F64) : Prop :=
  x ≤ maxX + xIncr ∧ ¬ (x < minRange ∨ x > maxRange) ∧ CheckFloats [x] = true ∧
    CheckFloats (g x) = true ∧ CheckFloats [(f (g x)).1] = true

/-- The conditions under which the second loop retains the base position `curX`. -/
def BarKept (f : List F64 → F64 × F64 × F64) (g : F64 → List F64)
    (maxX xIncr xOffset minRange maxRange curX : F64) : Prop :=
  curX ≤ maxX + xIncr ∧
    ¬ (curX < minRange ∨ curX > maxRange ∨ curX + xOffset < minRange ∨
      curX + xOffset > maxRange) ∧
    CheckFloats [curX + xOffset] = true ∧ CheckFloats (g (curX + xOffset)) = true ∧
    CheckFloats [(f (g (curX + xOffset))).2.1, (f (g (curX + xOffset))).2.2] = true

/-- What a pass of the two loops returns, from the start `minX`, with the spacing
`lineIncr` of the line and the spacing `errIncr` and the offset `xOffset` of the
error bars: the line holds the points of the positions retained at the turns
`ms`, the error bars those of the base positions retained at the turns `es`,
and `calls` are the calls made for them. -/
def SpacedShape (f : List F64 → F64 × F64 × F64) (g : F64 → List F64)
    (minX maxX lineIncr errIncr xOffset minRange maxRange : F64) (n E : Int)
    (pts : List XY) (bars : ErrorPoints) (calls : List Call) : Prop :=
  ∃ ms es : List Nat,
    ms.Pairwise (· < ·) ∧ es.Pairwise (· < ·) ∧ (ms.length : Int) ≤ n ∧ (es.length : Int) ≤ E ∧
    (ms ≠ [] → minX ≤ maxX + lineIncr) ∧ (es ≠ [] → minX ≤ maxX + errIncr) ∧
    pts = ms.map (fun m => linePoint f g (iterX minX lineIncr m)) ∧
    bars.XYs = es.map (fun m => linePoint f g (iterX minX errIncr m + xOffset)) ∧
    bars.XErrors = es.map (fun _ => LowHigh.zero) ∧
    bars.YErrors = es.map (fun m => barDeviation f g (iterX minX errIncr m + xOffset)) ∧
    calls = ms.flatMap (fun m => callsAt g (iterX minX lineIncr m)) ++
      es.flatMap (fun m => callsAt g (iterX minX errIncr m + xOffset)) ∧
    (∀ m ∈ ms, LineKept f g maxX lineIncr minRange maxRange (iterX minX lineIncr m)) ∧
    (∀ m ∈ es, BarKept f g maxX errIncr xOffset minRange maxRange (iterX minX errIncr m))

/-- The spacing cannot be negative when the walk starts: the property of a
spacing `xIncr` for a walk from `minX` bounded by `maxX + xIncr`. -/
def ForwardSpacing (minX maxX xIncr : F64) : Prop :=
  ∀ c s, minX = F64.fin c → xIncr = F64.fin s → F64.fin c ≤ maxX + F64.fin s → 0 ≤ s

/-- The test of the two loops on a position: it is not skipped as lying outside
the sub-range. -/
def InSubRange (minRange maxRange x : F64) : Prop := ¬ (x < minRange ∨ x > maxRange)

/-- The value of `curX` after `m` turns of `curX += xIncr` in rounded arithmetic. -/
def iterXRounded (rnd : F64 → F64) (curX xIncr : F64) : Nat → F64
  | 0 => curX
  | m + 1 => iterXRounded rnd (rnd (curX + xIncr)) xIncr m

/-- The conditions under which the first loop retains the position `x`, in
rounded arithmetic. -/
def LineKeptRounded (rnd : F64 → F64) (f : List F64 → F64 × F64 × F64) (g : F64 → List F64)
    (maxX xIncr minRange maxRange x : F64) : Prop :=
  x ≤ rnd (maxX + xIncr) ∧ ¬ (x < minRange ∨ x > maxRange) ∧ CheckFloats [x] = true ∧
    CheckFloats (g x) = true ∧ CheckFloats [(f (g x)).1] = true

/-- The conditions under which the second loop retains the base position `curX`,
in rounded arithmetic. -/
def BarKeptRounded (rnd : F64 → F64) (f : List F64 → F64 × F64 × F64) (g : F64 → List F64)
    (maxX xIncr xOffset minRange maxRange curX : F64) : Prop :=
  curX ≤ rnd (maxX + xIncr) ∧
    ¬ (curX < minRange ∨ curX > maxRange ∨ rnd (curX + xOffset) < minRange ∨
      rnd (curX + xOffset) > maxRange) ∧
    CheckFloats [rnd (curX + xOffset)] = true ∧ CheckFloats (g (rnd (curX + xOffset))) = true ∧
    CheckFloats [(f (g (rnd (curX + xOffset)))).2.1, (f (g (rnd (curX + xOffset)))).2.2] = true

/-- What a pass of the two loops returns in rounded arithmetic, from the start
`minX`, with the spacing `lineIncr` of the line and the spacing `errIncr` and
the offset `xOffset` of the error bars: the line holds the points of the positions retained at the turns
`ms`, the error bars those of the base positions retained at the turns `es`,
and `calls` are the calls made for them. -/
def SpacedShapeRounded (rnd : F64 → F64) (f : List F64 → F64 × F64 × F64) (g : F64 → List F64)
    (minX maxX lineIncr errIncr xOffset minRange maxRange : F64) (n E : Int)
    (pts : List XY) (bars : ErrorPoints) (calls : List Call) : Prop :=
  ∃ ms es : List Nat,
    ms.Pairwise (· < ·) ∧ es.Pairwise (· < ·) ∧ (ms.length : Int) ≤ n ∧ (es.length : Int) ≤ E ∧
    (ms ≠ [] → minX ≤ rnd (maxX + lineIncr)) ∧ (es ≠ [] → minX ≤ rnd (maxX + errIncr)) ∧
    pts = ms.map (fun m => linePoint f g (iterXRounded rnd minX lineIncr m)) ∧
    bars.XYs = es.map (fun m => linePoint f g (rnd (iterXRounded rnd minX errIncr m + xOffset))) ∧
    bars.XErrors = es.map (fun _ => LowHigh.zero) ∧
    bars.YErrors =
      es.map (fun m => barDeviation f g (rnd (iterXRounded rnd minX errIncr m + xOffset))) ∧
    calls = ms.flatMap (fun m => callsAt g (iterXRounded rnd minX lineIncr m)) ++
      es.flatMap (fun m => callsAt g (rnd (iterXRounded rnd minX errIncr m + xOffset))) ∧
    (∀ m ∈ ms, LineKeptRounded rnd f g maxX lineIncr minRange maxRange
      (iterXRounded rnd minX lineIncr m)) ∧
    (∀ m ∈ es, BarKeptRounded rnd f g maxX errIncr xOffset minRange maxRange
      (iterXRounded rnd minX errIncr m))

/-- The x of the error bar of index `k` that a run returns, if it returns one. -/
def barXAt (r : Run (List XY × ErrorPoints)) (k : Nat) : Option F64 :=
  match r.outcome with
  | .ok (_, bars) => (bars.XYs[k]?).map XY.X
  | _ => none

/-- The error bars `barsI` of the series `i` and `barsJ` of the series `j`, of
`N` series, are staggered. With `s` the spacing of the error bars: every error
bar of either series sits at a base position of the walk (the start `minX` plus
a number `m` of steps `s`) plus the offset of its series; and two error bars, one
of each series, of the same base position differ by `(j - i) * s / (2 * N)`, by
`s / 4` for the series 0 and 1 of 2, and are different when `s > 0`. -/
def Staggered (minX maxX : F64) (E N i j : Int) (barsI barsJ : ErrorPoints) : Prop :=
  (∀ a ∈ barsI.XYs, ∃ m : Nat, a.X =
    iterX minX (errorBarSpacing minX maxX E) m + errorBarOffset (errorBarSpacing minX maxX E) i N) ∧
  (∀ b ∈ barsJ.XYs, ∃ m : Nat, b.X =
    iterX minX (errorBarSpacing minX maxX E) m + errorBarOffset (errorBarSpacing minX maxX E) j N) ∧
  ∀ (m : Nat), ∀ a ∈ barsI.XYs, ∀ b ∈ barsJ.XYs,
    a.X = iterX minX (errorBarSpacing minX maxX E) m +
      errorBarOffset (errorBarSpacing minX maxX E) i N →
    b.X = iterX minX (errorBarSpacing minX maxX E) m +
      errorBarOffset (errorBarSpacing minX maxX E) j N →
    ∃ s : ℚ, errorBarSpacing minX maxX E = F64.fin s ∧
      b.X - a.X = F64.fin ((j - i) * s / (2 * N)) ∧
      (i = 0 → j = 1 → N = 2 → b.X - a.X = errorBarSpacing minX maxX E / F64.fin 4) ∧
      (0 < s → a.X ≠ b.X)

/-! ## Small constants used in the concrete evaluations -/

/-- An aggregation function: the first observation, with error bounds 1 and 2. -/
def firstAgg (ys : List F64) : F64 × F64 × F64 := (ys.headD (F64.fin 0), F64.fin 1, F64.fin 2)

/-- The generator `g(x) = [x]`. -/
def idGen (x : F64) : List F64 := [x]

/-- The generator `g(x) = [1.0/x]`. -/
def invGen (x : F64) : List F64 := [F64.fin 1 / x]

/-- The map `{1.0:[10], 3.0:[30], 5.0:[50]}`, visited in the order 3, 1, 5. -/
def stepMap : FMap :=
  [(F64.fin 3, [F64.fin 30]), (F64.fin 1, [F64.fin 10]), (F64.fin 5, [F64.fin 50])]

/-- The map `{1.0:[0,0], 3.0:[10,20]}`, visited in the order 3, 1. -/
def linearMap : FMap :=
  [(F64.fin 3, [F64.fin 10, F64.fin 20]), (F64.fin 1, [F64.fin 0, F64.fin 0])]

/-- The map `{1.0:[1,2], 2.0:[3]}`. -/
def mismatchedMap : FMap := [(F64.fin 1, [F64.fin 1, F64.fin 2]), (F64.fin 2, [F64.fin 3])]

/-- The generator `g(x) = [1.0]`. -/
def oneGen (_ : F64) : List F64 := [F64.fin 1]

/-- The aggregation function that returns `(1, 1, 1)`. -/
def oneAgg (_ : List F64) : F64 × F64 × F64 := (F64.fin 1, F64.fin 1, F64.fin 1)

/-- Two descriptors with the generator `g(x) = [x]`, both over the range from 0 to 2. -/
def twoGenerators : List PointGenerator :=
  [⟨idGen, ⟨F64.fin 0, F64.fin 2⟩⟩, ⟨idGen, ⟨F64.fin 0, F64.fin 2⟩⟩]

/-- The aggregation function with central estimate `1 / ys[0]` and error bounds 1 and 2. -/
def recipAgg (ys : List F64) : F64 × F64 × F64 :=
  (F64.fin 1 / ys.headD (F64.fin 1), F64.fin 1, F64.fin 2)

/-- The generator `g(x) = [x - 0.25]`. -/
def shiftGen (x : F64) : List F64 := [x - F64.fin (1 / 4)]

/-- The line of 3 points of `g(x) = [x]` over the range from 0 to 2. -/
def sampleLine : List XY :=
  [⟨F64.fin 0, F64.fin 0⟩, ⟨F64.fin 1, F64.fin 1⟩, ⟨F64.fin 2, F64.fin 2⟩]

/-- The single error bar of series 0 of 1 over the range from 0 to 2, with the
error bounds of `firstAgg`. -/
def sampleBars : ErrorPoints :=
  ⟨[⟨F64.fin (1 / 2), F64.fin (1 / 2)⟩], [⟨F64.fin 0, F64.fin 0⟩], [⟨F64.fin 1, F64.fin 2⟩]⟩

/-- What `NewErrorPointsXSpaced` returns for `twoGenerators`, 3 points and 1
error bar over the range from 0 to 2. -/
def sampleEntries : List PointsAndErrorPoints :=
  [⟨sampleLine, sampleBars⟩,
    ⟨[⟨F64.fin 0, F64.fin 0⟩, ⟨F64.fin 2, F64.fin 2⟩],
      ⟨[⟨F64.fin 1, F64.fin 1⟩], [⟨F64.fin 0, F64.fin 0⟩], [⟨F64.fin 1, F64.fin 2⟩]⟩⟩]

/-- The map `{NaN:[0,0], 1.0:[0,0], 3.0:[10,20]}`, visited in the order 3, NaN, 1. -/
def nanKeyMap : FMap :=
  [(F64.fin 3, [F64.fin 10, F64.fin 20]), (F64.nan, [F64.fin 0, F64.fin 0]),
    (F64.fin 1, [F64.fin 0, F64.fin 0])]

/-- The single error bar of series 1 of 2 over the range from 0 to 2, with the
error bounds of `firstAgg`. -/
def sampleBarsSecond : ErrorPoints :=
  ⟨[⟨F64.fin 1, F64.fin 1⟩], [⟨F64.fin 0, F64.fin 0⟩], [⟨F64.fin 1, F64.fin 2⟩]⟩

/-- The `float64` nearest to 0.1. -/
def tenth : F64 := F64.round (F64.fin (1 / 10))

/-- The `float64` nearest to 0.7. -/
def sevenTenths : F64 := F64.round (F64.fin (7 / 10))

/-- The line of 2 points of `g(x) = [x]` over the range from `tenth` to
`sevenTenths`, in `float64`. -/
def tenthsLine : List XY :=
  [⟨F64.fin (3602879701896397 / 2 ^ 55), F64.fin (3602879701896397 / 2 ^ 55)⟩,
    ⟨F64.fin (3152519739159347 / 2 ^ 52), F64.fin (3152519739159347 / 2 ^ 52)⟩]

/-- The 2 error bars of series 0 of 1 over the range from `tenth` to
`sevenTenths`, in `float64`, with the error bounds of `firstAgg`: they sit at
0.175 and 0.47500000000000003. -/
def tenthsBars : ErrorPoints :=
  ⟨[⟨F64.fin (3152519739159347 / 2 ^ 54), F64.fin (3152519739159347 / 2 ^ 54)⟩,
      ⟨F64.fin (8556839292003943 / 2 ^ 54), F64.fin (8556839292003943 / 2 ^ 54)⟩],
    [⟨F64.fin 0, F64.fin 0⟩, ⟨F64.fin 0, F64.fin 0⟩],
    [⟨F64.fin 1, F64.fin 2⟩, ⟨F64.fin 1, F64.fin 2⟩]⟩

/-- The call of `NewErrorPointsSpaced` in `float64` for series `i` of 2, with 2
points and 10 error bars of `g(x) = [x]` over the range from 0 to 1. -/
def unitRun (i : Int) : Run (List XY × ErrorPoints) :=
  NewErrorPointsSpacedRounded F64.round 20 firstAgg i 2 2 10 (F64.fin 0) (F64.fin 1) idGen
    (F64.fin 0) (F64.fin 1)

/-- The call of `NewErrorPointsSpaced` in `float64` for series `i` of 2, with 2
points and 1 error bar of `g(x) = [x]` over the range from `10^16` to
`10^16 + 2`. -/
def largeRun (i : Int) : Run (List XY × ErrorPoints) :=
  NewErrorPointsSpacedRounded F64.round 10 firstAgg i 2 2 1 (F64.fin (10 ^ 16))
    (F64.fin (10 ^ 16 + 2)) idGen (F64.fin (10 ^ 16)) (F64.fin (10 ^ 16 + 2))

/-! ## Theorems -/

/-- C9. With a point count below 2, `NewErrorPointsSpaced` and
`NewErrorPointsXSpaced` panic with the configuration error, whatever the other
arguments (an empty list of generators included), having called neither the
generator nor the aggregation function, and with no output. -/
theorem too_few_points_panics (fuel : Nat) (f : List F64 → F64 × F64 × F64)
    (pointSet totalNumberOfPointSets howManyPoints howManyErrorBars : Int)
    (minX maxX : F64) (pointsGenerator : F64 → List F64) (minRange maxRange : F64)
    (dataRange : Float64Range) (pointsGenerators : List PointGenerator)
    (h : howManyPoints < 2) :
    NewErrorPointsSpaced fuel f pointSet totalNumberOfPointSets howManyPoints howManyErrorBars
        minX maxX pointsGenerator minRange maxRange = ⟨[], .panic .tooFewPoints⟩ ∧
    NewErrorPointsXSpaced fuel f howManyPoints howManyErrorBars dataRange pointsGenerators =
        ⟨[], .panic .tooFewPoints⟩ := by
  simp [NewErrorPointsSpaced, NewErrorPointsXSpaced, h]

/-- C9, at point count 1 and at point count -3 with no generator at all. -/
theorem too_few_points_panics_witness :
    NewErrorPointsSpaced 5 firstAgg 0 1 1 4 (F64.fin 0) (F64.fin 1) idGen (F64.fin 0) (F64.fin 1)
        = ⟨[], .panic .tooFewPoints⟩ ∧
    NewErrorPointsXSpaced 5 firstAgg (-3) 4 ⟨F64.fin 0, F64.fin 1⟩ [] =
        ⟨[], .panic .tooFewPoints⟩ :=
  ⟨(too_few_points_panics 5 firstAgg 0 1 1 4 (F64.fin 0) (F64.fin 1) idGen (F64.fin 0) (F64.fin 1)
      ⟨F64.fin 0, F64.fin 1⟩ [] (by decide)).1,
   (too_few_points_panics 5 firstAgg 0 1 (-3) 4 (F64.fin 0) (F64.fin 1) idGen (F64.fin 0)
      (F64.fin 1) ⟨F64.fin 0, F64.fin 1⟩ [] (by decide)).2⟩


theorem all_checkFloats (ys : List F64) : ys.all (fun y => CheckFloats [y]) = CheckFloats ys := by
  induction ys with
  | nil => rfl
  | cons a l ih => simp [CheckFloats, List.all_cons]

theorem spacedLineLoop_bad_gen (f : List F64 → F64 × F64 × F64) (g : F64 → List F64)
    (maxX xIncr minRange maxRange : F64) (x : F64) (hx : CheckFloats (g x) = false) :
    ∀ (fuel i : Nat) (curX : F64) (points : List XY),
      Call.gen x ∈ (spacedLineLoop f g maxX xIncr minRange maxRange fuel i curX points).calls →
      (spacedLineLoop f g maxX xIncr minRange maxRange fuel i curX points).outcome = .error := by
  intro fuel
  induction fuel with
  | zero => intro i curX points h; simp [spacedLineLoop] at h
  | succ fuel ih =>
    intro i curX points
    unfold spacedLineLoop
    simp only [all_checkFloats]
    repeat' split
    all_goals first
      | exact ih _ _ _
      | (intro hmem
         simp only [Run.after, List.mem_append, List.mem_cons, Call.gen.injEq,
           reduceCtorEq, or_false, List.not_mem_nil, List.cons_append, List.nil_append,
           false_or] at hmem
         try first
           | rfl
           | exact absurd hmem id
           | (rcases hmem with rfl | hmem
              · simp_all
              · exact ih _ _ _ hmem)
           | (subst hmem; simp_all))

theorem spacedErrorLoop_bad_gen (f : List F64 → F64 × F64 × F64) (g : F64 → List F64)
    (maxX xIncr xOffset minRange maxRange : F64) (x : F64) (hx : CheckFloats (g x) = false) :
    ∀ (fuel i : Nat) (curX : F64) (errorBars : ErrorPoints),
      Call.gen x ∈
        (spacedErrorLoop f g maxX xIncr xOffset minRange maxRange fuel i curX errorBars).calls →
      (spacedErrorLoop f g maxX xIncr xOffset minRange maxRange fuel i curX errorBars).outcome
        = .error := by
  intro fuel
  induction fuel with
  | zero => intro i curX points h; simp [spacedErrorLoop] at h
  | succ fuel ih =>
    intro i curX points
    unfold spacedErrorLoop
    simp only [all_checkFloats]
    repeat' split
    all_goals first
      | exact ih _ _ _
      | (intro hmem
         simp only [Run.after, List.mem_append, List.mem_cons, Call.gen.injEq,
           reduceCtorEq, or_false, List.not_mem_nil, List.cons_append, List.nil_append,
           false_or] at hmem
         try first
           | rfl
           | exact absurd hmem id
           | (rcases hmem with rfl | hmem
              · simp_all
              · exact ih _ _ _ hmem)
           | (subst hmem; simp_all))

theorem Run.bind_bad_call {α β : Type} (r : Run α) (k : α → Run β) (c : Call)
    (hr : c ∈ r.calls → r.outcome = .error)
    (hk : ∀ a, c ∈ (k a).calls → (k a).outcome = .error) :
    c ∈ (r.bind k).calls → (r.bind k).outcome = .error := by
  unfold Run.bind
  cases ho : r.outcome with
  | ok a =>
    simp only [Run.after, List.mem_append]
    rintro (h | h)
    · rw [hr h] at ho; cases ho
    · exact hk a h
  | error => simp
  | panic p => simp only; intro h; rw [hr h] at ho; cases ho
  | outOfFuel => simp only; intro h; rw [hr h] at ho; cases ho

/-- C10. If the generator returns a non-finite observation at a position at
which `NewErrorPointsSpaced` calls it (a retained x of the line or a retained
offset position of an error bar), the call returns the validation error and no
data. -/
theorem generator_nonfinite_aborts (fuel : Nat) (f : List F64 → F64 × F64 × F64)
    (pointSet totalNumberOfPointSets howManyPoints howManyErrorBars : Int)
    (minX maxX : F64) (pointsGenerator : F64 → List F64) (minRange maxRange : F64) (x : F64)
    (hcall : Call.gen x ∈ (NewErrorPointsSpaced fuel f pointSet totalNumberOfPointSets
      howManyPoints howManyErrorBars minX maxX pointsGenerator minRange maxRange).calls)
    (hbad : ∃ y ∈ pointsGenerator x, F64.isFinite y = false) :
    (NewErrorPointsSpaced fuel f pointSet totalNumberOfPointSets howManyPoints howManyErrorBars
      minX maxX pointsGenerator minRange maxRange).outcome = .error := by
  have hx : CheckFloats (pointsGenerator x) = false := by
    obtain ⟨y, hy, hfin⟩ := hbad
    simp only [CheckFloats, List.all_eq_false]
    exact ⟨y, hy, by simp [hfin]⟩
  revert hcall
  unfold NewErrorPointsSpaced
  split
  · simp
  · split
    · simp
    · apply Run.bind_bad_call
      · exact spacedLineLoop_bad_gen f pointsGenerator _ _ _ _ x hx _ _ _ _
      · rintro ⟨i, points⟩
        apply Run.bind_bad_call
        · exact spacedErrorLoop_bad_gen f pointsGenerator _ _ _ _ _ x hx _ _ _ _
        · rintro ⟨j, bars⟩; simp

/-- C10 for `g(x) = [1.0/x]` sampled over the range from 0 to 1: the first
position is 0, where the observation is infinite. -/
theorem generator_nonfinite_aborts_witness :
    Call.gen (F64.fin 0) ∈ (NewErrorPointsSpaced 10 firstAgg 0 1 2 1 (F64.fin 0) (F64.fin 1)
      invGen (F64.fin 0) (F64.fin 1)).calls ∧
    (NewErrorPointsSpaced 10 firstAgg 0 1 2 1 (F64.fin 0) (F64.fin 1) invGen (F64.fin 0)
      (F64.fin 1)).outcome = .error :=
  ⟨by decide!, generator_nonfinite_aborts 10 firstAgg 0 1 2 1 (F64.fin 0) (F64.fin 1) invGen
    (F64.fin 0) (F64.fin 1) (F64.fin 0) (by decide!) ⟨F64.posInf, by decide!, rfl⟩⟩

/-! ### The order of `float64` away from NaN -/

theorem f64_lt_iff (a b : F64) : a < b ↔ F64.lt a b = true := Iff.rfl

theorem f64_le_iff (a b : F64) : a ≤ b ↔ F64.le a b = true := Iff.rfl

theorem f64_fin_lt_fin (a b : ℚ) : F64.fin a < F64.fin b ↔ a < b := by
  simp [f64_lt_iff, F64.lt]

theorem f64_fin_le_fin (a b : ℚ) : F64.fin a ≤ F64.fin b ↔ a ≤ b := by
  simp [f64_le_iff, F64.le]

theorem f64_not_nan_of_lt_left {a b : F64} (h : a < b) : a.isNaN = false := by
  cases a <;> cases b <;> simp_all [f64_lt_iff, F64.lt, F64.isNaN]

theorem f64_not_nan_of_lt_right {a b : F64} (h : a < b) : b.isNaN = false := by
  cases a <;> cases b <;> simp_all [f64_lt_iff, F64.lt, F64.isNaN]

theorem f64_not_nan_of_le_left {a b : F64} (h : a ≤ b) : a.isNaN = false := by
  cases a <;> cases b <;> simp_all [f64_le_iff, F64.le, F64.isNaN]

theorem f64_not_nan_of_le_right {a b : F64} (h : a ≤ b) : b.isNaN = false := by
  cases a <;> cases b <;> simp_all [f64_le_iff, F64.le, F64.isNaN]

theorem f64_le_refl_of_not_nan {a : F64} (h : a.isNaN = false) : a ≤ a := by
  cases a <;> simp_all [f64_le_iff, F64.le, F64.isNaN]

theorem f64_le_of_lt {a b : F64} (h : a < b) : a ≤ b := by
  cases a <;> cases b <;> simp_all [f64_lt_iff, f64_le_iff, F64.lt, F64.le]
  exact le_of_lt h

theorem f64_le_of_not_lt {a b : F64} (ha : a.isNaN = false) (hb : b.isNaN = false)
    (h : ¬ a < b) : b ≤ a := by
  cases a <;> cases b <;> simp_all [f64_lt_iff, f64_le_iff, F64.lt, F64.le, F64.isNaN]

theorem f64_lt_of_not_le {a b : F64} (ha : a.isNaN = false) (hb : b.isNaN = false)
    (h : ¬ a ≤ b) : b < a := by
  cases a <;> cases b <;> simp_all [f64_lt_iff, f64_le_iff, F64.lt, F64.le, F64.isNaN]

theorem f64_not_le_of_lt {a b : F64} (h : a < b) : ¬ b ≤ a := by
  cases a <;> cases b <;> simp_all [f64_lt_iff, f64_le_iff, F64.lt, F64.le]

theorem f64_not_lt_of_le {a b : F64} (h : a ≤ b) : ¬ b < a := by
  cases a <;> cases b <;> simp_all [f64_lt_iff, f64_le_iff, F64.lt, F64.le]

theorem f64_le_trans {a b c : F64} (h1 : a ≤ b) (h2 : b ≤ c) : a ≤ c := by
  cases a <;> cases b <;> cases c <;> simp_all [f64_le_iff, F64.le]
  exact le_trans h1 h2

theorem f64_lt_of_lt_of_le {a b c : F64} (h1 : a < b) (h2 : b ≤ c) : a < c := by
  cases a <;> cases b <;> cases c <;> simp_all [f64_lt_iff, f64_le_iff, F64.lt, F64.le]
  exact lt_of_lt_of_le h1 h2

theorem f64_lt_of_le_of_lt {a b c : F64} (h1 : a ≤ b) (h2 : b < c) : a < c := by
  cases a <;> cases b <;> cases c <;> simp_all [f64_lt_iff, f64_le_iff, F64.lt, F64.le]
  exact lt_of_le_of_lt h1 h2

theorem f64_le_antisymm {a b : F64} (h1 : a ≤ b) (h2 : b ≤ a) : a = b := by
  cases a <;> cases b <;> simp_all [f64_le_iff, F64.le]
  exact le_antisymm h1 h2

theorem f64_eq_self_of_not_nan {a : F64} (h : a.isNaN = false) : F64.eq a a = true := by
  cases a <;> simp_all [F64.eq, F64.isNaN]

theorem f64_eq_of_eq {a b : F64} (h : F64.eq a b = true) : a = b := by
  cases a <;> cases b <;> simp_all [F64.eq]

/-! ### Sorting and scanning -/

theorem sortedKeys_perm (data : FMap) : (sortedKeys data).Perm (data.map Prod.fst) :=
  List.perm_insertionSort _ _

theorem mem_sortedKeys (data : FMap) (k : F64) : k ∈ sortedKeys data ↔ k ∈ data.map Prod.fst :=
  (sortedKeys_perm data).mem_iff

theorem sortedKeys_length (data : FMap) : (sortedKeys data).length = data.length := by
  rw [(sortedKeys_perm data).length_eq, List.length_map]

theorem sortedKeys_pairwise (data : FMap) : (sortedKeys data).Pairwise sortLE :=
  List.sorted_insertionSort _ _

theorem sortLE_le {a b : F64} (ha : a.isNaN = false) (hb : b.isNaN = false) (h : sortLE a b) :
    a ≤ b := by
  apply f64_le_of_not_lt hb ha
  intro hlt
  exact h (Or.inl hlt)

/-- In the sorted keys of a map without NaN key, an earlier key is below a later one. -/
theorem sortedKeys_le (data : FMap) (hnan : ∀ k ∈ data.map Prod.fst, F64.isNaN k = false)
    (i j : Nat) (a b : F64) (hij : i ≤ j) (hi : (sortedKeys data)[i]? = some a)
    (hj : (sortedKeys data)[j]? = some b) : a ≤ b := by
  have ha : a.isNaN = false :=
    hnan a ((mem_sortedKeys data a).1 (List.mem_iff_getElem?.2 ⟨i, hi⟩))
  have hb : b.isNaN = false :=
    hnan b ((mem_sortedKeys data b).1 (List.mem_iff_getElem?.2 ⟨j, hj⟩))
  rcases Nat.eq_or_lt_of_le hij with heq | hlt
  · subst heq
    rw [hi] at hj
    cases hj
    exact f64_le_refl_of_not_nan ha
  · obtain ⟨hi', rfl⟩ := List.getElem?_eq_some_iff.1 hi
    obtain ⟨hj', rfl⟩ := List.getElem?_eq_some_iff.1 hj
    exact sortLE_le ha hb (List.pairwise_iff_getElem.1 (sortedKeys_pairwise data) i j hi' hj' hlt)

theorem takeWhile_length_spec {α : Type} (p : α → Bool) (l : List α) :
    (∀ i k, i < (l.takeWhile p).length → l[i]? = some k → p k = true) ∧
    (∀ k, l[(l.takeWhile p).length]? = some k → p k = false) := by
  induction l with
  | nil => simp
  | cons a l ih =>
    by_cases hp : p a = true
    · rw [List.takeWhile_cons_of_pos hp]
      constructor
      · intro i k hi hk
        cases i with
        | zero => simp at hk; rw [← hk]; exact hp
        | succ i =>
          simp only [List.length_cons, Nat.add_lt_add_iff_right] at hi
          simp only [List.getElem?_cons_succ] at hk
          exact ih.1 i k hi hk
      · intro k hk
        simp only [List.length_cons, List.getElem?_cons_succ] at hk
        exact ih.2 k hk
    · rw [List.takeWhile_cons_of_neg hp]
      constructor
      · intro i k hi; simp at hi
      · intro k hk
        simp at hk
        rw [← hk]; simpa using hp

theorem linearScan_eq (x : F64) (l : List F64) (p : Nat) :
    linearScan x l p = p + (l.takeWhile (fun k => decide (k < x))).length := by
  induction l generalizing p with
  | nil => simp [linearScan]
  | cons a l ih =>
    by_cases h : a < x
    · simp [linearScan, h, ih]; omega
    · simp [linearScan, h]

theorem stepScan_eq (x : F64) (l : List F64) (p : Nat) :
    stepScan x l p = p + (l.takeWhile (fun k => decide (k ≤ x))).length := by
  induction l generalizing p with
  | nil => simp [stepScan]
  | cons a l ih =>
    by_cases h : a ≤ x
    · simp [stepScan, h, ih]; omega
    · simp [stepScan, h]

theorem linearScan_le (x : F64) (l : List F64) : linearScan x l 0 ≤ l.length := by
  rw [linearScan_eq, Nat.zero_add]; exact (List.takeWhile_sublist _).length_le

theorem stepScan_le (x : F64) (l : List F64) : stepScan x l 0 ≤ l.length := by
  rw [stepScan_eq, Nat.zero_add]; exact (List.takeWhile_sublist _).length_le

theorem linearScan_before (x : F64) (l : List F64) (i : Nat) (k : F64)
    (hi : i < linearScan x l 0) (hk : l[i]? = some k) : k < x := by
  rw [linearScan_eq, Nat.zero_add] at hi
  simpa using (takeWhile_length_spec _ l).1 i k hi hk

theorem linearScan_at (x : F64) (l : List F64) (k : F64)
    (hk : l[linearScan x l 0]? = some k) : ¬ k < x := by
  rw [linearScan_eq, Nat.zero_add] at hk
  simpa using (takeWhile_length_spec _ l).2 k hk

theorem stepScan_before (x : F64) (l : List F64) (i : Nat) (k : F64)
    (hi : i < stepScan x l 0) (hk : l[i]? = some k) : k ≤ x := by
  rw [stepScan_eq, Nat.zero_add] at hi
  simpa using (takeWhile_length_spec _ l).1 i k hi hk

theorem stepScan_at (x : F64) (l : List F64) (k : F64)
    (hk : l[stepScan x l 0]? = some k) : ¬ k ≤ x := by
  rw [stepScan_eq, Nat.zero_add] at hk
  simpa using (takeWhile_length_spec _ l).2 k hk

/-! ### Map access, averaging, size check -/

theorem FMap.get_of_mem (data : FMap) (hwf : data.WellFormed) (k : F64) (v : List F64)
    (hmem : (k, v) ∈ data) (hk : k.isNaN = false) : data.get k = v := by
  induction data with
  | nil => simp at hmem
  | cons e rest ih =>
    obtain ⟨k', v'⟩ := e
    simp only [FMap.WellFormed, List.map_cons, List.pairwise_cons] at hwf
    rcases List.mem_cons.1 hmem with heq | hin
    · cases heq
      simp [FMap.get, List.find?_cons, f64_eq_self_of_not_nan hk]
    · have hne : F64.eq k' k = false := hwf.1 k (List.mem_map.2 ⟨(k, v), hin, rfl⟩)
      have := ih hwf.2 hin
      simp only [FMap.get, List.find?_cons, hne] at this ⊢
      exact this

theorem average_ok (v1 v2 : List F64) (h : v1.length ≤ v2.length) :
    average v1 v2 = .ok (List.zipWith (fun a b => (a + b) / F64.fin 2) v1 v2) := by
  induction v1 generalizing v2 with
  | nil => simp [average]
  | cons a v1 ih =>
    cases v2 with
    | nil => simp at h
    | cons b v2 =>
      simp only [List.length_cons, Nat.add_le_add_iff_right] at h
      simp [average, ih v2 h]

theorem checkSizes_pos (rest : FMap) (i : Nat) (size : Int) (hi : i ≠ 0) :
    checkSizes rest i size =
      if ∀ e ∈ rest, (e.2.length : Int) = size then .ok size else .panic .mismatchedSizes := by
  induction rest generalizing i with
  | nil => simp [checkSizes]
  | cons e rest ih =>
    obtain ⟨k, v⟩ := e
    by_cases hv : (v.length : Int) = size
    · have hv' : ¬ size ≠ (v.length : Int) := by simp [hv]
      rw [checkSizes, if_neg hi, if_neg hv', ih (i + 1) (by omega)]
      by_cases hall : ∀ e ∈ rest, (e.2.length : Int) = size
      · rw [if_pos hall, if_pos]
        intro e he
        rcases List.mem_cons.1 he with rfl | h
        · exact hv
        · exact hall e h
      · rw [if_neg hall, if_neg]
        intro h
        exact hall (fun e he => h e (List.mem_cons_of_mem _ he))
    · have hv' : size ≠ (v.length : Int) := fun h => hv h.symm
      rw [checkSizes, if_neg hi, if_pos hv', if_neg]
      intro h
      exact hv (h (k, v) (List.mem_cons_self _ _))

theorem checkSizes_ok (data : FMap) (L : Nat) (h : ∀ e ∈ data, e.2.length = L) :
    ∃ size, checkSizes data 0 (-1) = .ok size := by
  cases data with
  | nil => exact ⟨-1, by simp [checkSizes]⟩
  | cons e rest =>
    obtain ⟨k, v⟩ := e
    refine ⟨(v.length : Int), ?_⟩
    rw [checkSizes, if_pos rfl, checkSizes_pos _ _ _ (by omega)]
    rw [if_pos]
    intro e he
    have h1 := h e (List.mem_cons_of_mem _ he)
    have h2 := h (k, v) (List.mem_cons_self _ _)
    simp only at h2
    rw [h1, h2]

theorem linear_ok (data : FMap) (L : Nat) (h : ∀ e ∈ data, e.2.length = L) :
    LinearInterpolationFunction data = .ok (linearQuery data (sortedKeys data)) := by
  obtain ⟨size, hs⟩ := checkSizes_ok data L h
  simp [LinearInterpolationFunction, hs]

theorem linear_panic_iff (data : FMap) :
    LinearInterpolationFunction data = .panic .mismatchedSizes ↔
      ∃ e1 ∈ data, ∃ e2 ∈ data, e1.2.length ≠ e2.2.length := by
  constructor
  · intro hp
    by_contra hno
    push_neg at hno
    cases data with
    | nil => simp [LinearInterpolationFunction, checkSizes] at hp
    | cons e rest =>
      have := linear_ok (e :: rest) e.2.length
        (fun e' he' => hno e' he' e (List.mem_cons_self _ _))
      rw [this] at hp
      cases hp
  · rintro ⟨e1, h1, e2, h2, hne⟩
    cases data with
    | nil => simp at h1
    | cons e rest =>
      obtain ⟨k, v⟩ := e
      have hsome : ¬ ∀ e' ∈ rest, (e'.2.length : Int) = (v.length : Int) := by
        intro hall
        have hall' : ∀ e' ∈ (k, v) :: rest, e'.2.length = v.length := by
          intro e' he'
          rcases List.mem_cons.1 he' with rfl | hr
          · rfl
          · exact_mod_cast hall e' hr
        exact hne ((hall' e1 h1).trans (hall' e2 h2).symm)
      simp only [LinearInterpolationFunction]
      rw [checkSizes, if_pos rfl, checkSizes_pos _ _ _ (by omega), if_neg hsome]

/-! ### The two queries -/

theorem f64_eq_or_lt_of_le {a b : F64} (h : a ≤ b) : a = b ∨ a < b := by
  by_cases hba : b ≤ a
  · exact Or.inl (f64_le_antisymm h hba)
  · exact Or.inr (f64_lt_of_not_le (f64_not_nan_of_le_right h) (f64_not_nan_of_le_left h) hba)

/-- The closure of `LinearInterpolationFunction` at an `x` with `k1 < x ≤ k2`
for two keys with no key strictly between them: the average of their vectors. -/
theorem linearQuery_between (data : FMap) (hwf : data.WellFormed)
    (hnan : ∀ k ∈ data.map Prod.fst, F64.isNaN k = false)
    (x k1 k2 : F64) (v1 v2 : List F64) (h1 : (k1, v1) ∈ data) (h2 : (k2, v2) ∈ data)
    (hlen : v1.length ≤ v2.length)
    (hlt : k1 < x) (hle : x ≤ k2) (hadj : ∀ k ∈ data.map Prod.fst, ¬ (k1 < k ∧ k < k2)) :
    linearQuery data (sortedKeys data) x =
      .ok (List.zipWith (fun a b => (a + b) / F64.fin 2) v1 v2) := by
  have hk1 : k1 ∈ data.map Prod.fst := List.mem_map.2 ⟨_, h1, rfl⟩
  have hk2 : k2 ∈ data.map Prod.fst := List.mem_map.2 ⟨_, h2, rfl⟩
  obtain ⟨a, ha⟩ := List.mem_iff_getElem?.1 ((mem_sortedKeys data k1).2 hk1)
  obtain ⟨b, hb⟩ := List.mem_iff_getElem?.1 ((mem_sortedKeys data k2).2 hk2)
  have hxn : x.isNaN = false := f64_not_nan_of_lt_right hlt
  have hblen : b < (sortedKeys data).length := (List.getElem?_eq_some_iff.1 hb).1
  have halen : a < (sortedKeys data).length := (List.getElem?_eq_some_iff.1 ha).1
  -- the scan stops after `k1` and not after `k2`
  have haj : a < linearScan x (sortedKeys data) 0 := by
    by_contra hcon
    have hja : linearScan x (sortedKeys data) 0 ≤ a := Nat.le_of_not_lt hcon
    have hjlen : linearScan x (sortedKeys data) 0 < (sortedKeys data).length := by omega
    have hj := List.getElem?_eq_getElem hjlen
    exact linearScan_at x _ _ hj
      (f64_lt_of_le_of_lt (sortedKeys_le data hnan _ _ _ _ hja hj ha) hlt)
  have hjb : linearScan x (sortedKeys data) 0 ≤ b := by
    by_contra hcon
    exact f64_not_lt_of_le hle (linearScan_before x _ b k2 (Nat.lt_of_not_le hcon) hb)
  have hjlen : linearScan x (sortedKeys data) 0 < (sortedKeys data).length := by omega
  have hilen : linearScan x (sortedKeys data) 0 - 1 < (sortedKeys data).length := by omega
  have hj := List.getElem?_eq_getElem hjlen
  have hi := List.getElem?_eq_getElem hilen
  have hkj : (sortedKeys data)[linearScan x (sortedKeys data) 0] ∈ data.map Prod.fst :=
    (mem_sortedKeys data _).1 (List.getElem_mem _)
  have hki : (sortedKeys data)[linearScan x (sortedKeys data) 0 - 1] ∈ data.map Prod.fst :=
    (mem_sortedKeys data _).1 (List.getElem_mem _)
  have ej : (sortedKeys data)[linearScan x (sortedKeys data) 0] = k2 := by
    have hxj := f64_le_of_not_lt (hnan _ hkj) hxn (linearScan_at x _ _ hj)
    rcases f64_eq_or_lt_of_le (sortedKeys_le data hnan _ _ _ _ hjb hj hb) with h | h
    · exact h
    · exact absurd ⟨f64_lt_of_lt_of_le hlt hxj, h⟩ (hadj _ hkj)
  have ei : (sortedKeys data)[linearScan x (sortedKeys data) 0 - 1] = k1 := by
    have hix := linearScan_before x _ _ _ (by omega) hi
    rcases f64_eq_or_lt_of_le (sortedKeys_le data hnan a _ _ _ (by omega) ha hi) with h | h
    · exact h.symm
    · exact absurd ⟨h, f64_lt_of_lt_of_le hix hle⟩ (hadj _ hki)
  rw [ej] at hj
  rw [ei] at hi
  have hcond : ¬ (linearScan x (sortedKeys data) 0 ≥ (sortedKeys data).length ∨
      linearScan x (sortedKeys data) 0 = 0) := by omega
  simp only [linearQuery, if_neg hcond, hi, hj]
  rw [FMap.get_of_mem data hwf k1 v1 h1 (hnan _ hk1), FMap.get_of_mem data hwf k2 v2 h2 (hnan _ hk2)]
  exact average_ok v1 v2 hlen

theorem stepFunction_inside (data : FMap) (x k : F64)
    (hj : (sortedKeys data)[stepScan x (sortedKeys data) 0]? = some k) :
    StepFunction data x =
      if stepScan x (sortedKeys data) 0 = 0 ∧ k > x then .panic .undefinedValue
      else .ok (data.get k) := by
  have hlt : stepScan x (sortedKeys data) 0 < (sortedKeys data).length :=
    (List.getElem?_eq_some_iff.1 hj).1
  have h1 : ¬ ((stepScan x (sortedKeys data) 0 : Int) ≥ ((sortedKeys data).length : Int)) := by
    omega
  have h2 : ¬ ((stepScan x (sortedKeys data) 0 : Int) < 0) := by omega
  simp only [StepFunction, if_neg h1, if_neg h2, Int.toNat_ofNat, hj, Int.natCast_eq_zero]

theorem stepFunction_clamped (data : FMap) (x k : F64)
    (hj : (sortedKeys data).length ≤ stepScan x (sortedKeys data) 0)
    (hk : (sortedKeys data)[(sortedKeys data).length - 1]? = some k) :
    StepFunction data x =
      if (sortedKeys data).length - 1 = 0 ∧ k > x then .panic .undefinedValue
      else .ok (data.get k) := by
  have hlt : (sortedKeys data).length - 1 < (sortedKeys data).length :=
    (List.getElem?_eq_some_iff.1 hk).1
  have h1 : ((stepScan x (sortedKeys data) 0 : Int) ≥ ((sortedKeys data).length : Int)) := by
    omega
  have h2 : ¬ (((sortedKeys data).length : Int) - 1 < 0) := by omega
  have h3 : (((sortedKeys data).length : Int) - 1).toNat = (sortedKeys data).length - 1 := by
    omega
  have h4 : (((sortedKeys data).length : Int) - 1 = 0) ↔ ((sortedKeys data).length - 1 = 0) := by
    omega
  simp only [StepFunction, if_pos h1, if_neg h2, h3, hk, h4]

theorem keys_not_nan (data : FMap) (kmin : F64) (hmin : IsSmallestKey data kmin) :
    ∀ k ∈ data.map Prod.fst, F64.isNaN k = false :=
  fun k hk => f64_not_nan_of_le_right (hmin.2 k hk)

theorem stepFunction_below (data : FMap) (kmin : F64) (hmin : IsSmallestKey data kmin) (x : F64)
    (hx : x < kmin) : StepFunction data x = .panic .undefinedValue := by
  have hnan := keys_not_nan data kmin hmin
  obtain ⟨a, ha⟩ := List.mem_iff_getElem?.1 ((mem_sortedKeys data kmin).2 hmin.1)
  have halen : a < (sortedKeys data).length := (List.getElem?_eq_some_iff.1 ha).1
  have h0len : 0 < (sortedKeys data).length := by omega
  have h0 := List.getElem?_eq_getElem h0len
  have hk0 : (sortedKeys data)[0] ∈ data.map Prod.fst :=
    (mem_sortedKeys data _).1 (List.getElem_mem _)
  have hx0 : x < (sortedKeys data)[0] := f64_lt_of_lt_of_le hx (hmin.2 _ hk0)
  have hj0 : stepScan x (sortedKeys data) 0 = 0 := by
    by_contra hne
    exact f64_not_le_of_lt hx0 (stepScan_before x _ 0 _ (by omega) h0)
  have h0' : (sortedKeys data)[stepScan x (sortedKeys data) 0]? = some (sortedKeys data)[0] := by
    rw [hj0]; exact h0
  rw [stepFunction_inside data x _ h0', if_pos]
  exact ⟨hj0, hx0⟩

theorem stepFunction_next (data : FMap) (hwf : data.WellFormed) (kmin : F64)
    (hmin : IsSmallestKey data kmin) (x : F64) (hge : kmin ≤ x) (k : F64) (v : List F64)
    (hkv : (k, v) ∈ data) (hxk : x < k) (hleast : ∀ k' ∈ data.keys, x < k' → k ≤ k') :
    StepFunction data x = .ok v := by
  have hnan := keys_not_nan data kmin hmin
  have hxn : x.isNaN = false := f64_not_nan_of_lt_left hxk
  have hk : k ∈ data.map Prod.fst := List.mem_map.2 ⟨_, hkv, rfl⟩
  obtain ⟨a, ha⟩ := List.mem_iff_getElem?.1 ((mem_sortedKeys data kmin).2 hmin.1)
  obtain ⟨b, hb⟩ := List.mem_iff_getElem?.1 ((mem_sortedKeys data k).2 hk)
  have hblen : b < (sortedKeys data).length := (List.getElem?_eq_some_iff.1 hb).1
  have hjb : stepScan x (sortedKeys data) 0 ≤ b := by
    by_contra hcon
    exact f64_not_le_of_lt hxk (stepScan_before x _ b k (Nat.lt_of_not_le hcon) hb)
  have haj : a < stepScan x (sortedKeys data) 0 := by
    by_contra hcon
    have hja : stepScan x (sortedKeys data) 0 ≤ a := Nat.le_of_not_lt hcon
    have hjlen : stepScan x (sortedKeys data) 0 < (sortedKeys data).length := by omega
    have hj := List.getElem?_eq_getElem hjlen
    exact stepScan_at x _ _ hj (f64_le_trans (sortedKeys_le data hnan _ _ _ _ hja hj ha) hge)
  have hjlen : stepScan x (sortedKeys data) 0 < (sortedKeys data).length := by omega
  have hj := List.getElem?_eq_getElem hjlen
  have hkj : (sortedKeys data)[stepScan x (sortedKeys data) 0] ∈ data.map Prod.fst :=
    (mem_sortedKeys data _).1 (List.getElem_mem _)
  have ej : (sortedKeys data)[stepScan x (sortedKeys data) 0] = k :=
    f64_le_antisymm (sortedKeys_le data hnan _ _ _ _ hjb hj hb)
      (hleast _ hkj (f64_lt_of_not_le (hnan _ hkj) hxn (stepScan_at x _ _ hj)))
  rw [ej] at hj
  rw [stepFunction_inside data x k hj, if_neg (by omega), FMap.get_of_mem data hwf k v hkv (hnan _ hk)]

theorem stepFunction_last (data : FMap) (hwf : data.WellFormed) (x : F64)
    (hxn : x.isNaN = false) (hnan : ∀ k ∈ data.map Prod.fst, F64.isNaN k = false)
    (k : F64) (v : List F64) (hkv : (k, v) ∈ data) (hmax : IsLargestKey data k)
    (hnone : ∀ k' ∈ data.keys, ¬ x < k') : StepFunction data x = .ok v := by
  have hk : k ∈ data.map Prod.fst := hmax.1
  obtain ⟨b, hb⟩ := List.mem_iff_getElem?.1 ((mem_sortedKeys data k).2 hk)
  have hblen : b < (sortedKeys data).length := (List.getElem?_eq_some_iff.1 hb).1
  have hjlen : (sortedKeys data).length ≤ stepScan x (sortedKeys data) 0 := by
    by_contra hcon
    have hj := List.getElem?_eq_getElem (Nat.lt_of_not_le hcon)
    have hkj : (sortedKeys data)[stepScan x (sortedKeys data) 0] ∈ data.map Prod.fst :=
      (mem_sortedKeys data _).1 (List.getElem_mem _)
    exact hnone _ hkj (f64_lt_of_not_le (hnan _ hkj) hxn (stepScan_at x _ _ hj))
  have hllen : (sortedKeys data).length - 1 < (sortedKeys data).length := by omega
  have hl := List.getElem?_eq_getElem hllen
  have hkl : (sortedKeys data)[(sortedKeys data).length - 1] ∈ data.map Prod.fst :=
    (mem_sortedKeys data _).1 (List.getElem_mem _)
  have el : (sortedKeys data)[(sortedKeys data).length - 1] = k :=
    f64_le_antisymm (hmax.2 _ hkl) (sortedKeys_le data hnan b _ _ _ (by omega) hb hl)
  rw [el] at hl
  have hkx : ¬ k > x := hnone k hk
  rw [stepFunction_clamped data x k hjlen hl, if_neg (fun h => hkx h.2),
    FMap.get_of_mem data hwf k v hkv (hnan _ hk)]

theorem stepFunction_defined (data : FMap) (kmin : F64) (hmin : IsSmallestKey data kmin)
    (x : F64) (hge : kmin ≤ x) : ∃ v, StepFunction data x = .ok v := by
  have hnan := keys_not_nan data kmin hmin
  obtain ⟨a, ha⟩ := List.mem_iff_getElem?.1 ((mem_sortedKeys data kmin).2 hmin.1)
  have halen : a < (sortedKeys data).length := (List.getElem?_eq_some_iff.1 ha).1
  by_cases hjlen : stepScan x (sortedKeys data) 0 < (sortedKeys data).length
  · have hj := List.getElem?_eq_getElem hjlen
    have haj : a < stepScan x (sortedKeys data) 0 := by
      by_contra hcon
      exact stepScan_at x _ _ hj
        (f64_le_trans (sortedKeys_le data hnan _ _ _ _ (Nat.le_of_not_lt hcon) hj ha) hge)
    exact ⟨_, by rw [stepFunction_inside data x _ hj, if_neg (by omega)]⟩
  · have hllen : (sortedKeys data).length - 1 < (sortedKeys data).length := by omega
    have hl := List.getElem?_eq_getElem hllen
    have hkx := stepScan_before x _ _ _ (by omega) hl
    exact ⟨_, by rw [stepFunction_clamped data x _ (by omega) hl,
      if_neg (fun h => f64_not_lt_of_le hkx h.2)]⟩

theorem linearQuery_outside (data : FMap) (kmin kmax : F64) (hmin : IsSmallestKey data kmin)
    (hmax : IsLargestKey data kmax) (x : F64) (hout : x ≤ kmin ∨ kmax < x) :
    linearQuery data (sortedKeys data) x = .panic .undefinedValue := by
  obtain ⟨a, ha⟩ := List.mem_iff_getElem?.1 ((mem_sortedKeys data kmin).2 hmin.1)
  have halen : a < (sortedKeys data).length := (List.getElem?_eq_some_iff.1 ha).1
  have hcond : linearScan x (sortedKeys data) 0 ≥ (sortedKeys data).length ∨
      linearScan x (sortedKeys data) 0 = 0 := by
    rcases hout with hle | hgt
    · right
      by_contra hne
      have h0 := List.getElem?_eq_getElem (show 0 < (sortedKeys data).length by omega)
      have hk0 : (sortedKeys data)[0] ∈ data.map Prod.fst :=
        (mem_sortedKeys data _).1 (List.getElem_mem _)
      exact f64_not_lt_of_le (f64_le_trans hle (hmin.2 _ hk0))
        (linearScan_before x _ 0 _ (by omega) h0)
    · left
      by_contra hcon
      have hj := List.getElem?_eq_getElem (show linearScan x (sortedKeys data) 0 <
        (sortedKeys data).length by omega)
      have hkj : (sortedKeys data)[linearScan x (sortedKeys data) 0] ∈ data.map Prod.fst :=
        (mem_sortedKeys data _).1 (List.getElem_mem _)
      exact linearScan_at x _ _ hj (f64_lt_of_le_of_lt (hmax.2 _ hkj) hgt)
  rw [linearQuery]
  simp only [if_pos hcond]
  rw [if_neg (by omega)]

/-- Around an `x` above the smallest key and not above the largest one there
are two keys `k1 < x ≤ k2` with no key strictly between them. -/
theorem exists_adjacent_keys (data : FMap) (kmin kmax : F64) (hmin : IsSmallestKey data kmin)
    (hmax : IsLargestKey data kmax) (x : F64) (hgt : kmin < x) (hle : x ≤ kmax) :
    ∃ k1 v1 k2 v2, (k1, v1) ∈ data ∧ (k2, v2) ∈ data ∧ k1 < x ∧ x ≤ k2 ∧
      ∀ k ∈ data.keys, ¬ (k1 < k ∧ k < k2) := by
  have hnan := keys_not_nan data kmin hmin
  have hxn : x.isNaN = false := f64_not_nan_of_lt_right hgt
  obtain ⟨a, ha⟩ := List.mem_iff_getElem?.1 ((mem_sortedKeys data kmin).2 hmin.1)
  obtain ⟨b, hb⟩ := List.mem_iff_getElem?.1 ((mem_sortedKeys data kmax).2 hmax.1)
  have hblen : b < (sortedKeys data).length := (List.getElem?_eq_some_iff.1 hb).1
  have haj : a < linearScan x (sortedKeys data) 0 := by
    by_contra hcon
    have hja : linearScan x (sortedKeys data) 0 ≤ a := Nat.le_of_not_lt hcon
    have halen : a < (sortedKeys data).length := (List.getElem?_eq_some_iff.1 ha).1
    have hj := List.getElem?_eq_getElem (show linearScan x (sortedKeys data) 0 <
      (sortedKeys data).length by omega)
    exact linearScan_at x _ _ hj
      (f64_lt_of_le_of_lt (sortedKeys_le data hnan _ _ _ _ hja hj ha) hgt)
  have hjb : linearScan x (sortedKeys data) 0 ≤ b := by
    by_contra hcon
    exact f64_not_lt_of_le hle (linearScan_before x _ b kmax (Nat.lt_of_not_le hcon) hb)
  have hjlen : linearScan x (sortedKeys data) 0 < (sortedKeys data).length := by omega
  have hilen : linearScan x (sortedKeys data) 0 - 1 < (sortedKeys data).length := by omega
  have hj := List.getElem?_eq_getElem hjlen
  have hi := List.getElem?_eq_getElem hilen
  have hkj : (sortedKeys data)[linearScan x (sortedKeys data) 0] ∈ data.map Prod.fst :=
    (mem_sortedKeys data _).1 (List.getElem_mem _)
  have hki : (sortedKeys data)[linearScan x (sortedKeys data) 0 - 1] ∈ data.map Prod.fst :=
    (mem_sortedKeys data _).1 (List.getElem_mem _)
  obtain ⟨⟨k1, v1⟩, hm1, he1⟩ := List.mem_map.1 hki
  obtain ⟨⟨k2, v2⟩, hm2, he2⟩ := List.mem_map.1 hkj
  simp only at he1 he2
  refine ⟨k1, v1, k2, v2, hm1, hm2, ?_, ?_, ?_⟩
  · rw [he1]; exact linearScan_before x _ _ _ (by omega) hi
  · rw [he2]; exact f64_le_of_not_lt (hnan _ hkj) hxn (linearScan_at x _ _ hj)
  · intro k hk hbetween
    rw [he1, he2] at hbetween
    obtain ⟨c, hc⟩ := List.mem_iff_getElem?.1 ((mem_sortedKeys data k).2 hk)
    by_cases hcj : c < linearScan x (sortedKeys data) 0
    · exact f64_not_lt_of_le (sortedKeys_le data hnan c _ _ _ (by omega) hc hi) hbetween.1
    · exact f64_not_lt_of_le (sortedKeys_le data hnan _ c _ _ (by omega) hj hc) hbetween.2

theorem halfSum_length (v1 v2 : List F64) (L : Nat) (h1 : v1.length = L) (h2 : v2.length = L) :
    (halfSum v1 v2).length = L := by
  simp [halfSum, h1, h2]

theorem halfSum_getElem (v1 v2 : List F64) (i : Nat) (a b : F64) (ha : v1[i]? = some a)
    (hb : v2[i]? = some b) : (halfSum v1 v2)[i]? = some ((a + b) / F64.fin 2) := by
  simp [halfSum, List.getElem?_zipWith, ha, hb]

/-- A non-empty map without NaN key has a smallest key and a largest key. -/
theorem exists_smallest_largest_key (data : FMap) (hne : data ≠ [])
    (hnan : ∀ k ∈ data.keys, F64.isNaN k = false) :
    (∃ kmin, IsSmallestKey data kmin) ∧ (∃ kmax, IsLargestKey data kmax) := by
  have hlen : 0 < (sortedKeys data).length := by
    rw [sortedKeys_length]
    exact List.length_pos.2 hne
  have hllen : (sortedKeys data).length - 1 < (sortedKeys data).length := by omega
  have h0 := List.getElem?_eq_getElem hlen
  have hl := List.getElem?_eq_getElem hllen
  refine ⟨⟨(sortedKeys data)[0], (mem_sortedKeys data _).1 (List.getElem_mem _), ?_⟩,
    ⟨(sortedKeys data)[(sortedKeys data).length - 1],
      (mem_sortedKeys data _).1 (List.getElem_mem _), ?_⟩⟩
  · intro k hk
    obtain ⟨c, hc⟩ := List.mem_iff_getElem?.1 ((mem_sortedKeys data k).2 hk)
    exact sortedKeys_le data hnan 0 c _ _ (Nat.zero_le c) h0 hc
  · intro k hk
    obtain ⟨c, hc⟩ := List.mem_iff_getElem?.1 ((mem_sortedKeys data k).2 hk)
    have hclen : c < (sortedKeys data).length := (List.getElem?_eq_some_iff.1 hc).1
    exact sortedKeys_le data hnan c _ _ _ (by omega) hc hl

/-! ### Properties of the interpolation builders -/

/-- C2, as stated, fails at `x = NaN` on `{1.0:[10], 3.0:[30], 5.0:[50]}`: NaN is
not smaller than the smallest key and no key is strictly greater than NaN, yet
the function built by `StepFunction` returns `[10]`, the vector of the smallest
key, and not `[50]`, the vector of the largest key. -/
theorem stepFunction_at_nan_returns_first :
    IsSmallestKey stepMap (F64.fin 1) ∧ IsLargestKey stepMap (F64.fin 5) ∧
    ¬ (F64.nan < F64.fin 1) ∧ (∀ k ∈ stepMap.keys, ¬ F64.nan < k) ∧
    (F64.fin 5, [F64.fin 50]) ∈ stepMap ∧
    StepFunction stepMap F64.nan = .ok [F64.fin 10] := by
  decide!

/-- C2, amended. For a map with a smallest key `kmin` (a non-empty map without
NaN key) and an `x` that is not NaN, the function built by `StepFunction` fails
exactly when `x < kmin`, and then as out-of-domain;
otherwise it returns, unchanged, the vector stored at the smallest key strictly
greater than `x`, or the vector stored at the largest key when no key is
strictly greater than `x`. -/
theorem stepFunction_spec (data : FMap) (hwf : data.WellFormed) (kmin : F64)
    (hmin : IsSmallestKey data kmin) (x : F64) (hx : x.isNaN = false) :
    ((∃ p, StepFunction data x = .panic p) ↔ x < kmin) ∧
    (x < kmin → StepFunction data x = .panic .undefinedValue) ∧
    (∀ k v, (k, v) ∈ data → ¬ x < kmin → x < k → (∀ k' ∈ data.keys, x < k' → k ≤ k') →
      StepFunction data x = .ok v) ∧
    (∀ k v, (k, v) ∈ data → IsLargestKey data k → (∀ k' ∈ data.keys, ¬ x < k') →
      StepFunction data x = .ok v) := by
  have hnan := keys_not_nan data kmin hmin
  have hge : ¬ x < kmin → kmin ≤ x := f64_le_of_not_lt hx (hnan _ hmin.1)
  refine ⟨⟨?_, fun h => ⟨_, stepFunction_below data kmin hmin x h⟩⟩,
    stepFunction_below data kmin hmin x, ?_, ?_⟩
  · rintro ⟨p, hp⟩
    by_contra hlt
    obtain ⟨v, hv⟩ := stepFunction_defined data kmin hmin x (hge hlt)
    rw [hv] at hp
    cases hp
  · intro k v hkv hlt hxk hleast
    exact stepFunction_next data hwf kmin hmin x (hge hlt) k v hkv hxk hleast
  · intro k v hkv hmax hnone
    exact stepFunction_last data hwf x hx hnan k v hkv hmax hnone

/-- C2, amended, on `{1.0:[10], 3.0:[30], 5.0:[50]}`: `f(2.0) = [30]`, `f(5.0) = [50]`,
and `f(0.5)` fails as out-of-domain. -/
theorem stepFunction_spec_witness :
    StepFunction stepMap (F64.fin 2) = .ok [F64.fin 30] ∧
    StepFunction stepMap (F64.fin 5) = .ok [F64.fin 50] ∧
    StepFunction stepMap (F64.fin (1 / 2)) = .panic .undefinedValue :=
  ⟨(stepFunction_spec stepMap (by decide!) (F64.fin 1) (by decide!) (F64.fin 2) rfl).2.2.1
      (F64.fin 3) [F64.fin 30] (by decide!) (by decide!) (by decide!) (by decide!),
   (stepFunction_spec stepMap (by decide!) (F64.fin 1) (by decide!) (F64.fin 5) rfl).2.2.2
      (F64.fin 5) [F64.fin 50] (by decide!) (by decide!) (by decide!),
   (stepFunction_spec stepMap (by decide!) (F64.fin 1) (by decide!) (F64.fin (1 / 2)) rfl).2.1
      (by decide!)⟩

/-- C3, as stated, fails on `{1.0:[10], 3.0:[30], 5.0:[50]}`: the largest key
that is less than or equal to 2.0 is 1.0, whose vector is `[10]`; the function
built by `StepFunction` returns `[30]` at 2.0, the vector of the next key. At
3.0, a key of the map, it returns `[50]`. -/
theorem stepFunction_skips_preceding_key :
    (F64.fin 1, [F64.fin 10]) ∈ stepMap ∧ F64.fin 1 ≤ F64.fin 2 ∧
    (∀ k ∈ stepMap.keys, k ≤ F64.fin 2 → k ≤ F64.fin 1) ∧
    StepFunction stepMap (F64.fin 2) = .ok [F64.fin 30] ∧
    StepFunction stepMap (F64.fin 3) = .ok [F64.fin 50] := by
  decide!

/-- C3, amended. For a map with a smallest key and an `x` with nearest
preceding key `p` (the largest key that is less than or equal to `x`): when `p`
is the largest key of the map, the function built by `StepFunction` returns the
vector stored at `p`; otherwise it returns the vector stored at the key `q` that
follows `p` in the order of the keys, which is the smallest key strictly greater
than `x`. -/
theorem stepFunction_returns_following_key (data : FMap) (hwf : data.WellFormed) (kmin : F64)
    (hmin : IsSmallestKey data kmin) (x p : F64) (hp : p ∈ data.keys) (hpx : p ≤ x)
    (hnear : ∀ k ∈ data.keys, k ≤ x → k ≤ p) :
    (IsLargestKey data p ∧ StepFunction data x = .ok (data.get p)) ∨
    (∃ q ∈ data.keys, p < q ∧ x < q ∧ (∀ k ∈ data.keys, k ≤ p ∨ q ≤ k) ∧
      StepFunction data x = .ok (data.get q)) := by
  have hnan := keys_not_nan data kmin hmin
  have hxn : x.isNaN = false := f64_not_nan_of_le_right hpx
  have hge : kmin ≤ x := f64_le_trans (hmin.2 p hp) hpx
  by_cases hlast : ∀ k ∈ data.keys, ¬ x < k
  · -- no key above `x`: `p` is the largest key
    have hmax : IsLargestKey data p :=
      ⟨hp, fun k hk => hnear k hk (f64_le_of_not_lt hxn (hnan k hk) (hlast k hk))⟩
    obtain ⟨⟨p', v⟩, hm, he⟩ := List.mem_map.1 hp
    simp only at he
    subst he
    refine Or.inl ⟨hmax, ?_⟩
    rw [stepFunction_last data hwf x hxn hnan p' v hm hmax hlast,
      FMap.get_of_mem data hwf p' v hm (hnan _ hp)]
  · -- some key above `x`: the scan stops at the least of them
    push_neg at hlast
    obtain ⟨k0, hk0, hxk0⟩ := hlast
    obtain ⟨a, ha⟩ := List.mem_iff_getElem?.1 ((mem_sortedKeys data kmin).2 hmin.1)
    obtain ⟨b, hb⟩ := List.mem_iff_getElem?.1 ((mem_sortedKeys data k0).2 hk0)
    have hblen : b < (sortedKeys data).length := (List.getElem?_eq_some_iff.1 hb).1
    have hjb : stepScan x (sortedKeys data) 0 ≤ b := by
      by_contra hcon
      exact f64_not_le_of_lt hxk0 (stepScan_before x _ b k0 (Nat.lt_of_not_le hcon) hb)
    have hjlen : stepScan x (sortedKeys data) 0 < (sortedKeys data).length := by omega
    have hj := List.getElem?_eq_getElem hjlen
    have hqmem : (sortedKeys data)[stepScan x (sortedKeys data) 0] ∈ data.map Prod.fst :=
      (mem_sortedKeys data _).1 (List.getElem_mem _)
    have hxq : x < (sortedKeys data)[stepScan x (sortedKeys data) 0] :=
      f64_lt_of_not_le (hnan _ hqmem) hxn (stepScan_at x _ _ hj)
    have hleast : ∀ k' ∈ data.keys, x < k' →
        (sortedKeys data)[stepScan x (sortedKeys data) 0] ≤ k' := by
      intro k' hk' hxk'
      obtain ⟨c, hc⟩ := List.mem_iff_getElem?.1 ((mem_sortedKeys data k').2 hk')
      have hjc : stepScan x (sortedKeys data) 0 ≤ c := by
        by_contra hcon
        exact f64_not_le_of_lt hxk' (stepScan_before x _ c k' (Nat.lt_of_not_le hcon) hc)
      exact sortedKeys_le data hnan _ _ _ _ hjc hj hc
    obtain ⟨⟨q, v⟩, hm, he⟩ := List.mem_map.1 hqmem
    simp only at he
    refine Or.inr ⟨q, List.mem_map.2 ⟨_, hm, rfl⟩, ?_, ?_, ?_, ?_⟩
    · rw [he]; exact f64_lt_of_le_of_lt hpx hxq
    · rw [he]; exact hxq
    · intro k hk
      by_cases hkx : k ≤ x
      · exact Or.inl (hnear k hk hkx)
      · right
        rw [he]
        exact hleast k hk (f64_lt_of_not_le (hnan k hk) hxn hkx)
    · rw [stepFunction_next data hwf kmin hmin x hge q v hm (by rw [he]; exact hxq)
        (by rw [he]; exact hleast), FMap.get_of_mem data hwf q v hm (hnan _ (by rw [he]; exact hqmem))]

/-- C3, amended, on `{1.0:[10], 3.0:[30], 5.0:[50]}` at `x = 2.0`, whose nearest
preceding key is 1.0 and not the largest key: the function returns the vector of
the key that follows 1.0, a key above 2.0. -/
theorem stepFunction_returns_following_key_witness :
    ∃ q ∈ stepMap.keys, F64.fin 1 < q ∧ F64.fin 2 < q ∧
      (∀ k ∈ stepMap.keys, k ≤ F64.fin 1 ∨ q ≤ k) ∧
      StepFunction stepMap (F64.fin 2) = .ok (stepMap.get q) :=
  (stepFunction_returns_following_key stepMap (by decide!) (F64.fin 1) (by decide!) (F64.fin 2)
    (F64.fin 1) (by decide!) (by decide!) (by decide!)).resolve_left
    (fun h => absurd h.1 (by decide!))

/-- C4, as stated, fails on `{NaN:[0,0], 1.0:[0,0], 3.0:[10,20]}`, whose vectors
all have the length 2: the keys 1.0 and 3.0 are adjacent in the sorted order
(NaN, 1, 3) and `1 < 2 < 3`, yet the function built by
`LinearInterpolationFunction` fails at `x = 2.0`. -/
theorem linear_with_nan_key_fails_between :
    nanKeyMap.WellFormed ∧ (∀ e ∈ nanKeyMap, e.2.length = 2) ∧
    sortedKeys nanKeyMap = [F64.nan, F64.fin 1, F64.fin 3] ∧
    F64.fin 1 < F64.fin 2 ∧ F64.fin 2 < F64.fin 3 ∧
    (∀ k ∈ nanKeyMap.keys, ¬ (F64.fin 1 < k ∧ k < F64.fin 3)) ∧
    ∃ f, LinearInterpolationFunction nanKeyMap = .ok f ∧
      f (F64.fin 2) = .panic .undefinedValue :=
  ⟨by decide!, by decide!, by decide!, by decide!, by decide!, by decide!, _, rfl, by decide!⟩

/-- C4, amended. For a map without NaN key whose vectors all have the length `L`
and an `x` strictly between two keys `k1 < x < k2` with no key between them, the function built by
`LinearInterpolationFunction` returns the vector of length `L` whose `i`-th
entry is `(data[k1][i] + data[k2][i]) / 2`, wherever `x` lies between them. -/
theorem linear_between_adjacent_keys (data : FMap) (hwf : data.WellFormed)
    (hnan : ∀ k ∈ data.keys, F64.isNaN k = false) (L : Nat)
    (hlen : ∀ e ∈ data, e.2.length = L) (x k1 k2 : F64) (v1 v2 : List F64)
    (h1 : (k1, v1) ∈ data) (h2 : (k2, v2) ∈ data) (hlt1 : k1 < x) (hlt2 : x < k2)
    (hadj : ∀ k ∈ data.keys, ¬ (k1 < k ∧ k < k2)) :
    ∃ f values, LinearInterpolationFunction data = .ok f ∧ f x = .ok values ∧
      values.length = L ∧
      ∀ (i : Nat) (a b : F64), v1[i]? = some a → v2[i]? = some b → values[i]? = some ((a + b) / F64.fin 2) := by
  have hl1 : v1.length = L := hlen _ h1
  have hl2 : v2.length = L := hlen _ h2
  refine ⟨_, halfSum v1 v2, linear_ok data L hlen, ?_, halfSum_length v1 v2 L hl1 hl2,
    fun i a b => halfSum_getElem v1 v2 i a b⟩
  exact linearQuery_between data hwf hnan x k1 k2 v1 v2 h1 h2 (by omega) hlt1
    (f64_le_of_lt hlt2) hadj

/-- C4, amended, on `{1.0:[0,0], 3.0:[10,20]}`: `f(2.0) = [5,10]`. -/
theorem linear_between_adjacent_keys_witness :
    ∃ f, LinearInterpolationFunction linearMap = .ok f ∧
      f (F64.fin 2) = .ok [F64.fin 5, F64.fin 10] := by
  obtain ⟨f, values, hf, hv, hL, hi⟩ :=
    linear_between_adjacent_keys linearMap (by decide!) (by decide!) 2 (by decide!) (F64.fin 2)
      (F64.fin 1) (F64.fin 3) [F64.fin 0, F64.fin 0] [F64.fin 10, F64.fin 20] (by decide!)
      (by decide!) (by decide!) (by decide!) (by decide!)
  refine ⟨f, hf, ?_⟩
  have h0 := hi 0 (F64.fin 0) (F64.fin 10) rfl rfl
  have h1 := hi 1 (F64.fin 0) (F64.fin 20) rfl rfl
  have e0 : (F64.fin 0 + F64.fin 10) / F64.fin 2 = F64.fin 5 := by decide!
  have e1 : (F64.fin 0 + F64.fin 20) / F64.fin 2 = F64.fin 10 := by decide!
  rw [e0] at h0
  rw [e1] at h1
  rw [hv]
  congr 1
  apply List.ext_getElem?
  intro i
  match i with
  | 0 => simpa using h0
  | 1 => simpa using h1
  | i + 2 =>
    have : values[i + 2]? = none := List.getElem?_eq_none (by omega)
    simp [this]

/-- C5, as stated, fails on `{1.0:[0,0], 3.0:[10,20]}` at `x = 3.0`, the largest
key: the function built by `LinearInterpolationFunction` returns `[5,10]`. -/
theorem linear_at_largest_key_succeeds :
    IsLargestKey linearMap (F64.fin 3) ∧
    ∃ f, LinearInterpolationFunction linearMap = .ok f ∧
      f (F64.fin 3) = .ok [F64.fin 5, F64.fin 10] :=
  ⟨by decide!, _, rfl, by decide!⟩

/-- C5, amended. For a map with equal-length vectors, the function built by
`LinearInterpolationFunction` fails as out-of-domain whenever `x` is less than
or equal to the smallest key or strictly greater than the largest key. -/
theorem linear_fails_outside (data : FMap) (L : Nat) (hlen : ∀ e ∈ data, e.2.length = L)
    (kmin kmax : F64) (hmin : IsSmallestKey data kmin) (hmax : IsLargestKey data kmax)
    (x : F64) (hout : x ≤ kmin ∨ kmax < x) :
    ∃ f, LinearInterpolationFunction data = .ok f ∧ f x = .panic .undefinedValue :=
  ⟨_, linear_ok data L hlen, linearQuery_outside data kmin kmax hmin hmax x hout⟩

/-- C5, amended, on `{1.0:[0,0], 3.0:[10,20]}` at `x = 0.5`. -/
theorem linear_fails_outside_witness :
    ∃ f, LinearInterpolationFunction linearMap = .ok f ∧
      f (F64.fin (1 / 2)) = .panic .undefinedValue :=
  linear_fails_outside linearMap 2 (by decide!) (F64.fin 1) (F64.fin 3) (by decide!) (by decide!)
    (F64.fin (1 / 2)) (Or.inl (by decide!))

/-- C6, as stated, fails on `{1.0:[0,0], 3.0:[10,20]}` at `x = 1.0`, the smallest
key, which is below the largest key: the function built by
`LinearInterpolationFunction` fails as out-of-domain. -/
theorem linear_at_smallest_key_fails :
    IsSmallestKey linearMap (F64.fin 1) ∧ IsLargestKey linearMap (F64.fin 3) ∧
    F64.fin 1 ≤ F64.fin 1 ∧ F64.fin 1 < F64.fin 3 ∧
    ∃ f, LinearInterpolationFunction linearMap = .ok f ∧
      f (F64.fin 1) = .panic .undefinedValue :=
  ⟨by decide!, by decide!, by decide!, by decide!, _, rfl, by decide!⟩

theorem linearQuery_nan (data : FMap) (hne : data ≠ []) (x : F64) (hx : x.isNaN = true) :
    linearQuery data (sortedKeys data) x = .panic .undefinedValue := by
  have hlen : (sortedKeys data).length ≠ 0 := by
    rw [sortedKeys_length]
    exact fun h => hne (List.length_eq_zero.1 h)
  have h0 : linearScan x (sortedKeys data) 0 = 0 := by
    cases hs : sortedKeys data with
    | nil => rfl
    | cons k rest =>
      have : ¬ k < x := fun h => by
        have := f64_not_nan_of_lt_right h
        rw [hx] at this
        cases this
      simp [linearScan, this]
  rw [linearQuery]
  simp only [h0, or_true, if_true]
  rw [if_neg hlen]

/-- C6, amended. For a map with equal-length vectors, smallest key `kmin` and
largest key `kmax`, and every `x`: if `kmin < x ≤ kmax`, the function built by
`LinearInterpolationFunction` succeeds and returns the element-wise average of
the vectors at `k2`, the first key greater than or equal to `x`, and at `k1`,
the key immediately preceding `k2`; otherwise (`x` at or below `kmin`, above
`kmax`, or NaN) it fails as out-of-domain. -/
theorem linear_query_spec (data : FMap) (hwf : data.WellFormed) (L : Nat)
    (hlen : ∀ e ∈ data, e.2.length = L) (kmin kmax : F64) (hmin : IsSmallestKey data kmin)
    (hmax : IsLargestKey data kmax) (x : F64) :
    ∃ f, LinearInterpolationFunction data = .ok f ∧
      (kmin < x ∧ x ≤ kmax →
        ∃ k1 v1 k2 v2, (k1, v1) ∈ data ∧ (k2, v2) ∈ data ∧
          (x ≤ k2 ∧ ∀ k ∈ data.keys, x ≤ k → k2 ≤ k) ∧
          (k1 < k2 ∧ ∀ k ∈ data.keys, k < k2 → k ≤ k1) ∧
          f x = .ok (halfSum v1 v2)) ∧
      (¬ (kmin < x ∧ x ≤ kmax) → f x = .panic .undefinedValue) ∧
      (¬ (kmin < x ∧ x ≤ kmax) ↔ (x ≤ kmin ∨ kmax < x ∨ x.isNaN = true)) := by
  have hnan := keys_not_nan data kmin hmin
  have hne : data ≠ [] := by
    intro h
    have := hmin.1
    rw [h] at this
    cases this
  have hiff : ¬ (kmin < x ∧ x ≤ kmax) ↔ (x ≤ kmin ∨ kmax < x ∨ x.isNaN = true) := by
    constructor
    · intro hno
      cases hx : x.isNaN with
      | true => exact Or.inr (Or.inr rfl)
      | false =>
        by_cases hgt : kmin < x
        · exact Or.inr (Or.inl (f64_lt_of_not_le hx (hnan _ hmax.1) (fun hle => hno ⟨hgt, hle⟩)))
        · exact Or.inl (f64_le_of_not_lt (hnan _ hmin.1) hx hgt)
    · rintro (h | h | h) ⟨hgt, hle⟩
      · exact f64_not_lt_of_le h hgt
      · exact f64_not_lt_of_le hle h
      · have := f64_not_nan_of_lt_right hgt
        rw [h] at this
        cases this
  refine ⟨_, linear_ok data L hlen, ?_, ?_, hiff⟩
  · rintro ⟨hgt, hle⟩
    obtain ⟨k1, v1, k2, v2, h1, h2, hlt1, hle2, hadj⟩ :=
      exists_adjacent_keys data kmin kmax hmin hmax x hgt hle
    have hk1 : k1 ∈ data.map Prod.fst := List.mem_map.2 ⟨_, h1, rfl⟩
    have hk2 : k2 ∈ data.map Prod.fst := List.mem_map.2 ⟨_, h2, rfl⟩
    refine ⟨k1, v1, k2, v2, h1, h2, ⟨hle2, ?_⟩, ⟨f64_lt_of_lt_of_le hlt1 hle2, ?_⟩, ?_⟩
    · intro k hk hxk
      by_contra hcon
      exact hadj k hk ⟨f64_lt_of_lt_of_le hlt1 hxk, f64_lt_of_not_le (hnan _ hk2) (hnan _ hk) hcon⟩
    · intro k hk hkk2
      by_contra hcon
      exact hadj k hk ⟨f64_lt_of_not_le (hnan _ hk) (hnan _ hk1) hcon, hkk2⟩
    · exact linearQuery_between data hwf hnan x k1 k2 v1 v2 h1 h2
        (by rw [hlen _ h1, hlen _ h2]) hlt1 hle2 hadj
  · intro hno
    rcases hiff.1 hno with h | h | h
    · exact linearQuery_outside data kmin kmax hmin hmax x (Or.inl h)
    · exact linearQuery_outside data kmin kmax hmin hmax x (Or.inr h)
    · exact linearQuery_nan data hne x h

/-- C6, amended, on `{1.0:[0,0], 3.0:[10,20]}`: at `x = 3.0` it returns the
average of the two vectors, at `x = 1.0` and at `x = NaN` it fails. -/
theorem linear_query_spec_witness :
    (∃ f, LinearInterpolationFunction linearMap = .ok f ∧
      ∃ k1 v1 k2 v2, (k1, v1) ∈ linearMap ∧ (k2, v2) ∈ linearMap ∧ k1 < k2 ∧
        f (F64.fin 3) = .ok (halfSum v1 v2)) ∧
    (∃ f, LinearInterpolationFunction linearMap = .ok f ∧
      f (F64.fin 1) = .panic .undefinedValue ∧ f F64.nan = .panic .undefinedValue) := by
  constructor
  · obtain ⟨f, hf, hin, _⟩ :=
      linear_query_spec linearMap (by decide!) 2 (by decide!) (F64.fin 1) (F64.fin 3)
        (by decide!) (by decide!) (F64.fin 3)
    obtain ⟨k1, v1, k2, v2, h1, h2, _, hlt, hv⟩ := hin ⟨by decide!, by decide!⟩
    exact ⟨f, hf, k1, v1, k2, v2, h1, h2, hlt.1, hv⟩
  · obtain ⟨f, hf, _, hout, _⟩ :=
      linear_query_spec linearMap (by decide!) 2 (by decide!) (F64.fin 1) (F64.fin 3)
        (by decide!) (by decide!) (F64.fin 1)
    obtain ⟨f', hf', _, hout', _⟩ :=
      linear_query_spec linearMap (by decide!) 2 (by decide!) (F64.fin 1) (F64.fin 3)
        (by decide!) (by decide!) F64.nan
    rw [hf] at hf'
    cases hf'
    exact ⟨f, hf, hout (by decide!), hout' (by decide!)⟩

/-- C7. Building with `LinearInterpolationFunction` fails with the configuration
error, before any query, exactly when the map holds two vectors of different
lengths, and succeeds otherwise; the outcome is the same for every order in
which the entries of the map are visited. -/
theorem linear_construction_fails_iff (data : FMap) :
    (LinearInterpolationFunction data = .panic .mismatchedSizes ↔
      ∃ e1 ∈ data, ∃ e2 ∈ data, e1.2.length ≠ e2.2.length) ∧
    ((¬ ∃ e1 ∈ data, ∃ e2 ∈ data, e1.2.length ≠ e2.2.length) →
      ∃ f, LinearInterpolationFunction data = .ok f) ∧
    (∀ data' : FMap, data.Perm data' →
      (LinearInterpolationFunction data = .panic .mismatchedSizes ↔
        LinearInterpolationFunction data' = .panic .mismatchedSizes)) := by
  refine ⟨linear_panic_iff data, ?_, ?_⟩
  · intro hno
    push_neg at hno
    cases data with
    | nil => exact ⟨_, linear_ok [] 0 (by simp)⟩
    | cons e rest =>
      exact ⟨_, linear_ok (e :: rest) e.2.length
        (fun e' he' => hno e' he' e (List.mem_cons_self _ _))⟩
  · intro data' hperm
    rw [linear_panic_iff, linear_panic_iff]
    constructor
    · rintro ⟨e1, h1, e2, h2, hne⟩
      exact ⟨e1, hperm.mem_iff.1 h1, e2, hperm.mem_iff.1 h2, hne⟩
    · rintro ⟨e1, h1, e2, h2, hne⟩
      exact ⟨e1, hperm.mem_iff.2 h1, e2, hperm.mem_iff.2 h2, hne⟩

/-- C7 on `{1.0:[1,2], 2.0:[3]}`: building fails, in either visiting order. -/
theorem linear_construction_fails_iff_witness :
    LinearInterpolationFunction mismatchedMap = .panic .mismatchedSizes ∧
    LinearInterpolationFunction mismatchedMap.reverse = .panic .mismatchedSizes :=
  have h := (linear_construction_fails_iff mismatchedMap).1.2
    ⟨(F64.fin 1, [F64.fin 1, F64.fin 2]), by decide!, (F64.fin 2, [F64.fin 3]), by decide!,
      by decide⟩
  ⟨h, ((linear_construction_fails_iff mismatchedMap).2.2 mismatchedMap.reverse
    (List.reverse_perm mismatchedMap).symm).1 h⟩

/-! ### The steps of the two loops of `NewErrorPointsSpaced` -/

@[simp] theorem f64_fin_add (a b : ℚ) : F64.fin a + F64.fin b = F64.fin (a + b) := rfl

@[simp] theorem f64_fin_sub (a b : ℚ) : F64.fin a - F64.fin b = F64.fin (a - b) := by
  show F64.add (F64.fin a) (F64.neg (F64.fin b)) = _
  simp [F64.add, F64.neg, sub_eq_add_neg]

@[simp] theorem f64_fin_mul (a b : ℚ) : F64.fin a * F64.fin b = F64.fin (a * b) := rfl

theorem f64_fin_div (a b : ℚ) (hb : b ≠ 0) : F64.fin a / F64.fin b = F64.fin (a / b) := by
  show F64.div (F64.fin a) (F64.fin b) = _
  simp [F64.div, hb]

theorem checkFloats_fin (q : ℚ) : CheckFloats [F64.fin q] = true := rfl

theorem checkFloats_pair (a b : F64) :
    CheckFloats [a, b] = (F64.isFinite a && F64.isFinite b) := by
  simp [CheckFloats]

theorem store_lt {α : Type} (s : List α) (i : Nat) (v : α) (h : i < s.length) :
    store s i v = some (s.set i v) := by
  simp [store, h]

theorem spacedLineLoop_exit (f : List F64 → F64 × F64 × F64) (g : F64 → List F64)
    (maxX xIncr minRange maxRange : F64) (fuel i : Nat) (curX : F64) (points : List XY)
    (h : ¬ (i < points.length ∧ curX ≤ maxX + xIncr)) :
    spacedLineLoop f g maxX xIncr minRange maxRange (fuel + 1) i curX points =
      ⟨[], .ok (i, points)⟩ := by
  rw [spacedLineLoop, if_neg h]

theorem spacedLineLoop_skip (f : List F64 → F64 × F64 × F64) (g : F64 → List F64)
    (maxX xIncr minRange maxRange : F64) (fuel i : Nat) (curX : F64) (points : List XY)
    (h : i < points.length ∧ curX ≤ maxX + xIncr) (hskip : curX < minRange ∨ curX > maxRange) :
    spacedLineLoop f g maxX xIncr minRange maxRange (fuel + 1) i curX points =
      spacedLineLoop f g maxX xIncr minRange maxRange fuel i (curX + xIncr) points := by
  rw [spacedLineLoop, if_pos h, if_pos hskip]

theorem spacedLineLoop_keep (f : List F64 → F64 × F64 × F64) (g : F64 → List F64)
    (maxX xIncr minRange maxRange : F64) (fuel i : Nat) (curX : F64) (points : List XY)
    (h : i < points.length ∧ curX ≤ maxX + xIncr)
    (hskip : ¬ (curX < minRange ∨ curX > maxRange))
    (hx : CheckFloats [curX] = true) (hys : CheckFloats (g curX) = true)
    (hy : CheckFloats [(f (g curX)).1] = true) :
    spacedLineLoop f g maxX xIncr minRange maxRange (fuel + 1) i curX points =
      Run.after [.gen curX, .agg (g curX)]
        (spacedLineLoop f g maxX xIncr minRange maxRange fuel (i + 1) (curX + xIncr)
          (points.set i ⟨curX, (f (g curX)).1⟩)) := by
  rw [spacedLineLoop, if_pos h, if_neg hskip]
  simp only [all_checkFloats, hx, hys, hy, store_lt _ _ _ h.1]
  simp

theorem spacedErrorLoop_exit (f : List F64 → F64 × F64 × F64) (g : F64 → List F64)
    (maxX xIncr xOffset minRange maxRange : F64) (fuel i : Nat) (curX : F64)
    (errorBars : ErrorPoints) (h : ¬ (i < errorBars.XYs.length ∧ curX ≤ maxX + xIncr)) :
    spacedErrorLoop f g maxX xIncr xOffset minRange maxRange (fuel + 1) i curX errorBars =
      ⟨[], .ok (i, errorBars)⟩ := by
  rw [spacedErrorLoop, if_neg h]

theorem spacedErrorLoop_skip (f : List F64 → F64 × F64 × F64) (g : F64 → List F64)
    (maxX xIncr xOffset minRange maxRange : F64) (fuel i : Nat) (curX : F64)
    (errorBars : ErrorPoints) (h : i < errorBars.XYs.length ∧ curX ≤ maxX + xIncr)
    (hskip : curX < minRange ∨ curX > maxRange ∨ curX + xOffset < minRange ∨
      curX + xOffset > maxRange) :
    spacedErrorLoop f g maxX xIncr xOffset minRange maxRange (fuel + 1) i curX errorBars =
      spacedErrorLoop f g maxX xIncr xOffset minRange maxRange fuel i (curX + xIncr)
        errorBars := by
  rw [spacedErrorLoop, if_pos h]
  simp only [if_pos hskip]

theorem spacedErrorLoop_keep (f : List F64 → F64 × F64 × F64) (g : F64 → List F64)
    (maxX xIncr xOffset minRange maxRange : F64) (fuel i : Nat) (curX : F64)
    (errorBars : ErrorPoints) (h : i < errorBars.XYs.length ∧ curX ≤ maxX + xIncr)
    (hskip : ¬ (curX < minRange ∨ curX > maxRange ∨ curX + xOffset < minRange ∨
      curX + xOffset > maxRange))
    (hlx : i < errorBars.XErrors.length) (hly : i < errorBars.YErrors.length)
    (hx : CheckFloats [curX + xOffset] = true) (hys : CheckFloats (g (curX + xOffset)) = true)
    (hlh : CheckFloats [(f (g (curX + xOffset))).2.1, (f (g (curX + xOffset))).2.2] = true) :
    spacedErrorLoop f g maxX xIncr xOffset minRange maxRange (fuel + 1) i curX errorBars =
      Run.after [.gen (curX + xOffset), .agg (g (curX + xOffset))]
        (spacedErrorLoop f g maxX xIncr xOffset minRange maxRange fuel (i + 1) (curX + xIncr)
          ⟨errorBars.XYs.set i ⟨curX + xOffset, (f (g (curX + xOffset))).1⟩,
            errorBars.XErrors.set i ⟨F64.fin 0, F64.fin 0⟩,
            errorBars.YErrors.set i ⟨(f (g (curX + xOffset))).2.1,
              (f (g (curX + xOffset))).2.2⟩⟩) := by
  rw [spacedErrorLoop, if_pos h]
  simp only [if_neg hskip, all_checkFloats, hx, hys, hlh, store_lt _ _ _ h.1,
    store_lt _ _ _ hlx, store_lt _ _ _ hly]
  simp

/-! ### The line over the whole range -/

/-- The first loop of `NewErrorPointsSpaced`, with the sub-range equal to the
range from `lo` to `hi` and functions returning finite values: started at point
`i` with `curX = lo + i * s`, where `s` is the spacing of `N` points, it fills
the points `i`, ..., `N - 1` and leaves the earlier ones. -/
theorem spacedLineLoop_even (f : List F64 → F64 × F64 × F64) (g : F64 → List F64)
    (lo hi : ℚ) (N : Nat) (hN : 2 ≤ N) (hrange : lo ≤ hi)
    (hg : ∀ x, CheckFloats (g x) = true) (hf : ∀ ys, CheckFloats [(f ys).1] = true) :
    ∀ (fuel i : Nat) (points : List XY), i ≤ N → points.length = N → N - i < fuel →
      ∃ calls points',
        spacedLineLoop f g (F64.fin hi) (F64.fin ((hi - lo) / (N - 1))) (F64.fin lo) (F64.fin hi)
          fuel i (F64.fin (lo + i * ((hi - lo) / (N - 1)))) points = ⟨calls, .ok (N, points')⟩ ∧
        points'.length = N ∧
        (∀ j, j < i → points'[j]? = points[j]?) ∧
        (∀ j : Nat, i ≤ j → j < N → points'[j]? =
          some ⟨F64.fin (lo + j * ((hi - lo) / (N - 1))),
            (f (g (F64.fin (lo + j * ((hi - lo) / (N - 1)))))).1⟩) := by
  have hN1 : (0 : ℚ) < (N : ℚ) - 1 := by
    have : (2 : ℚ) ≤ (N : ℚ) := by exact_mod_cast hN
    linarith
  have hs : (0 : ℚ) ≤ (hi - lo) / (N - 1) := div_nonneg (by linarith) hN1.le
  have htop : ((N : ℚ) - 1) * ((hi - lo) / (N - 1)) = hi - lo := by
    field_simp
  intro fuel
  induction fuel with
  | zero => intro i points _ _ h; omega
  | succ fuel ih =>
    intro i points hi_le hlen hfuel
    by_cases hiN : i < N
    · have hiq : (i : ℚ) ≤ (N : ℚ) - 1 := by
        have : (i : ℚ) + 1 ≤ (N : ℚ) := by exact_mod_cast hiN
        linarith
      have hmul : (i : ℚ) * ((hi - lo) / (N - 1)) ≤ hi - lo := by
        calc (i : ℚ) * ((hi - lo) / (N - 1)) ≤ ((N : ℚ) - 1) * ((hi - lo) / (N - 1)) :=
              mul_le_mul_of_nonneg_right hiq hs
          _ = hi - lo := htop
      have hpos : (0 : ℚ) ≤ (i : ℚ) * ((hi - lo) / (N - 1)) :=
        mul_nonneg (by exact_mod_cast Nat.zero_le i) hs
      have hcond : i < points.length ∧
          F64.fin (lo + i * ((hi - lo) / (N - 1))) ≤ F64.fin hi + F64.fin ((hi - lo) / (N - 1)) := by
        refine ⟨by omega, ?_⟩
        rw [f64_fin_add, f64_fin_le_fin]
        linarith
      have hskip : ¬ (F64.fin (lo + i * ((hi - lo) / (N - 1))) < F64.fin lo ∨
          F64.fin (lo + i * ((hi - lo) / (N - 1))) > F64.fin hi) := by
        rw [gt_iff_lt, f64_fin_lt_fin, f64_fin_lt_fin]
        push_neg
        constructor <;> linarith
      rw [spacedLineLoop_keep f g _ _ _ _ fuel i _ points hcond hskip (checkFloats_fin _)
        (hg _) (hf _)]
      have hnext : F64.fin (lo + i * ((hi - lo) / (N - 1))) + F64.fin ((hi - lo) / (N - 1)) =
          F64.fin (lo + ((i + 1 : Nat) : ℚ) * ((hi - lo) / (N - 1))) := by
        rw [f64_fin_add]; congr 1; push_cast; ring
      rw [hnext]
      obtain ⟨calls, points', hrun, hlen', hbefore, hafter⟩ :=
        ih (i + 1) (points.set i ⟨F64.fin (lo + i * ((hi - lo) / (N - 1))),
          (f (g (F64.fin (lo + i * ((hi - lo) / (N - 1)))))).1⟩) hiN
          (by rw [List.length_set]; exact hlen) (by omega)
      refine ⟨_, points', by rw [hrun]; rfl, hlen', ?_, ?_⟩
      · intro j hj
        rw [hbefore j (by omega), List.getElem?_set_ne (by omega)]
      · intro j hij hjN
        rcases Nat.eq_or_lt_of_le hij with heq | hlt
        · subst heq
          rw [hbefore i (by omega), List.getElem?_set_self (by omega)]
        · exact hafter j hlt hjN
    · have hiN' : i = N := by omega
      subst hiN'
      rw [spacedLineLoop_exit f g _ _ _ _ fuel i _ points (by omega)]
      exact ⟨[], points, rfl, hlen, fun j _ => rfl, fun j h1 h2 => by omega⟩

/-- The second loop of `NewErrorPointsSpaced`, with the sub-range equal to the
range from `lo` to `hi = lo + E * s`, a finite offset `o` (zero when the spacing
`s` is zero) and functions returning finite values: from every state it returns,
with at most `E` error bars, when its fuel exceeds `(E - i) + (E + 2 - k)`. -/
theorem spacedErrorLoop_returns (f : List F64 → F64 × F64 × F64) (g : F64 → List F64)
    (lo hi s o : ℚ) (E : Nat) (hs : 0 ≤ s) (hso : s = 0 → o = 0) (hhi : hi = lo + E * s)
    (hg : ∀ x, CheckFloats (g x) = true)
    (hf : ∀ ys, CheckFloats [(f ys).2.1, (f ys).2.2] = true) :
    ∀ (fuel i k : Nat) (bars : ErrorPoints), bars.XYs.length = E → bars.XErrors.length = E →
      bars.YErrors.length = E → (E - i) + (E + 2 - k) < fuel →
      ∃ calls i' bars',
        spacedErrorLoop f g (F64.fin hi) (F64.fin s) (F64.fin o) (F64.fin lo) (F64.fin hi)
          fuel i (F64.fin (lo + k * s)) bars = ⟨calls, .ok (i', bars')⟩ ∧
        bars'.XYs.length = E ∧ bars'.XErrors.length = E ∧ bars'.YErrors.length = E := by
  intro fuel
  induction fuel with
  | zero => intro i k bars _ _ _ h; omega
  | succ fuel ih =>
    intro i k bars h1 h2 h3 hfuel
    have hnext : F64.fin (lo + k * s) + F64.fin s = F64.fin (lo + ((k + 1 : Nat) : ℚ) * s) := by
      rw [f64_fin_add]; congr 1; push_cast; ring
    by_cases hcond : i < bars.XYs.length ∧ F64.fin (lo + k * s) ≤ F64.fin hi + F64.fin s
    · by_cases hskip : F64.fin (lo + k * s) < F64.fin lo ∨ F64.fin (lo + k * s) > F64.fin hi ∨
          F64.fin (lo + k * s) + F64.fin o < F64.fin lo ∨
          F64.fin (lo + k * s) + F64.fin o > F64.fin hi
      · rw [spacedErrorLoop_skip f g _ _ _ _ _ fuel i _ bars hcond hskip, hnext]
        have hk : k < E + 2 := by
          by_contra hk
          have hkq : (E : ℚ) + 2 ≤ (k : ℚ) := by exact_mod_cast Nat.le_of_not_lt hk
          have hle := hcond.2
          rw [f64_fin_add, f64_fin_le_fin, hhi] at hle
          have hzero : s = 0 := by
            by_contra hne
            have hpos : 0 < s := lt_of_le_of_ne hs (Ne.symm hne)
            nlinarith
          have ho := hso hzero
          subst hzero
          subst ho
          simp only [mul_zero, add_zero, f64_fin_add, gt_iff_lt, f64_fin_lt_fin, lt_self_iff_false,
            false_or, or_self, hhi] at hskip
        exact ih i (k + 1) bars h1 h2 h3 (by omega)
      · rw [spacedErrorLoop_keep f g _ _ _ _ _ fuel i _ bars hcond hskip (by omega) (by omega)
          (by rw [f64_fin_add]; rfl) (hg _) (hf _), hnext]
        obtain ⟨calls, i', bars', hrun, l1, l2, l3⟩ := ih (i + 1) (k + 1)
          ⟨bars.XYs.set i ⟨F64.fin (lo + k * s) + F64.fin o,
              (f (g (F64.fin (lo + k * s) + F64.fin o))).1⟩,
            bars.XErrors.set i ⟨F64.fin 0, F64.fin 0⟩,
            bars.YErrors.set i ⟨(f (g (F64.fin (lo + k * s) + F64.fin o))).2.1,
              (f (g (F64.fin (lo + k * s) + F64.fin o))).2.2⟩⟩
          (by simp [h1]) (by simp [h2]) (by simp [h3]) (by omega)
        exact ⟨_, i', bars', by rw [hrun]; rfl, l1, l2, l3⟩
    · rw [spacedErrorLoop_exit f g _ _ _ _ _ fuel i _ bars hcond]
      exact ⟨[], i, bars, rfl, h1, h2, h3⟩

/-- The run of `NewErrorPointsSpaced` when both loops return. -/
theorem spaced_of_loops (fuel : Nat) (f : List F64 → F64 × F64 × F64)
    (pointSet totalNumberOfPointSets howManyPoints howManyErrorBars : Int)
    (minX maxX : F64) (g : F64 → List F64) (minRange maxRange : F64)
    (hn : 2 ≤ howManyPoints) (hE : 0 ≤ howManyErrorBars)
    (c1 c2 : List Call) (i1 i2 : Nat) (points : List XY) (bars : ErrorPoints)
    (hline : spacedLineLoop f g maxX ((maxX - minX) / (F64.ofInt howManyPoints - F64.fin 1))
      minRange maxRange fuel 0 minX (makeSlice XY.zero howManyPoints) = ⟨c1, .ok (i1, points)⟩)
    (hbars : spacedErrorLoop f g maxX ((maxX - minX) / F64.ofInt howManyErrorBars)
      ((maxX - minX) / F64.ofInt howManyErrorBars / F64.fin 4 +
        F64.ofInt pointSet * ((maxX - minX) / F64.ofInt howManyErrorBars / F64.fin 2) /
          F64.ofInt totalNumberOfPointSets)
      minRange maxRange fuel 0 minX
      ⟨makeSlice XY.zero howManyErrorBars, makeSlice LowHigh.zero howManyErrorBars,
        makeSlice LowHigh.zero howManyErrorBars⟩ = ⟨c2, .ok (i2, bars)⟩) :
    NewErrorPointsSpaced fuel f pointSet totalNumberOfPointSets howManyPoints howManyErrorBars
      minX maxX g minRange maxRange =
      ⟨c1 ++ (c2 ++ []), .ok (points.take i1,
        ⟨bars.XYs.take i2, bars.XErrors.take i2, bars.YErrors.take i2⟩)⟩ := by
  simp only [NewErrorPointsSpaced, if_neg (not_lt.2 hn), if_neg (not_lt.2 hE), hline, hbars,
    Run.bind, Run.after]

/-- C8, as stated, fails when the total number of point sets is 0: with two
points over the range from 0 to 1, one error bar, and functions that return
only the finite value 1, the offset of the error bar is NaN and
`NewErrorPointsSpaced` returns the validation error and no line. -/
theorem spaced_zero_total_no_line :
    (∀ x, CheckFloats (oneGen x) = true) ∧
    (∀ ys, CheckFloats [(oneAgg ys).1, (oneAgg ys).2.1, (oneAgg ys).2.2] = true) ∧
    (NewErrorPointsSpaced 10 oneAgg 0 0 2 1 (F64.fin 0) (F64.fin 1) oneGen (F64.fin 0)
      (F64.fin 1)).outcome = .error :=
  ⟨fun _ => rfl, fun _ => rfl, by decide!⟩

/-- C8, amended. For a point count `n ≥ 2`, a range `lo ≤ hi`, the sub-range
equal to that range, an error-bar count `E ≥ 0`, a total number of point sets
that is not 0, and generator and aggregation functions that return only finite
values, `NewErrorPointsSpaced` (given enough fuel) returns a line of exactly `n`
points whose `i`-th x-value is `lo + i * (hi - lo) / (n - 1)`: the first is
`lo`, the last is `hi`, and two consecutive ones differ by `(hi - lo) / (n - 1)`. -/
theorem spaced_line_evenly_spaced (fuel : Nat) (f : List F64 → F64 × F64 × F64)
    (g : F64 → List F64) (pointSet totalNumberOfPointSets n E : Int) (lo hi : ℚ)
    (hn : 2 ≤ n) (hrange : lo ≤ hi) (hE : 0 ≤ E) (htotal : totalNumberOfPointSets ≠ 0)
    (hg : ∀ x, ∀ y ∈ g x, F64.isFinite y = true)
    (hf : ∀ ys, F64.isFinite (f ys).1 = true ∧ F64.isFinite (f ys).2.1 = true ∧
      F64.isFinite (f ys).2.2 = true)
    (hfuel : n.toNat + 2 * E.toNat + 2 < fuel) :
    ∃ pts bars,
      (NewErrorPointsSpaced fuel f pointSet totalNumberOfPointSets n E (F64.fin lo) (F64.fin hi)
        g (F64.fin lo) (F64.fin hi)).outcome = .ok (pts, bars) ∧
      pts.length = n.toNat ∧
      (∀ i : Nat, i < n.toNat →
        ∃ y, pts[i]? = some ⟨F64.fin (lo + i * (hi - lo) / (n - 1)), y⟩) ∧
      (∃ y, pts[0]? = some ⟨F64.fin lo, y⟩) ∧
      (∃ y, pts[n.toNat - 1]? = some ⟨F64.fin hi, y⟩) ∧
      (∀ i : Nat, i + 1 < n.toNat → ∃ a b ya yb, pts[i]? = some ⟨F64.fin a, ya⟩ ∧
        pts[i + 1]? = some ⟨F64.fin b, yb⟩ ∧ b - a = (hi - lo) / (n - 1)) := by
  have hg' : ∀ x, CheckFloats (g x) = true := fun x => by
    simp only [CheckFloats, List.all_eq_true]; exact hg x
  have hf1 : ∀ ys, CheckFloats [(f ys).1] = true := fun ys => by
    simp [CheckFloats, (hf ys).1]
  have hf2 : ∀ ys, CheckFloats [(f ys).2.1, (f ys).2.2] = true := fun ys => by
    simp [CheckFloats, (hf ys).2.1, (hf ys).2.2]
  obtain ⟨N, rfl⟩ : ∃ N : Nat, n = (N : Int) := ⟨n.toNat, (Int.toNat_of_nonneg (by omega)).symm⟩
  obtain ⟨M, rfl⟩ : ∃ M : Nat, E = (M : Int) := ⟨E.toNat, (Int.toNat_of_nonneg hE).symm⟩
  have hN : 2 ≤ N := by exact_mod_cast hn
  simp only [Int.toNat_ofNat] at hfuel ⊢
  have hN1 : ((N : ℚ) - 1) ≠ 0 := by
    have : (2 : ℚ) ≤ (N : ℚ) := by exact_mod_cast hN
    intro h; linarith
  -- the line
  have hincr : (F64.fin hi - F64.fin lo) / (F64.ofInt (N : Int) - F64.fin 1) =
      F64.fin ((hi - lo) / (N - 1)) := by
    simp only [F64.ofInt, Int.cast_natCast, f64_fin_sub]
    exact f64_fin_div _ _ hN1
  obtain ⟨c1, points, hline, hlen, -, hpts⟩ :=
    spacedLineLoop_even f g lo hi N hN hrange hg' hf1 fuel 0 (makeSlice XY.zero (N : Int))
      (Nat.zero_le _) (by simp [makeSlice]) (by omega)
  simp only [Nat.cast_zero, zero_mul, add_zero] at hline
  rw [← hincr] at hline
  -- the error bars
  have hbars : ∃ c2 i2 bars,
      spacedErrorLoop f g (F64.fin hi) ((F64.fin hi - F64.fin lo) / F64.ofInt (M : Int))
        ((F64.fin hi - F64.fin lo) / F64.ofInt (M : Int) / F64.fin 4 +
          F64.ofInt pointSet * ((F64.fin hi - F64.fin lo) / F64.ofInt (M : Int) / F64.fin 2) /
            F64.ofInt totalNumberOfPointSets)
        (F64.fin lo) (F64.fin hi) fuel 0 (F64.fin lo)
        ⟨makeSlice XY.zero (M : Int), makeSlice LowHigh.zero (M : Int),
          makeSlice LowHigh.zero (M : Int)⟩ = ⟨c2, .ok (i2, bars)⟩ := by
    obtain ⟨fuel', rfl⟩ : ∃ fuel', fuel = fuel' + 1 := ⟨fuel - 1, by omega⟩
    rcases Nat.eq_zero_or_pos M with hM | hM
    · subst hM
      exact ⟨[], 0, _, spacedErrorLoop_exit f g _ _ _ _ _ fuel' 0 _ _ (by simp [makeSlice])⟩
    · have hMq : (M : ℚ) ≠ 0 := by exact_mod_cast (Nat.pos_iff_ne_zero.1 hM)
      have htq : (totalNumberOfPointSets : ℚ) ≠ 0 := by exact_mod_cast htotal
      have hs : (F64.fin hi - F64.fin lo) / F64.ofInt (M : Int) = F64.fin ((hi - lo) / M) := by
        simp only [F64.ofInt, Int.cast_natCast, f64_fin_sub]
        exact f64_fin_div _ _ hMq
      have ho : F64.fin ((hi - lo) / M) / F64.fin 4 +
          F64.ofInt pointSet * (F64.fin ((hi - lo) / M) / F64.fin 2) /
            F64.ofInt totalNumberOfPointSets =
          F64.fin ((hi - lo) / M / 4 + pointSet * ((hi - lo) / M / 2) / totalNumberOfPointSets) := by
        rw [f64_fin_div _ _ (by norm_num), f64_fin_div _ _ (by norm_num)]
        simp only [F64.ofInt, f64_fin_mul]
        rw [f64_fin_div _ _ htq, f64_fin_add]
      rw [hs, ho]
      obtain ⟨c2, i2, bars, hrun, -⟩ :=
        spacedErrorLoop_returns f g lo hi ((hi - lo) / M)
          ((hi - lo) / M / 4 + pointSet * ((hi - lo) / M / 2) / totalNumberOfPointSets) M
          (div_nonneg (by linarith) (by positivity)) (by intro h; rw [h]; simp)
          (by field_simp) hg' hf2 (fuel' + 1) 0 0
          ⟨makeSlice XY.zero (M : Int), makeSlice LowHigh.zero (M : Int),
            makeSlice LowHigh.zero (M : Int)⟩
          (by simp [makeSlice]) (by simp [makeSlice]) (by simp [makeSlice]) (by omega)
      simp only [Nat.cast_zero, zero_mul, add_zero] at hrun
      exact ⟨c2, i2, bars, hrun⟩
  obtain ⟨c2, i2, bars, hbars⟩ := hbars
  have htake : points.take N = points := List.take_of_length_le (by omega)
  refine ⟨points.take N, ⟨bars.XYs.take i2, bars.XErrors.take i2, bars.YErrors.take i2⟩,
    ?_, ?_, ?_, ?_, ?_, ?_⟩
  · rw [spaced_of_loops fuel f pointSet totalNumberOfPointSets N M (F64.fin lo) (F64.fin hi) g
      (F64.fin lo) (F64.fin hi) hn hE c1 c2 N i2 points bars hline hbars]
  · rw [htake, hlen]
  · intro i hiN
    refine ⟨(f (g (F64.fin (lo + i * ((hi - lo) / (N - 1)))))).1, ?_⟩
    rw [htake, hpts i (Nat.zero_le _) hiN]
    simp only [Int.cast_natCast, mul_div_assoc]
  · refine ⟨(f (g (F64.fin (lo + ((0 : Nat) : ℚ) * ((hi - lo) / (N - 1)))))).1, ?_⟩
    rw [htake, hpts 0 (Nat.zero_le _) (by omega)]
    simp only [Nat.cast_zero, zero_mul, add_zero]
  · refine ⟨(f (g (F64.fin (lo + ((N - 1 : Nat) : ℚ) * ((hi - lo) / (N - 1)))))).1, ?_⟩
    rw [htake, hpts (N - 1) (Nat.zero_le _) (by omega)]
    have hlast : lo + ((N - 1 : Nat) : ℚ) * ((hi - lo) / (N - 1)) = hi := by
      rw [Nat.cast_sub (by omega), Nat.cast_one]
      field_simp
    rw [hlast]
  · intro i hiN
    refine ⟨_, _, _, _, by rw [htake]; exact hpts i (Nat.zero_le _) (by omega),
      by rw [htake]; exact hpts (i + 1) (Nat.zero_le _) hiN, ?_⟩
    simp only [Int.cast_natCast]
    push_cast
    ring

/-- C8, amended, for 3 points over the range from 0 to 2: the x-values are
0, 1 and 2. -/
theorem spaced_line_evenly_spaced_witness :
    ∃ pts bars,
      (NewErrorPointsSpaced 10 oneAgg 0 1 3 1 (F64.fin 0) (F64.fin 2) oneGen (F64.fin 0)
        (F64.fin 2)).outcome = .ok (pts, bars) ∧
      pts.length = 3 ∧ (∃ y, pts[0]? = some ⟨F64.fin 0, y⟩) ∧ (∃ y, pts[2]? = some ⟨F64.fin 2, y⟩) := by
  obtain ⟨pts, bars, hout, hlen, _, hfirst, hlast, _⟩ :=
    spaced_line_evenly_spaced 10 oneAgg oneGen 0 1 3 1 0 2 (by decide) (by norm_num) (by decide)
      (by decide) (fun _ y hy => by simp only [oneGen, List.mem_singleton] at hy; rw [hy]; rfl)
      (fun _ => ⟨rfl, rfl, rfl⟩) (by decide)
  exact ⟨pts, bars, hout, hlen, hfirst, hlast⟩

/-! ### NewErrorPointsXSpaced against NewErrorPointsSpaced -/

theorem xSpacedLineLoop_eq (f : List F64 → F64 × F64 × F64) (g : F64 → List F64)
    (dataMax xIncr genRangeMin genRangeMax : F64) :
    ∀ (fuel i : Nat) (curX : F64) (points : List XY),
      xSpacedLineLoop f g dataMax xIncr genRangeMin genRangeMax fuel i curX points =
        spacedLineLoop f g dataMax xIncr genRangeMin genRangeMax fuel i curX points := by
  intro fuel
  induction fuel with
  | zero => intro i curX points; rfl
  | succ fuel ih =>
    intro i curX points
    rw [xSpacedLineLoop, spacedLineLoop]
    simp only [all_checkFloats, ih]

theorem xSpacedErrorLoop_eq (f : List F64 → F64 × F64 × F64) (g : F64 → List F64)
    (dataMax xIncr xOffset genRangeMin genRangeMax : F64) :
    ∀ (fuel i : Nat) (curX : F64) (errorPoints : ErrorPoints),
      xSpacedErrorLoop f g dataMax xIncr xOffset genRangeMin genRangeMax fuel i curX errorPoints =
        spacedErrorLoop f g dataMax xIncr xOffset genRangeMin genRangeMax fuel i curX
          errorPoints := by
  intro fuel
  induction fuel with
  | zero => intro i curX errorPoints; rfl
  | succ fuel ih =>
    intro i curX errorPoints
    rw [xSpacedErrorLoop, spacedErrorLoop]
    simp only [all_checkFloats, ih]

/-- A turn of the loop of `NewErrorPointsXSpaced` that starts with the spacing
of the line is a call of `NewErrorPointsSpaced`; it leaves in `xIncr` the
spacing of the error bars. -/
theorem xSpacedTurn_eq_spaced (fuel : Nat) (f : List F64 → F64 × F64 × F64)
    (howManyPoints howManyErrorBars : Int) (dataMin dataMax : F64) (numGenerators : Nat)
    (curGeneratorIndex : Nat) (pointsGenerator : PointGenerator) (hn : 2 ≤ howManyPoints) :
    xSpacedTurn fuel f howManyPoints howManyErrorBars dataMin dataMax numGenerators
      curGeneratorIndex pointsGenerator
      ((dataMax - dataMin) / (F64.ofInt howManyPoints - F64.fin 1)) =
    (NewErrorPointsSpaced fuel f curGeneratorIndex numGenerators howManyPoints howManyErrorBars
      dataMin dataMax pointsGenerator.generator pointsGenerator.pointRange.min
      pointsGenerator.pointRange.max).bind
      (fun r => ⟨[], .ok (⟨r.1, r.2⟩, (dataMax - dataMin) / F64.ofInt howManyErrorBars)⟩) := by
  simp only [xSpacedTurn, NewErrorPointsSpaced, if_neg (not_lt.2 hn), xSpacedLineLoop_eq,
    xSpacedErrorLoop_eq]
  split
  · rfl
  · generalize spacedLineLoop f pointsGenerator.generator dataMax
      ((dataMax - dataMin) / (F64.ofInt howManyPoints - F64.fin 1))
      pointsGenerator.pointRange.min pointsGenerator.pointRange.max fuel 0 dataMin
      (makeSlice XY.zero howManyPoints) = r1
    obtain ⟨c1, o1⟩ := r1
    cases o1 with
    | ok a =>
      obtain ⟨i1, points⟩ := a
      simp only [Run.bind, Run.after]
      generalize spacedErrorLoop f pointsGenerator.generator dataMax _ _ _ _ fuel 0 dataMin _ = r2
      obtain ⟨c2, o2⟩ := r2
      cases o2 <;> simp
    | error => rfl
    | panic p => rfl
    | outOfFuel => rfl

/-- C1. For two descriptors over the range from 0 to 2, 3 points and 1 error
bar, the pair `NewErrorPointsXSpaced` returns for the descriptor of index 1 has
the line `(0,0), (2,2)`: it is sampled with the spacing of the error bars, 2,
which the turn of index 0 left in `xIncr`. `NewErrorPointsSpaced` called for
`pointSet = 1` of 2 returns the line `(0,0), (1,1), (2,2)`, with the same error
bars. -/
theorem xSpaced_second_line_uses_error_spacing :
    (NewErrorPointsXSpaced 10 firstAgg 3 1 ⟨F64.fin 0, F64.fin 2⟩ twoGenerators).outcome =
      .ok [⟨[⟨F64.fin 0, F64.fin 0⟩, ⟨F64.fin 1, F64.fin 1⟩, ⟨F64.fin 2, F64.fin 2⟩],
            ⟨[⟨F64.fin (1 / 2), F64.fin (1 / 2)⟩], [⟨F64.fin 0, F64.fin 0⟩],
              [⟨F64.fin 1, F64.fin 2⟩]⟩⟩,
          ⟨[⟨F64.fin 0, F64.fin 0⟩, ⟨F64.fin 2, F64.fin 2⟩],
            ⟨[⟨F64.fin 1, F64.fin 1⟩], [⟨F64.fin 0, F64.fin 0⟩], [⟨F64.fin 1, F64.fin 2⟩]⟩⟩] ∧
    (NewErrorPointsSpaced 10 firstAgg 1 2 3 1 (F64.fin 0) (F64.fin 2) idGen (F64.fin 0)
      (F64.fin 2)).outcome =
      .ok ([⟨F64.fin 0, F64.fin 0⟩, ⟨F64.fin 1, F64.fin 1⟩, ⟨F64.fin 2, F64.fin 2⟩],
        ⟨[⟨F64.fin 1, F64.fin 1⟩], [⟨F64.fin 0, F64.fin 0⟩], [⟨F64.fin 1, F64.fin 2⟩]⟩) := by
  decide!

/-! ### NewPaddedErrorPoints -/

theorem paddedLoop_eq {XYer : Type} (f : List F64 → F64 × F64 × F64) (total : Nat) :
    ∀ (lines : List (List XYer)) (i : Nat) (errPts : List ErrorPoints),
      paddedLoop f total lines i errPts =
        ⟨[], .ok (errPts ++ List.replicate lines.length
          ⟨List.replicate 4 XY.zero, List.replicate 4 LowHigh.zero,
            List.replicate 4 LowHigh.zero⟩)⟩ := by
  intro lines
  induction lines with
  | nil => intro i errPts; simp [paddedLoop]
  | cons line rest ih =>
    intro i errPts
    rw [paddedLoop]
    simp only [newPaddedErrorPoints, Run.bind, Run.after, ih, makeSlice]
    simp [List.replicate_succ]

/-- C13. For every aggregation function and every list of `N` input series, of
any contents, `NewPaddedErrorPoints` returns a `nil` error and exactly `N`
`ErrorPoints`, each with 4 zero-valued positions, 4 zero-valued x-deviations and
4 zero-valued y-deviations; the aggregation function is not called. -/
theorem padded_error_points_spec {XYer : Type} (f : List F64 → F64 × F64 × F64)
    (lines : List (List XYer)) :
    NewPaddedErrorPoints f lines =
      ⟨[], .ok (List.replicate lines.length
        ⟨List.replicate 4 ⟨F64.fin 0, F64.fin 0⟩, List.replicate 4 ⟨F64.fin 0, F64.fin 0⟩,
          List.replicate 4 ⟨F64.fin 0, F64.fin 0⟩⟩)⟩ := by
  rw [NewPaddedErrorPoints, paddedLoop_eq]
  simp [XY.zero, LowHigh.zero]

/-! ### The stagger of the error bars -/

theorem errorBarSpacing_fin (lo hi : ℚ) (E : Int) (hE : E ≠ 0) :
    errorBarSpacing (F64.fin lo) (F64.fin hi) E = F64.fin ((hi - lo) / E) := by
  have hq : (E : ℚ) ≠ 0 := by exact_mod_cast hE
  simp only [errorBarSpacing, F64.ofInt, f64_fin_sub]
  exact f64_fin_div _ _ hq

theorem errorBarOffset_fin (s : ℚ) (i N : Int) (hN : N ≠ 0) :
    errorBarOffset (F64.fin s) i N = F64.fin (s / 4 + i * (s / 2) / N) := by
  have hq : (N : ℚ) ≠ 0 := by exact_mod_cast hN
  simp only [errorBarOffset, F64.ofInt]
  rw [f64_fin_div _ _ (by norm_num), f64_fin_div _ _ (by norm_num), f64_fin_mul,
    f64_fin_div _ _ hq, f64_fin_add]

/-- The second loop of `NewErrorPointsSpaced` runs with the spacing
`errorBarSpacing` and the offset `errorBarOffset`. -/
theorem spaced_uses_offset (fuel : Nat) (f : List F64 → F64 × F64 × F64)
    (pointSet totalNumberOfPointSets howManyPoints howManyErrorBars : Int)
    (minX maxX : F64) (g : F64 → List F64) (minRange maxRange : F64)
    (hn : 2 ≤ howManyPoints) (hE : 0 ≤ howManyErrorBars) :
    NewErrorPointsSpaced fuel f pointSet totalNumberOfPointSets howManyPoints howManyErrorBars
      minX maxX g minRange maxRange =
    (spacedLineLoop f g maxX ((maxX - minX) / (F64.ofInt howManyPoints - F64.fin 1))
      minRange maxRange fuel 0 minX (makeSlice XY.zero howManyPoints)).bind
      fun r =>
        (spacedErrorLoop f g maxX (errorBarSpacing minX maxX howManyErrorBars)
          (errorBarOffset (errorBarSpacing minX maxX howManyErrorBars) pointSet
            totalNumberOfPointSets)
          minRange maxRange fuel 0 minX
          ⟨makeSlice XY.zero howManyErrorBars, makeSlice LowHigh.zero howManyErrorBars,
            makeSlice LowHigh.zero howManyErrorBars⟩).bind
          fun e => ⟨[], .ok (r.2.take r.1,
            ⟨e.2.XYs.take e.1, e.2.XErrors.take e.1, e.2.YErrors.take e.1⟩)⟩ := by
  simp only [NewErrorPointsSpaced, if_neg (not_lt.2 hn), if_neg (not_lt.2 hE), errorBarSpacing,
    errorBarOffset]

/-! ### The shape of what the two loops return -/

theorem spacedLineLoop_abort (f : List F64 → F64 × F64 × F64) (g : F64 → List F64)
    (maxX xIncr minRange maxRange : F64) (fuel i : Nat) (curX : F64) (points : List XY)
    (h : i < points.length ∧ curX ≤ maxX + xIncr)
    (hskip : ¬ (curX < minRange ∨ curX > maxRange))
    (hbad : ¬ (CheckFloats [curX] = true ∧ CheckFloats (g curX) = true ∧
      CheckFloats [(f (g curX)).1] = true)) :
    (spacedLineLoop f g maxX xIncr minRange maxRange (fuel + 1) i curX points).outcome =
      .error := by
  rw [spacedLineLoop, if_pos h, if_neg hskip]
  simp only [all_checkFloats, store_lt _ _ _ h.1]
  by_cases h1 : CheckFloats [curX] = true
  · by_cases h2 : CheckFloats (g curX) = true
    · by_cases h3 : CheckFloats [(f (g curX)).1] = true
      · exact absurd ⟨h1, h2, h3⟩ hbad
      · simp [h1, h2, h3]
    · simp [h1, h2]
  · simp [h1]

theorem take_set_self {α : Type} (l : List α) (i : Nat) (a : α) :
    (l.set i a).take i = l.take i :=
  List.ext_getElem? fun k => by
    rw [List.getElem?_take, List.getElem?_take]
    split
    · rw [List.getElem?_set_ne (by omega)]
    · rfl

theorem iterX_succ (curX xIncr : F64) (m : Nat) :
    iterX curX xIncr (m + 1) = iterX (curX + xIncr) xIncr m := rfl

theorem pairwise_lt_shift (ms : List Nat) (h : ms.Pairwise (· < ·)) :
    (0 :: ms.map (· + 1)).Pairwise (· < ·) := by
  rw [List.pairwise_cons]
  refine ⟨?_, ?_⟩
  · intro a ha
    obtain ⟨b, _, rfl⟩ := List.mem_map.1 ha
    omega
  · rw [List.pairwise_map]
    exact h.imp (fun hab => by omega)

/-- What the first loop of `NewErrorPointsSpaced` returns: it has retained the
positions `curX + m * xIncr` for an increasing list `ms` of turn numbers `m`,
written their points from index `i` on, and called the supplied functions at
these positions only. -/
theorem spacedLineLoop_shape (f : List F64 → F64 × F64 × F64) (g : F64 → List F64)
    (maxX xIncr minRange maxRange : F64) :
    ∀ (fuel i : Nat) (curX : F64) (points : List XY) (calls : List Call) (i' : Nat)
      (points' : List XY),
      spacedLineLoop f g maxX xIncr minRange maxRange fuel i curX points =
        ⟨calls, .ok (i', points')⟩ →
      ∃ ms : List Nat, ms.Pairwise (· < ·) ∧ i' = i + ms.length ∧
        (ms ≠ [] → i' ≤ points.length ∧ curX ≤ maxX + xIncr) ∧
        points' = points.take i ++ ms.map (fun m => linePoint f g (iterX curX xIncr m)) ++
          points.drop i' ∧
        calls = ms.flatMap (fun m => callsAt g (iterX curX xIncr m)) ∧
        ∀ m ∈ ms, LineKept f g maxX xIncr minRange maxRange (iterX curX xIncr m) := by
  intro fuel
  induction fuel with
  | zero => intro i curX points calls i' points' h; simp [spacedLineLoop] at h
  | succ fuel ih =>
    intro i curX points calls i' points' h
    by_cases hcond : i < points.length ∧ curX ≤ maxX + xIncr
    · by_cases hskip : curX < minRange ∨ curX > maxRange
      · rw [spacedLineLoop_skip f g _ _ _ _ fuel i curX points hcond hskip] at h
        obtain ⟨ms, hsorted, hi', hne, hpts, hcalls, hkept⟩ := ih _ _ _ _ _ _ h
        refine ⟨ms.map (· + 1), ?_, by simp [hi'], ?_, ?_, ?_, ?_⟩
        · rw [List.pairwise_map]; exact hsorted.imp (fun hab => by omega)
        · intro hms
          exact ⟨(hne (by simpa using hms)).1, hcond.2⟩
        · simp only [List.map_map, hpts]; rfl
        · rw [hcalls, List.flatMap_map]; rfl
        · intro m hm
          obtain ⟨m0, hm0, rfl⟩ := List.mem_map.1 hm
          exact hkept m0 hm0
      · by_cases hchk : CheckFloats [curX] = true ∧ CheckFloats (g curX) = true ∧
            CheckFloats [(f (g curX)).1] = true
        · rw [spacedLineLoop_keep f g _ _ _ _ fuel i curX points hcond hskip hchk.1 hchk.2.1
            hchk.2.2] at h
          generalize hr : spacedLineLoop f g maxX xIncr minRange maxRange fuel (i + 1)
            (curX + xIncr) (points.set i ⟨curX, (f (g curX)).1⟩) = r at h
          obtain ⟨calls0, o0⟩ := r
          simp only [Run.after, Run.mk.injEq] at h
          obtain ⟨hc, ho⟩ := h
          subst ho
          obtain ⟨ms, hsorted, hi', hne, hpts, hcalls, hkept⟩ := ih _ _ _ _ _ _ hr
          have hlt : i < i' := by omega
          refine ⟨0 :: ms.map (· + 1), pairwise_lt_shift ms hsorted, by simp [hi']; omega,
            ?_, ?_, ?_, ?_⟩
          · intro _
            refine ⟨?_, hcond.2⟩
            by_cases hms : ms = []
            · subst hms; simp at hi'; omega
            · have := (hne hms).1; simpa using this
          · rw [hpts, List.drop_set_of_lt _ _ hlt, List.take_succ,
              List.getElem?_set_self hcond.1, take_set_self]
            simp only [Option.toList, List.map_cons, List.map_map, List.append_assoc,
              List.singleton_append, List.cons_append, List.nil_append]
            rfl
          · rw [← hc, hcalls, List.flatMap_cons, List.flatMap_map]; rfl
          · intro m hm
            rcases List.mem_cons.1 hm with rfl | hm
            · exact ⟨hcond.2, hskip, hchk⟩
            · obtain ⟨m0, hm0, rfl⟩ := List.mem_map.1 hm
              exact hkept m0 hm0
        · have := spacedLineLoop_abort f g _ _ _ _ fuel i curX points hcond hskip hchk
          rw [h] at this
          cases this
    · rw [spacedLineLoop_exit f g _ _ _ _ fuel i curX points hcond] at h
      simp only [Run.mk.injEq, Outcome.ok.injEq, Prod.mk.injEq] at h
      obtain ⟨rfl, rfl, rfl⟩ := h
      exact ⟨[], List.Pairwise.nil, rfl, fun h => absurd rfl h, by simp, rfl, by simp⟩

theorem spacedErrorLoop_abort (f : List F64 → F64 × F64 × F64) (g : F64 → List F64)
    (maxX xIncr xOffset minRange maxRange : F64) (fuel i : Nat) (curX : F64)
    (errorBars : ErrorPoints) (h : i < errorBars.XYs.length ∧ curX ≤ maxX + xIncr)
    (hskip : ¬ (curX < minRange ∨ curX > maxRange ∨ curX + xOffset < minRange ∨
      curX + xOffset > maxRange))
    (hlx : i < errorBars.XErrors.length) (hly : i < errorBars.YErrors.length)
    (hbad : ¬ (CheckFloats [curX + xOffset] = true ∧ CheckFloats (g (curX + xOffset)) = true ∧
      CheckFloats [(f (g (curX + xOffset))).2.1, (f (g (curX + xOffset))).2.2] = true)) :
    (spacedErrorLoop f g maxX xIncr xOffset minRange maxRange (fuel + 1) i curX
      errorBars).outcome = .error := by
  rw [spacedErrorLoop, if_pos h]
  simp only [if_neg hskip, all_checkFloats, store_lt _ _ _ h.1, store_lt _ _ _ hlx,
    store_lt _ _ _ hly]
  by_cases h1 : CheckFloats [curX + xOffset] = true
  · by_cases h2 : CheckFloats (g (curX + xOffset)) = true
    · by_cases h3 : CheckFloats [(f (g (curX + xOffset))).2.1,
          (f (g (curX + xOffset))).2.2] = true
      · exact absurd ⟨h1, h2, h3⟩ hbad
      · simp [h1, h2, h3]
    · simp [h1, h2]
  · simp [h1]

theorem set_shape {α : Type} (l : List α) (i i' : Nat) (a : α) (rest : List α)
    (hi : i < l.length) (hlt : i < i') :
    (l.set i a).take (i + 1) ++ rest ++ (l.set i a).drop i' =
      l.take i ++ a :: rest ++ l.drop i' := by
  rw [List.drop_set_of_lt _ _ hlt, List.take_succ, List.getElem?_set_self hi, take_set_self]
  simp

/-- What the second loop of `NewErrorPointsSpaced` returns: it has retained the
base positions `curX + m * xIncr` for an increasing list `ms` of turn numbers,
written the three entries of their error bars from index `i` on, and called the
supplied functions at the offset positions only. -/
theorem spacedErrorLoop_shape (f : List F64 → F64 × F64 × F64) (g : F64 → List F64)
    (maxX xIncr xOffset minRange maxRange : F64) :
    ∀ (fuel i : Nat) (curX : F64) (bars : ErrorPoints) (calls : List Call) (i' : Nat)
      (bars' : ErrorPoints),
      bars.XErrors.length = bars.XYs.length → bars.YErrors.length = bars.XYs.length →
      spacedErrorLoop f g maxX xIncr xOffset minRange maxRange fuel i curX bars =
        ⟨calls, .ok (i', bars')⟩ →
      ∃ ms : List Nat, ms.Pairwise (· < ·) ∧ i' = i + ms.length ∧
        (ms ≠ [] → i' ≤ bars.XYs.length ∧ curX ≤ maxX + xIncr) ∧
        bars'.XYs = bars.XYs.take i ++
          ms.map (fun m => linePoint f g (iterX curX xIncr m + xOffset)) ++ bars.XYs.drop i' ∧
        bars'.XErrors = bars.XErrors.take i ++ ms.map (fun _ => LowHigh.zero) ++
          bars.XErrors.drop i' ∧
        bars'.YErrors = bars.YErrors.take i ++
          ms.map (fun m => barDeviation f g (iterX curX xIncr m + xOffset)) ++
          bars.YErrors.drop i' ∧
        calls = ms.flatMap (fun m => callsAt g (iterX curX xIncr m + xOffset)) ∧
        ∀ m ∈ ms, BarKept f g maxX xIncr xOffset minRange maxRange (iterX curX xIncr m) := by
  intro fuel
  induction fuel with
  | zero => intro i curX bars calls i' bars' _ _ h; simp [spacedErrorLoop] at h
  | succ fuel ih =>
    intro i curX bars calls i' bars' hlx hly h
    by_cases hcond : i < bars.XYs.length ∧ curX ≤ maxX + xIncr
    · by_cases hskip : curX < minRange ∨ curX > maxRange ∨ curX + xOffset < minRange ∨
          curX + xOffset > maxRange
      · rw [spacedErrorLoop_skip f g _ _ _ _ _ fuel i curX bars hcond hskip] at h
        obtain ⟨ms, hsorted, hi', hne, hxy, hxe, hye, hcalls, hkept⟩ := ih _ _ _ _ _ _ hlx hly h
        refine ⟨ms.map (· + 1), ?_, by simp [hi'], ?_, ?_, ?_, ?_, ?_, ?_⟩
        · rw [List.pairwise_map]; exact hsorted.imp (fun hab => by omega)
        · intro hms
          exact ⟨(hne (by simpa using hms)).1, hcond.2⟩
        · simp only [List.map_map, hxy]; rfl
        · simp only [List.map_map, hxe]; rfl
        · simp only [List.map_map, hye]; rfl
        · rw [hcalls, List.flatMap_map]; rfl
        · intro m hm
          obtain ⟨m0, hm0, rfl⟩ := List.mem_map.1 hm
          exact hkept m0 hm0
      · have hix : i < bars.XErrors.length := by omega
        have hiy : i < bars.YErrors.length := by omega
        by_cases hchk : CheckFloats [curX + xOffset] = true ∧
            CheckFloats (g (curX + xOffset)) = true ∧
            CheckFloats [(f (g (curX + xOffset))).2.1, (f (g (curX + xOffset))).2.2] = true
        · rw [spacedErrorLoop_keep f g _ _ _ _ _ fuel i curX bars hcond hskip hix hiy hchk.1
            hchk.2.1 hchk.2.2] at h
          generalize hr : spacedErrorLoop f g maxX xIncr xOffset minRange maxRange fuel (i + 1)
            (curX + xIncr) _ = r at h
          obtain ⟨calls0, o0⟩ := r
          simp only [Run.after, Run.mk.injEq] at h
          obtain ⟨hc, ho⟩ := h
          subst ho
          obtain ⟨ms, hsorted, hi', hne, hxy, hxe, hye, hcalls, hkept⟩ :=
            ih _ _ _ _ _ _ (by simp [hlx]) (by simp [hly]) hr
          have hlt : i < i' := by omega
          refine ⟨0 :: ms.map (· + 1), pairwise_lt_shift ms hsorted, by simp [hi']; omega,
            ?_, ?_, ?_, ?_, ?_, ?_⟩
          · intro _
            refine ⟨?_, hcond.2⟩
            by_cases hms : ms = []
            · subst hms; simp at hi'; omega
            · have := (hne hms).1; simpa using this
          · rw [hxy]
            simp only [List.map_cons, List.map_map]
            exact set_shape _ _ _ _ _ hcond.1 hlt
          · rw [hxe]
            simp only [List.map_cons, List.map_map]
            exact set_shape _ _ _ _ _ hix hlt
          · rw [hye]
            simp only [List.map_cons, List.map_map]
            exact set_shape _ _ _ _ _ hiy hlt
          · rw [← hc, hcalls, List.flatMap_cons, List.flatMap_map]; rfl
          · intro m hm
            rcases List.mem_cons.1 hm with rfl | hm
            · exact ⟨hcond.2, hskip, hchk⟩
            · obtain ⟨m0, hm0, rfl⟩ := List.mem_map.1 hm
              exact hkept m0 hm0
        · have := spacedErrorLoop_abort f g _ _ _ _ _ fuel i curX bars hcond hskip hix hiy hchk
          rw [h] at this
          cases this
    · rw [spacedErrorLoop_exit f g _ _ _ _ _ fuel i curX bars hcond] at h
      simp only [Run.mk.injEq, Outcome.ok.injEq, Prod.mk.injEq] at h
      obtain ⟨rfl, rfl, rfl⟩ := h
      exact ⟨[], List.Pairwise.nil, rfl, fun h => absurd rfl h, by simp, by simp, by simp, rfl,
        by simp⟩

theorem take_map_append {α β : Type} (ms : List α) (e : α → β) (rest : List β) :
    (ms.map e ++ rest).take (0 + ms.length) = ms.map e := by
  rw [Nat.zero_add, List.take_append_eq_append_take]
  simp

/-- The two loops run one after the other from fresh slices. -/
theorem two_loops_shape (f : List F64 → F64 × F64 × F64) (g : F64 → List F64)
    (minX maxX lineIncr errIncr xOffset minRange maxRange : F64) (n E : Int) (fuel : Nat)
    (hn : 0 ≤ n) (hE : 0 ≤ E)
    (c1 c2 : List Call) (i1 i2 : Nat) (p1 : List XY) (b2 : ErrorPoints)
    (h1 : spacedLineLoop f g maxX lineIncr minRange maxRange fuel 0 minX
      (makeSlice XY.zero n) = ⟨c1, .ok (i1, p1)⟩)
    (h2 : spacedErrorLoop f g maxX errIncr xOffset minRange maxRange fuel 0 minX
      ⟨makeSlice XY.zero E, makeSlice LowHigh.zero E, makeSlice LowHigh.zero E⟩ =
        ⟨c2, .ok (i2, b2)⟩) :
    SpacedShape f g minX maxX lineIncr errIncr xOffset minRange maxRange n E (p1.take i1)
      ⟨b2.XYs.take i2, b2.XErrors.take i2, b2.YErrors.take i2⟩ (c1 ++ c2) := by
  obtain ⟨ms, hms, hi1, hne1, hp1, hc1, hk1⟩ := spacedLineLoop_shape f g _ _ _ _ _ _ _ _ _ _ _ h1
  obtain ⟨es, hes, hi2, hne2, hxy, hxe, hye, hc2, hk2⟩ :=
    spacedErrorLoop_shape f g _ _ _ _ _ _ _ _ _ _ _ _ (by simp [makeSlice]) (by simp [makeSlice]) h2
  have hlen1 : (ms.length : Int) ≤ n := by
    by_cases h : ms = []
    · subst h; simpa using hn
    · have := (hne1 h).1
      simp only [makeSlice, List.length_replicate] at this
      omega
  have hlen2 : (es.length : Int) ≤ E := by
    by_cases h : es = []
    · subst h; simpa using hE
    · have := (hne2 h).1
      simp only [makeSlice, List.length_replicate] at this
      omega
  refine ⟨ms, es, hms, hes, hlen1, hlen2, fun h => (hne1 h).2, fun h => (hne2 h).2, ?_, ?_, ?_,
    ?_, by rw [hc1, hc2], hk1, hk2⟩
  · rw [hp1, hi1, List.take_zero, List.nil_append, take_map_append]
  · simp only [hxy, hi2, List.take_zero, List.nil_append, take_map_append]
  · simp only [hxe, hi2, List.take_zero, List.nil_append, take_map_append]
  · simp only [hye, hi2, List.take_zero, List.nil_append, take_map_append]

/-- A call of `NewErrorPointsSpaced` that returns without error has the shape
of a pass of the two loops. -/
theorem spaced_shape (fuel : Nat) (f : List F64 → F64 × F64 × F64)
    (pointSet totalNumberOfPointSets howManyPoints howManyErrorBars : Int)
    (minX maxX : F64) (g : F64 → List F64) (minRange maxRange : F64)
    (calls : List Call) (pts : List XY) (bars : ErrorPoints)
    (h : NewErrorPointsSpaced fuel f pointSet totalNumberOfPointSets howManyPoints
      howManyErrorBars minX maxX g minRange maxRange = ⟨calls, .ok (pts, bars)⟩) :
    2 ≤ howManyPoints ∧ 0 ≤ howManyErrorBars ∧
    SpacedShape f g minX maxX ((maxX - minX) / (F64.ofInt howManyPoints - F64.fin 1))
      (errorBarSpacing minX maxX howManyErrorBars)
      (errorBarOffset (errorBarSpacing minX maxX howManyErrorBars) pointSet
        totalNumberOfPointSets)
      minRange maxRange howManyPoints howManyErrorBars pts bars calls := by
  by_cases hn : howManyPoints < 2
  · simp [NewErrorPointsSpaced, hn] at h
  by_cases hE : howManyErrorBars < 0
  · simp [NewErrorPointsSpaced, hn, hE] at h
  have hn' : 2 ≤ howManyPoints := not_lt.1 hn
  have hE' : 0 ≤ howManyErrorBars := not_lt.1 hE
  refine ⟨hn', hE', ?_⟩
  rw [spaced_uses_offset fuel f _ _ _ _ _ _ g _ _ hn' hE'] at h
  generalize h1 : spacedLineLoop f g maxX _ minRange maxRange fuel 0 minX _ = r1 at h
  obtain ⟨c1, o1⟩ := r1
  cases o1 with
  | ok a =>
    obtain ⟨i1, p1⟩ := a
    simp only [Run.bind, Run.after] at h
    generalize h2 : spacedErrorLoop f g maxX _ _ minRange maxRange fuel 0 minX _ = r2 at h
    obtain ⟨c2, o2⟩ := r2
    cases o2 with
    | ok b =>
      obtain ⟨i2, b2⟩ := b
      simp only [Run.mk.injEq, Outcome.ok.injEq, Prod.mk.injEq, List.append_nil] at h
      obtain ⟨hc, hp, hb⟩ := h
      subst hc hp hb
      exact two_loops_shape f g _ _ _ _ _ _ _ _ _ fuel (by omega) hE' c1 c2 i1 i2 p1 b2 h1 h2
    | error => simp at h
    | panic p => simp at h
    | outOfFuel => simp at h
  | error => simp [Run.bind] at h
  | panic p => simp [Run.bind] at h
  | outOfFuel => simp [Run.bind] at h

/-! ### Finite values and the walk of `curX` -/

theorem isFinite_iff (x : F64) : F64.isFinite x = true ↔ ∃ q, x = F64.fin q := by
  cases x <;> simp [F64.isFinite]

theorem checkFloats_single (x : F64) : CheckFloats [x] = true ↔ F64.isFinite x = true := by
  simp [CheckFloats]

theorem add_not_finite_right (a b : F64) (hb : F64.isFinite b = false) :
    F64.isFinite (a + b) = false := by
  show F64.isFinite (F64.add a b) = false
  cases a <;> cases b <;> simp_all [F64.add, F64.isFinite]

theorem add_not_finite_left (a b : F64) (ha : F64.isFinite a = false) :
    F64.isFinite (a + b) = false := by
  show F64.isFinite (F64.add a b) = false
  cases a <;> cases b <;> simp_all [F64.add, F64.isFinite]

theorem infOfSign_not_finite (q : ℚ) : F64.isFinite (F64.infOfSign q) = false := by
  unfold F64.infOfSign
  split <;> rfl

theorem neg_infOfSign_not_finite (q : ℚ) :
    F64.isFinite (F64.neg (F64.infOfSign q)) = false := by
  unfold F64.infOfSign
  split <;> rfl

theorem div_fin_finite (a : F64) (k : ℚ) (h : F64.isFinite (a / F64.fin k) = true) :
    ∃ q, a = F64.fin q ∧ k ≠ 0 := by
  change F64.isFinite (F64.div a (F64.fin k)) = true at h
  cases a with
  | fin q =>
    refine ⟨q, rfl, ?_⟩
    rintro rfl
    simp only [F64.div, if_true] at h
    split at h
    · cases h
    · rw [infOfSign_not_finite] at h; cases h
  | posInf => simp only [F64.div, infOfSign_not_finite] at h; cases h
  | negInf => simp only [F64.div, neg_infOfSign_not_finite] at h; cases h
  | nan => simp [F64.div, F64.isFinite] at h

theorem sub_fin_finite (a : F64) (c : ℚ) (h : F64.isFinite (a - F64.fin c) = true) :
    ∃ q, a = F64.fin q := by
  change F64.isFinite (F64.add a (F64.neg (F64.fin c))) = true at h
  cases a with
  | fin q => exact ⟨q, rfl⟩
  | posInf => simp [F64.add, F64.neg, F64.isFinite] at h
  | negInf => simp [F64.add, F64.neg, F64.isFinite] at h
  | nan => simp [F64.add, F64.neg, F64.isFinite] at h

theorem iterX_fin (c s : ℚ) (m : Nat) :
    iterX (F64.fin c) (F64.fin s) m = F64.fin (c + m * s) := by
  induction m generalizing c with
  | zero => simp [iterX]
  | succ m ih =>
    rw [iterX_succ, f64_fin_add, ih]
    congr 1
    push_cast
    ring

theorem iterX_not_finite_of_start (curX xIncr : F64) (h : F64.isFinite curX = false) (m : Nat) :
    F64.isFinite (iterX curX xIncr m) = false := by
  induction m generalizing curX with
  | zero => exact h
  | succ m ih => rw [iterX_succ]; exact ih _ (add_not_finite_left _ _ h)

theorem iterX_not_finite_of_incr (curX xIncr : F64) (h : F64.isFinite xIncr = false) (m : Nat) :
    F64.isFinite (iterX curX xIncr (m + 1)) = false := by
  rw [iterX_succ]
  exact iterX_not_finite_of_start _ _ (add_not_finite_right _ _ h) m

/-- Two positions of the walk that are both finite, the second at a later turn:
the start and the spacing are finite. -/
theorem iterX_finite_pair (curX xIncr : F64) (m m' : Nat) (hlt : m < m')
    (h : F64.isFinite (iterX curX xIncr m) = true)
    (h' : F64.isFinite (iterX curX xIncr m') = true) :
    ∃ c s, curX = F64.fin c ∧ xIncr = F64.fin s := by
  obtain ⟨k, rfl⟩ : ∃ k, m' = k + 1 := ⟨m' - 1, by omega⟩
  cases hc : F64.isFinite curX with
  | false => rw [iterX_not_finite_of_start _ _ hc] at h; cases h
  | true =>
    cases hs : F64.isFinite xIncr with
    | false => rw [iterX_not_finite_of_incr _ _ hs] at h'; cases h'
    | true =>
      obtain ⟨c, rfl⟩ := (isFinite_iff _).1 hc
      obtain ⟨s, rfl⟩ := (isFinite_iff _).1 hs
      exact ⟨c, s, rfl, rfl⟩

theorem forwardSpacing_div (minX maxX : F64) (k : ℚ) (hk : 0 ≤ k) :
    ForwardSpacing minX maxX ((maxX - minX) / F64.fin k) := by
  intro c s hc hs hle
  subst hc
  have hfin : F64.isFinite ((maxX - F64.fin c) / F64.fin k) = true := by rw [hs]; rfl
  obtain ⟨d, hd, hk0⟩ := div_fin_finite _ _ hfin
  obtain ⟨h, rfl⟩ := sub_fin_finite _ _ (by rw [hd]; rfl)
  rw [f64_fin_sub, f64_fin_div _ _ hk0] at hs
  have hs' := F64.fin.inj hs
  rw [f64_fin_add, f64_fin_le_fin] at hle
  have hkpos : 0 < k := lt_of_le_of_ne hk (Ne.symm hk0)
  by_contra hneg
  push_neg at hneg
  have h1 : (h - c) / k < 0 := by rw [hs']; exact hneg
  have h2 : h - c < 0 := by
    by_contra h3
    push_neg at h3
    exact absurd (div_nonneg h3 hkpos.le) (not_le.2 h1)
  linarith

/-! ### Consequences of the shape -/

theorem lineKept_finite {f : List F64 → F64 × F64 × F64} {g : F64 → List F64}
    {maxX xIncr minRange maxRange x : F64} (h : LineKept f g maxX xIncr minRange maxRange x) :
    F64.isFinite x = true := (checkFloats_single x).1 h.2.2.1

theorem barKept_finite {f : List F64 → F64 × F64 × F64} {g : F64 → List F64}
    {maxX xIncr xOffset minRange maxRange x : F64}
    (h : BarKept f g maxX xIncr xOffset minRange maxRange x) :
    F64.isFinite (x + xOffset) = true := (checkFloats_single _).1 h.2.2.1

/-- The retained positions of a walk with a forward spacing do not decrease. -/
theorem walk_nondecreasing (minX maxX xIncr : F64) (hfwd : ForwardSpacing minX maxX xIncr)
    (ms : List Nat) (hms : ms.Pairwise (· < ·)) (hstart : ms ≠ [] → minX ≤ maxX + xIncr)
    (hfin : ∀ m ∈ ms, F64.isFinite (iterX minX xIncr m) = true) :
    ms.Pairwise (fun m m' => iterX minX xIncr m ≤ iterX minX xIncr m') := by
  refine List.Pairwise.imp_of_mem ?_ hms
  intro m m' hm hm' hlt
  obtain ⟨c, s, rfl, rfl⟩ := iterX_finite_pair _ _ m m' hlt (hfin m hm) (hfin m' hm')
  have hs : 0 ≤ s := hfwd c s rfl rfl (hstart (List.ne_nil_of_mem hm))
  rw [iterX_fin, iterX_fin, f64_fin_le_fin]
  have : (m : ℚ) ≤ (m' : ℚ) := by exact_mod_cast hlt.le
  nlinarith

/-- The line of a pass with a forward spacing has non-decreasing x-values. -/
theorem shape_line_nondecreasing (f : List F64 → F64 × F64 × F64) (g : F64 → List F64)
    (minX maxX lineIncr errIncr xOffset minRange maxRange : F64) (n E : Int)
    (pts : List XY) (bars : ErrorPoints) (calls : List Call)
    (hshape : SpacedShape f g minX maxX lineIncr errIncr xOffset minRange maxRange n E pts bars
      calls)
    (hfwd : ForwardSpacing minX maxX lineIncr) :
    pts.Pairwise (fun a b => a.X ≤ b.X) := by
  obtain ⟨ms, es, hms, -, -, -, hstart, -, hpts, -, -, -, -, hkept, -⟩ := hshape
  rw [hpts, List.pairwise_map]
  exact walk_nondecreasing minX maxX lineIncr hfwd ms hms hstart
    (fun m hm => lineKept_finite (hkept m hm))

/-- The error bars of a pass are three slices of one length, at most `E`, and
the x-deviations are all `(0, 0)`. -/
theorem shape_bars_wellformed (f : List F64 → F64 × F64 × F64) (g : F64 → List F64)
    (minX maxX lineIncr errIncr xOffset minRange maxRange : F64) (n E : Int)
    (pts : List XY) (bars : ErrorPoints) (calls : List Call)
    (hshape : SpacedShape f g minX maxX lineIncr errIncr xOffset minRange maxRange n E pts bars
      calls) :
    bars.XErrors.length = bars.XYs.length ∧ bars.YErrors.length = bars.XYs.length ∧
    (bars.XYs.length : Int) ≤ E ∧ ∀ d ∈ bars.XErrors, d = ⟨F64.fin 0, F64.fin 0⟩ := by
  obtain ⟨ms, es, -, -, -, hlen, -, -, -, hxy, hxe, hye, -, -, -⟩ := hshape
  refine ⟨by rw [hxe, hxy]; simp, by rw [hye, hxy]; simp, by rw [hxy]; simpa using hlen, ?_⟩
  intro d hd
  rw [hxe] at hd
  obtain ⟨_, _, rfl⟩ := List.mem_map.1 hd
  rfl

theorem pairwise_consecutive {α : Type} (R : α → α → Prop) (l : List α) (h : l.Pairwise R)
    (i : Nat) (a b : α) (ha : l[i]? = some a) (hb : l[i + 1]? = some b) : R a b := by
  obtain ⟨hi, rfl⟩ := List.getElem?_eq_some_iff.1 ha
  obtain ⟨hi', rfl⟩ := List.getElem?_eq_some_iff.1 hb
  exact List.pairwise_iff_getElem.1 h i (i + 1) hi hi' (Nat.lt_succ_self i)

/-! ### The turns of `NewErrorPointsXSpaced` -/

theorem xSpacedTurn_shape (fuel : Nat) (f : List F64 → F64 × F64 × F64)
    (howManyPoints howManyErrorBars : Int) (dataMin dataMax : F64) (numGenerators : Nat)
    (curGeneratorIndex : Nat) (pointsGenerator : PointGenerator) (xIncr : F64)
    (hn : 0 ≤ howManyPoints) (calls : List Call) (entry : PointsAndErrorPoints) (xIncr' : F64)
    (h : xSpacedTurn fuel f howManyPoints howManyErrorBars dataMin dataMax numGenerators
      curGeneratorIndex pointsGenerator xIncr = ⟨calls, .ok (entry, xIncr')⟩) :
    0 ≤ howManyErrorBars ∧ xIncr' = errorBarSpacing dataMin dataMax howManyErrorBars ∧
    SpacedShape f pointsGenerator.generator dataMin dataMax xIncr
      (errorBarSpacing dataMin dataMax howManyErrorBars)
      (errorBarOffset (errorBarSpacing dataMin dataMax howManyErrorBars) curGeneratorIndex
        numGenerators)
      pointsGenerator.pointRange.min pointsGenerator.pointRange.max howManyPoints
      howManyErrorBars entry.points entry.errorPoints calls := by
  by_cases hE : howManyErrorBars < 0
  · simp [xSpacedTurn, hE] at h
  have hE' : 0 ≤ howManyErrorBars := not_lt.1 hE
  simp only [xSpacedTurn, if_neg hE, xSpacedLineLoop_eq, xSpacedErrorLoop_eq] at h
  generalize h1 : spacedLineLoop f pointsGenerator.generator dataMax xIncr _ _ fuel 0 dataMin _
    = r1 at h
  obtain ⟨c1, o1⟩ := r1
  cases o1 with
  | ok a =>
    obtain ⟨i1, p1⟩ := a
    simp only [Run.bind, Run.after] at h
    generalize h2 : spacedErrorLoop f pointsGenerator.generator dataMax _ _ _ _ fuel 0 dataMin _
      = r2 at h
    obtain ⟨c2, o2⟩ := r2
    cases o2 with
    | ok b =>
      obtain ⟨i2, b2⟩ := b
      simp only [Run.mk.injEq, Outcome.ok.injEq, Prod.mk.injEq, List.append_nil] at h
      obtain ⟨hc, he, hx⟩ := h
      subst hc he
      exact ⟨hE', hx.symm, two_loops_shape f _ _ _ _ _ _ _ _ _ _ fuel hn hE' c1 c2 i1 i2 p1 b2
        h1 h2⟩
    | error => simp at h
    | panic p => simp at h
    | outOfFuel => simp at h
  | error => simp [Run.bind] at h
  | panic p => simp [Run.bind] at h
  | outOfFuel => simp [Run.bind] at h

/-- A property of the entries that every turn started with a forward spacing
establishes holds for every entry `NewErrorPointsXSpaced` returns. -/
theorem xSpacedLoop_forall (fuel : Nat) (f : List F64 → F64 × F64 × F64)
    (howManyPoints howManyErrorBars : Int) (dataMin dataMax : F64) (numGenerators : Nat)
    (hn : 0 ≤ howManyPoints) (P : PointsAndErrorPoints → Prop)
    (hturn : ∀ (idx : Nat) (pg : PointGenerator) (xIncr : F64) (entry : PointsAndErrorPoints)
      (calls : List Call), ForwardSpacing dataMin dataMax xIncr →
      SpacedShape f pg.generator dataMin dataMax xIncr
        (errorBarSpacing dataMin dataMax howManyErrorBars)
        (errorBarOffset (errorBarSpacing dataMin dataMax howManyErrorBars) idx numGenerators)
        pg.pointRange.min pg.pointRange.max howManyPoints howManyErrorBars entry.points
        entry.errorPoints calls → P entry) :
    ∀ (gens : List PointGenerator) (idx : Nat) (xIncr : F64) (acc : List PointsAndErrorPoints)
      (calls : List Call) (res : List PointsAndErrorPoints),
      ForwardSpacing dataMin dataMax xIncr → (∀ e ∈ acc, P e) →
      xSpacedLoop fuel f howManyPoints howManyErrorBars dataMin dataMax numGenerators gens idx
        xIncr acc = ⟨calls, .ok res⟩ →
      (∀ e ∈ res, P e) ∧ res.length = acc.length + gens.length := by
  intro gens
  induction gens with
  | nil =>
    intro idx xIncr acc calls res _ hacc h
    simp only [xSpacedLoop, Run.mk.injEq, Outcome.ok.injEq] at h
    obtain ⟨-, rfl⟩ := h
    exact ⟨hacc, rfl⟩
  | cons pg rest ih =>
    intro idx xIncr acc calls res hfwd hacc h
    rw [xSpacedLoop] at h
    generalize ht : xSpacedTurn fuel f howManyPoints howManyErrorBars dataMin dataMax
      numGenerators idx pg xIncr = t at h
    obtain ⟨c1, o1⟩ := t
    cases o1 with
    | ok a =>
      obtain ⟨entry, xIncr'⟩ := a
      simp only [Run.bind, Run.after] at h
      generalize hr : xSpacedLoop fuel f howManyPoints howManyErrorBars dataMin dataMax
        numGenerators rest (idx + 1) xIncr' (acc ++ [entry]) = r at h
      obtain ⟨c2, o2⟩ := r
      simp only [Run.mk.injEq] at h
      obtain ⟨-, ho⟩ := h
      subst ho
      obtain ⟨hE, hx, hshape⟩ := xSpacedTurn_shape fuel f _ _ _ _ _ _ _ _ hn _ _ _ ht
      have hfwd' : ForwardSpacing dataMin dataMax xIncr' := by
        rw [hx]
        exact forwardSpacing_div dataMin dataMax _ (by exact_mod_cast hE)
      have hacc' : ∀ e ∈ acc ++ [entry], P e := by
        intro e he
        rcases List.mem_append.1 he with h1 | h1
        · exact hacc e h1
        · rw [List.mem_singleton.1 h1]
          exact hturn idx pg xIncr entry c1 hfwd hshape
      obtain ⟨hall, hlen⟩ := ih (idx + 1) xIncr' (acc ++ [entry]) c2 res hfwd' hacc' hr
      refine ⟨hall, ?_⟩
      rw [hlen]; simp; omega
    | error => simp [Run.bind] at h
    | panic p => simp [Run.bind] at h
    | outOfFuel => simp [Run.bind] at h

theorem forwardSpacing_line (minX maxX : F64) (howManyPoints : Int) (hn : 2 ≤ howManyPoints) :
    ForwardSpacing minX maxX ((maxX - minX) / (F64.ofInt howManyPoints - F64.fin 1)) := by
  have : F64.ofInt howManyPoints - F64.fin 1 = F64.fin ((howManyPoints : ℚ) - 1) := by
    simp [F64.ofInt]
  rw [this]
  apply forwardSpacing_div
  have : (2 : ℚ) ≤ (howManyPoints : ℚ) := by exact_mod_cast hn
  linarith

theorem xSpaced_forall (fuel : Nat) (f : List F64 → F64 × F64 × F64)
    (howManyPoints howManyErrorBars : Int) (dataRange : Float64Range)
    (pointsGenerators : List PointGenerator) (P : PointsAndErrorPoints → Prop)
    (hturn : ∀ (idx : Nat) (pg : PointGenerator) (xIncr : F64) (entry : PointsAndErrorPoints)
      (calls : List Call), ForwardSpacing dataRange.min dataRange.max xIncr →
      SpacedShape f pg.generator dataRange.min dataRange.max xIncr
        (errorBarSpacing dataRange.min dataRange.max howManyErrorBars)
        (errorBarOffset (errorBarSpacing dataRange.min dataRange.max howManyErrorBars) idx
          pointsGenerators.length)
        pg.pointRange.min pg.pointRange.max howManyPoints howManyErrorBars entry.points
        entry.errorPoints calls → P entry)
    (calls : List Call) (res : List PointsAndErrorPoints)
    (h : NewErrorPointsXSpaced fuel f howManyPoints howManyErrorBars dataRange pointsGenerators
      = ⟨calls, .ok res⟩) :
    (∀ e ∈ res, P e) ∧ res.length = pointsGenerators.length := by
  by_cases hn : howManyPoints < 2
  · simp [NewErrorPointsXSpaced, hn] at h
  simp only [NewErrorPointsXSpaced, if_neg hn] at h
  have := xSpacedLoop_forall fuel f howManyPoints howManyErrorBars dataRange.min dataRange.max
    pointsGenerators.length (by omega) P hturn pointsGenerators 0 _ [] calls res
    (forwardSpacing_line _ _ _ (not_lt.1 hn)) (by simp) h
  simpa using this

theorem run_eta {α : Type} (r : Run α) (a : α) (h : r.outcome = .ok a) :
    r = ⟨r.calls, .ok a⟩ := by
  cases r; simp_all

/-- C15. In the line `NewErrorPointsSpaced` returns without error, and in the
line of every entry `NewErrorPointsXSpaced` returns without error, the x-values
do not decrease: `x[i] <= x[i+1]`, for all inputs. -/
theorem line_x_nondecreasing (fuel : Nat) (f : List F64 → F64 × F64 × F64)
    (pointSet totalNumberOfPointSets howManyPoints howManyErrorBars : Int)
    (minX maxX : F64) (g : F64 → List F64) (minRange maxRange : F64)
    (dataRange : Float64Range) (pointsGenerators : List PointGenerator) :
    (∀ pts bars, (NewErrorPointsSpaced fuel f pointSet totalNumberOfPointSets howManyPoints
        howManyErrorBars minX maxX g minRange maxRange).outcome = .ok (pts, bars) →
      ∀ (i : Nat) (a b : XY), pts[i]? = some a → pts[i + 1]? = some b → a.X ≤ b.X) ∧
    (∀ res, (NewErrorPointsXSpaced fuel f howManyPoints howManyErrorBars dataRange
        pointsGenerators).outcome = .ok res →
      ∀ e ∈ res, ∀ (i : Nat) (a b : XY), e.points[i]? = some a → e.points[i + 1]? = some b →
        a.X ≤ b.X) := by
  constructor
  · intro pts bars h i a b ha hb
    obtain ⟨hn, -, hshape⟩ := spaced_shape fuel f _ _ _ _ _ _ g _ _ _ _ _ (run_eta _ _ h)
    exact pairwise_consecutive _ _
      (shape_line_nondecreasing f g _ _ _ _ _ _ _ _ _ _ _ _ hshape
        (forwardSpacing_line _ _ _ hn)) i a b ha hb
  · intro res h e he i a b ha hb
    have hall := (xSpaced_forall fuel f howManyPoints howManyErrorBars dataRange pointsGenerators
      (fun e => e.points.Pairwise (fun a b => a.X ≤ b.X))
      (fun idx pg xIncr entry calls hfwd hshape =>
        shape_line_nondecreasing f _ _ _ _ _ _ _ _ _ _ _ _ _ hshape hfwd)
      _ res (run_eta _ _ h)).1
    exact pairwise_consecutive _ _ (hall e he) i a b ha hb

/-- C15 on 3 points over the range from 0 to 2, and on the two series of
`NewErrorPointsXSpaced` over that range (the line of the second is `(0,0), (2,2)`). -/
theorem line_x_nondecreasing_witness :
    (∃ pts bars, (NewErrorPointsSpaced 10 firstAgg 0 1 3 1 (F64.fin 0) (F64.fin 2) idGen
        (F64.fin 0) (F64.fin 2)).outcome = .ok (pts, bars) ∧
      ∀ (i : Nat) (a b : XY), pts[i]? = some a → pts[i + 1]? = some b → a.X ≤ b.X) ∧
    (∃ res, (NewErrorPointsXSpaced 10 firstAgg 3 1 ⟨F64.fin 0, F64.fin 2⟩
        twoGenerators).outcome = .ok res ∧
      ∀ e ∈ res, ∀ (i : Nat) (a b : XY), e.points[i]? = some a → e.points[i + 1]? = some b →
        a.X ≤ b.X) :=
  ⟨⟨sampleLine, sampleBars, by decide!,
      (line_x_nondecreasing 10 firstAgg 0 1 3 1 (F64.fin 0) (F64.fin 2) idGen (F64.fin 0)
        (F64.fin 2) ⟨F64.fin 0, F64.fin 2⟩ twoGenerators).1 sampleLine sampleBars (by decide!)⟩,
   ⟨sampleEntries, by decide!,
      (line_x_nondecreasing 10 firstAgg 0 1 3 1 (F64.fin 0) (F64.fin 2) idGen (F64.fin 0)
        (F64.fin 2) ⟨F64.fin 0, F64.fin 2⟩ twoGenerators).2 sampleEntries (by decide!)⟩⟩

/-- C16. The error bars `NewErrorPointsSpaced` returns without error, and those
of every entry `NewErrorPointsXSpaced` returns without error, are well formed:
the three slices have the same length, that length is at most the requested
error-bar count, and every x-deviation is `(0, 0)`. -/
theorem error_bars_wellformed (fuel : Nat) (f : List F64 → F64 × F64 × F64)
    (pointSet totalNumberOfPointSets howManyPoints howManyErrorBars : Int)
    (minX maxX : F64) (g : F64 → List F64) (minRange maxRange : F64)
    (dataRange : Float64Range) (pointsGenerators : List PointGenerator) :
    (∀ pts bars, (NewErrorPointsSpaced fuel f pointSet totalNumberOfPointSets howManyPoints
        howManyErrorBars minX maxX g minRange maxRange).outcome = .ok (pts, bars) →
      bars.XErrors.length = bars.XYs.length ∧ bars.YErrors.length = bars.XYs.length ∧
      (bars.XYs.length : Int) ≤ howManyErrorBars ∧
      ∀ d ∈ bars.XErrors, d = ⟨F64.fin 0, F64.fin 0⟩) ∧
    (∀ res, (NewErrorPointsXSpaced fuel f howManyPoints howManyErrorBars dataRange
        pointsGenerators).outcome = .ok res →
      ∀ e ∈ res, e.errorPoints.XErrors.length = e.errorPoints.XYs.length ∧
        e.errorPoints.YErrors.length = e.errorPoints.XYs.length ∧
        (e.errorPoints.XYs.length : Int) ≤ howManyErrorBars ∧
        ∀ d ∈ e.errorPoints.XErrors, d = ⟨F64.fin 0, F64.fin 0⟩) := by
  constructor
  · intro pts bars h
    obtain ⟨-, -, hshape⟩ := spaced_shape fuel f _ _ _ _ _ _ g _ _ _ _ _ (run_eta _ _ h)
    exact shape_bars_wellformed f g _ _ _ _ _ _ _ _ _ _ _ _ hshape
  · intro res h
    exact (xSpaced_forall fuel f howManyPoints howManyErrorBars dataRange pointsGenerators
      (fun e => e.errorPoints.XErrors.length = e.errorPoints.XYs.length ∧
        e.errorPoints.YErrors.length = e.errorPoints.XYs.length ∧
        (e.errorPoints.XYs.length : Int) ≤ howManyErrorBars ∧
        ∀ d ∈ e.errorPoints.XErrors, d = ⟨F64.fin 0, F64.fin 0⟩)
      (fun idx pg xIncr entry calls _ hshape =>
        shape_bars_wellformed f _ _ _ _ _ _ _ _ _ _ _ _ _ hshape)
      _ res (run_eta _ _ h)).1

/-- C16 on 3 points and 1 error bar over the range from 0 to 2. -/
theorem error_bars_wellformed_witness :
    ∃ pts bars, (NewErrorPointsSpaced 10 firstAgg 0 1 3 1 (F64.fin 0) (F64.fin 2) idGen
        (F64.fin 0) (F64.fin 2)).outcome = .ok (pts, bars) ∧
      bars.XErrors.length = bars.XYs.length ∧ bars.YErrors.length = bars.XYs.length ∧
      (bars.XYs.length : Int) ≤ 1 ∧ ∀ d ∈ bars.XErrors, d = ⟨F64.fin 0, F64.fin 0⟩ :=
  ⟨sampleLine, sampleBars, by decide!,
    (error_bars_wellformed 10 firstAgg 0 1 3 1 (F64.fin 0) (F64.fin 2) idGen (F64.fin 0)
      (F64.fin 2) ⟨F64.fin 0, F64.fin 2⟩ twoGenerators).1 sampleLine sampleBars (by decide!)⟩

/-! ### No write outside the slices -/

theorem spacedLineLoop_no_panic (f : List F64 → F64 × F64 × F64) (g : F64 → List F64)
    (maxX xIncr minRange maxRange : F64) (p : Fault) :
    ∀ (fuel i : Nat) (curX : F64) (points : List XY),
      (spacedLineLoop f g maxX xIncr minRange maxRange fuel i curX points).outcome ≠ .panic p := by
  intro fuel
  induction fuel with
  | zero => intro i curX points; simp [spacedLineLoop]
  | succ fuel ih =>
    intro i curX points
    by_cases hcond : i < points.length ∧ curX ≤ maxX + xIncr
    · by_cases hskip : curX < minRange ∨ curX > maxRange
      · rw [spacedLineLoop_skip f g _ _ _ _ fuel i curX points hcond hskip]
        exact ih _ _ _
      · by_cases hchk : CheckFloats [curX] = true ∧ CheckFloats (g curX) = true ∧
            CheckFloats [(f (g curX)).1] = true
        · rw [spacedLineLoop_keep f g _ _ _ _ fuel i curX points hcond hskip hchk.1 hchk.2.1
            hchk.2.2]
          exact ih _ _ _
        · rw [spacedLineLoop_abort f g _ _ _ _ fuel i curX points hcond hskip hchk]
          simp
    · rw [spacedLineLoop_exit f g _ _ _ _ fuel i curX points hcond]
      simp

theorem spacedErrorLoop_no_panic (f : List F64 → F64 × F64 × F64) (g : F64 → List F64)
    (maxX xIncr xOffset minRange maxRange : F64) (p : Fault) :
    ∀ (fuel i : Nat) (curX : F64) (bars : ErrorPoints),
      bars.XErrors.length = bars.XYs.length → bars.YErrors.length = bars.XYs.length →
      (spacedErrorLoop f g maxX xIncr xOffset minRange maxRange fuel i curX bars).outcome ≠
        .panic p := by
  intro fuel
  induction fuel with
  | zero => intro i curX bars _ _; simp [spacedErrorLoop]
  | succ fuel ih =>
    intro i curX bars hlx hly
    by_cases hcond : i < bars.XYs.length ∧ curX ≤ maxX + xIncr
    · by_cases hskip : curX < minRange ∨ curX > maxRange ∨ curX + xOffset < minRange ∨
          curX + xOffset > maxRange
      · rw [spacedErrorLoop_skip f g _ _ _ _ _ fuel i curX bars hcond hskip]
        exact ih _ _ _ hlx hly
      · have hix : i < bars.XErrors.length := by omega
        have hiy : i < bars.YErrors.length := by omega
        by_cases hchk : CheckFloats [curX + xOffset] = true ∧
            CheckFloats (g (curX + xOffset)) = true ∧
            CheckFloats [(f (g (curX + xOffset))).2.1, (f (g (curX + xOffset))).2.2] = true
        · rw [spacedErrorLoop_keep f g _ _ _ _ _ fuel i curX bars hcond hskip hix hiy hchk.1
            hchk.2.1 hchk.2.2]
          exact ih _ _ _ (by simp [hlx]) (by simp [hly])
        · rw [spacedErrorLoop_abort f g _ _ _ _ _ fuel i curX bars hcond hskip hix hiy hchk]
          simp
    · rw [spacedErrorLoop_exit f g _ _ _ _ _ fuel i curX bars hcond]
      simp

theorem bind_outcome_panic {α β : Type} (r : Run α) (k : α → Run β) (p : Fault)
    (h : (r.bind k).outcome = .panic p) :
    r.outcome = .panic p ∨ ∃ a, (k a).outcome = .panic p := by
  obtain ⟨c, o⟩ := r
  cases o with
  | ok a => exact Or.inr ⟨a, by simpa [Run.bind, Run.after] using h⟩
  | error => simp [Run.bind] at h
  | panic q => exact Or.inl (by simpa [Run.bind] using h)
  | outOfFuel => simp [Run.bind] at h

theorem spaced_no_index_panic (fuel : Nat) (f : List F64 → F64 × F64 × F64)
    (pointSet totalNumberOfPointSets howManyPoints howManyErrorBars : Int)
    (minX maxX : F64) (g : F64 → List F64) (minRange maxRange : F64) :
    (NewErrorPointsSpaced fuel f pointSet totalNumberOfPointSets howManyPoints howManyErrorBars
      minX maxX g minRange maxRange).outcome ≠ .panic .indexOutOfRange := by
  by_cases hn : howManyPoints < 2
  · simp [NewErrorPointsSpaced, hn]
  by_cases hE : howManyErrorBars < 0
  · simp [NewErrorPointsSpaced, hn, hE]
  rw [spaced_uses_offset fuel f _ _ _ _ _ _ g _ _ (not_lt.1 hn) (not_lt.1 hE)]
  intro h
  rcases bind_outcome_panic _ _ _ h with h1 | ⟨a, h1⟩
  · exact spacedLineLoop_no_panic f g _ _ _ _ _ _ _ _ _ h1
  · rcases bind_outcome_panic _ _ _ h1 with h2 | ⟨b, h2⟩
    · exact spacedErrorLoop_no_panic f g _ _ _ _ _ _ _ _ _ _ (by simp [makeSlice])
        (by simp [makeSlice]) h2
    · cases h2

theorem genPositions_append (l1 l2 : List Call) :
    genPositions (l1 ++ l2) = genPositions l1 ++ genPositions l2 := by
  induction l1 with
  | nil => rfl
  | cons c l ih => cases c <;> simp [genPositions, ih]

theorem genPositions_flatMap (g : F64 → List F64) (x : Nat → F64) (ms : List Nat) :
    genPositions (ms.flatMap (fun m => callsAt g (x m))) = ms.map x := by
  induction ms with
  | nil => rfl
  | cons m ms ih =>
    rw [List.flatMap_cons, genPositions_append, ih]
    simp [callsAt, genPositions]

/-- C18. In a call of `NewErrorPointsSpaced` that returns without error, every
point `(x, y)` of the line has `y` equal to the central estimate of
`f(generator(x))`; every error bar sits at an offset position `x' = base + xOffset`
and its `(y, low, high)` is the triple `f(generator(x'))`; and the positions at
which the generator was called are exactly the positions of the line followed
by those of the error bars. -/
theorem spaced_values (fuel : Nat) (f : List F64 → F64 × F64 × F64)
    (pointSet totalNumberOfPointSets howManyPoints howManyErrorBars : Int)
    (minX maxX : F64) (g : F64 → List F64) (minRange maxRange : F64)
    (pts : List XY) (bars : ErrorPoints)
    (h : (NewErrorPointsSpaced fuel f pointSet totalNumberOfPointSets howManyPoints
      howManyErrorBars minX maxX g minRange maxRange).outcome = .ok (pts, bars)) :
    (∀ p ∈ pts, p.Y = (f (g p.X)).1) ∧
    (∀ (k : Nat) (xy : XY), bars.XYs[k]? = some xy →
      (∃ base, xy.X = base + errorBarOffset (errorBarSpacing minX maxX howManyErrorBars)
        pointSet totalNumberOfPointSets) ∧
      xy.Y = (f (g xy.X)).1 ∧
      bars.YErrors[k]? = some ⟨(f (g xy.X)).2.1, (f (g xy.X)).2.2⟩) ∧
    genPositions (NewErrorPointsSpaced fuel f pointSet totalNumberOfPointSets howManyPoints
      howManyErrorBars minX maxX g minRange maxRange).calls =
        pts.map XY.X ++ bars.XYs.map XY.X := by
  have heta := run_eta _ _ h
  obtain ⟨-, -, ms, es, -, -, -, -, -, -, hpts, hxy, -, hye, hcalls, -, -⟩ :=
    spaced_shape fuel f _ _ _ _ _ _ g _ _ _ _ _ heta
  refine ⟨?_, ?_, ?_⟩
  · intro p hp
    rw [hpts] at hp
    obtain ⟨m, -, rfl⟩ := List.mem_map.1 hp
    rfl
  · intro k xy hk
    rw [hxy, List.getElem?_map] at hk
    cases hes : es[k]? with
    | none => rw [hes] at hk; cases hk
    | some m =>
      rw [hes] at hk
      simp only [Option.map_some', Option.some.injEq] at hk
      subst hk
      refine ⟨⟨_, rfl⟩, rfl, ?_⟩
      rw [hye, List.getElem?_map, hes]
      rfl
  · rw [hcalls, genPositions_append, genPositions_flatMap, genPositions_flatMap, hpts, hxy]
    simp only [List.map_map]
    rfl

/-- C18 on 3 points and 1 error bar over the range from 0 to 2: the generator
was called at 0, 1, 2 and at the offset position 1/2. -/
theorem spaced_values_witness :
    genPositions (NewErrorPointsSpaced 10 firstAgg 0 1 3 1 (F64.fin 0) (F64.fin 2) idGen
      (F64.fin 0) (F64.fin 2)).calls = sampleLine.map XY.X ++ sampleBars.XYs.map XY.X :=
  (spaced_values 10 firstAgg 0 1 3 1 (F64.fin 0) (F64.fin 2) idGen (F64.fin 0) (F64.fin 2)
    sampleLine sampleBars (by decide!)).2.2

theorem lineIncr_fin (lo hi : ℚ) (n : Int) (hn : 2 ≤ n) :
    (F64.fin hi - F64.fin lo) / (F64.ofInt n - F64.fin 1) = F64.fin ((hi - lo) / (n - 1)) := by
  have h2 : (2 : ℚ) ≤ (n : ℚ) := by exact_mod_cast hn
  simp only [F64.ofInt, f64_fin_sub]
  exact f64_fin_div _ _ (by intro h; linarith)

/-- C14, as stated, fails for a range with `min = max`: with 2 points over the
range from 0 to 0 the spacing is 0 and `NewErrorPointsSpaced` returns a line
whose two points both have `x = 0`. -/
theorem spaced_repeats_x_on_empty_range :
    F64.fin 0 ≤ F64.fin 0 ∧
    (NewErrorPointsSpaced 10 oneAgg 0 1 2 1 (F64.fin 0) (F64.fin 0) oneGen (F64.fin 0)
      (F64.fin 0)).outcome =
      .ok ([⟨F64.fin 0, F64.fin 1⟩, ⟨F64.fin 0, F64.fin 1⟩],
        ⟨[⟨F64.fin 0, F64.fin 1⟩], [⟨F64.fin 0, F64.fin 0⟩], [⟨F64.fin 1, F64.fin 1⟩]⟩) ∧
    ¬ (F64.fin 0 < F64.fin 0) := by
  decide!

/-- C14, amended. In exact arithmetic, for a range with `lo < hi`, the x-values
of the line `NewErrorPointsSpaced` returns without error are strictly
increasing: `x[i] < x[i+1]` for every pair of consecutive points. -/
theorem line_x_increasing (fuel : Nat) (f : List F64 → F64 × F64 × F64)
    (pointSet totalNumberOfPointSets howManyPoints howManyErrorBars : Int)
    (lo hi : ℚ) (hlt : lo < hi) (g : F64 → List F64) (minRange maxRange : F64)
    (pts : List XY) (bars : ErrorPoints)
    (h : (NewErrorPointsSpaced fuel f pointSet totalNumberOfPointSets howManyPoints
      howManyErrorBars (F64.fin lo) (F64.fin hi) g minRange maxRange).outcome = .ok (pts, bars)) :
    ∀ (i : Nat) (a b : XY), pts[i]? = some a → pts[i + 1]? = some b → a.X < b.X := by
  obtain ⟨hn, -, ms, es, hms, -, -, -, -, -, hpts, -⟩ :=
    spaced_shape fuel f _ _ _ _ _ _ g _ _ _ _ _ (run_eta _ _ h)
  have h2 : (2 : ℚ) ≤ (howManyPoints : ℚ) := by exact_mod_cast hn
  have hs : 0 < (hi - lo) / ((howManyPoints : ℚ) - 1) :=
    div_pos (by linarith) (by linarith)
  have hsorted : pts.Pairwise (fun a b => a.X < b.X) := by
    rw [hpts, lineIncr_fin lo hi _ hn, List.pairwise_map]
    refine hms.imp ?_
    intro m m' hmm
    simp only [linePoint, iterX_fin, f64_fin_lt_fin]
    have : (m : ℚ) < (m' : ℚ) := by exact_mod_cast hmm
    nlinarith
  intro i a b ha hb
  exact pairwise_consecutive _ _ hsorted i a b ha hb

/-- C14, amended, on 3 points over the range from 0 to 2: the first two x-values
are 0 and 1. -/
theorem line_x_increasing_witness :
    ∃ pts bars a b, (NewErrorPointsSpaced 10 firstAgg 0 1 3 1 (F64.fin 0) (F64.fin 2) idGen
        (F64.fin 0) (F64.fin 2)).outcome = .ok (pts, bars) ∧
      pts[0]? = some a ∧ pts[1]? = some b ∧ a.X < b.X :=
  ⟨sampleLine, sampleBars, ⟨F64.fin 0, F64.fin 0⟩, ⟨F64.fin 1, F64.fin 1⟩, by decide!, rfl, rfl,
    line_x_increasing 10 firstAgg 0 1 3 1 0 2 (by norm_num) idGen (F64.fin 0) (F64.fin 2)
      sampleLine sampleBars (by decide!) 0 _ _ rfl rfl⟩

/-- C11. With the central estimate `1 / ys[0]` and the generator `g(x) = [x - 0.25]`,
2 points and 1 error bar over the range from 0 to 1: the error bar sits at
`x' = 0.25`, where the central estimate is `1 / 0 = +Inf`, and
`NewErrorPointsSpaced` returns it without error. -/
theorem spaced_returns_infinite_bar_y :
    (NewErrorPointsSpaced 10 recipAgg 0 1 2 1 (F64.fin 0) (F64.fin 1) shiftGen (F64.fin 0)
      (F64.fin 1)).outcome =
      .ok ([⟨F64.fin 0, F64.fin (-4)⟩, ⟨F64.fin 1, F64.fin (4 / 3)⟩],
        ⟨[⟨F64.fin (1 / 4), F64.posInf⟩], [⟨F64.fin 0, F64.fin 0⟩],
          [⟨F64.fin 1, F64.fin 2⟩]⟩) ∧
    F64.isFinite F64.posInf = false := by
  decide!

/-- In a call of `NewErrorPointsSpaced` that returns without error, the
coordinates of the line, the x of every error bar and its y-deviations are
finite (the y of an error bar is not tested). -/
theorem spaced_checked_values_finite (fuel : Nat) (f : List F64 → F64 × F64 × F64)
    (pointSet totalNumberOfPointSets howManyPoints howManyErrorBars : Int)
    (minX maxX : F64) (g : F64 → List F64) (minRange maxRange : F64)
    (pts : List XY) (bars : ErrorPoints)
    (h : (NewErrorPointsSpaced fuel f pointSet totalNumberOfPointSets howManyPoints
      howManyErrorBars minX maxX g minRange maxRange).outcome = .ok (pts, bars)) :
    (∀ p ∈ pts, F64.isFinite p.X = true ∧ F64.isFinite p.Y = true) ∧
    (∀ xy ∈ bars.XYs, F64.isFinite xy.X = true) ∧
    (∀ d ∈ bars.YErrors, F64.isFinite d.Low = true ∧ F64.isFinite d.High = true) := by
  obtain ⟨-, -, ms, es, -, -, -, -, -, -, hpts, hxy, -, hye, -, hk1, hk2⟩ :=
    spaced_shape fuel f _ _ _ _ _ _ g _ _ _ _ _ (run_eta _ _ h)
  refine ⟨?_, ?_, ?_⟩
  · intro p hp
    rw [hpts] at hp
    obtain ⟨m, hm, rfl⟩ := List.mem_map.1 hp
    exact ⟨lineKept_finite (hk1 m hm), (checkFloats_single _).1 (hk1 m hm).2.2.2.2⟩
  · intro xy hxy'
    rw [hxy] at hxy'
    obtain ⟨m, hm, rfl⟩ := List.mem_map.1 hxy'
    exact barKept_finite (hk2 m hm)
  · intro d hd
    rw [hye] at hd
    obtain ⟨m, hm, rfl⟩ := List.mem_map.1 hd
    have := (hk2 m hm).2.2.2.2
    rw [checkFloats_pair, Bool.and_eq_true] at this
    exact this

/-! ### Termination of the two walks -/

/-- With a spacing of 0 and a start that the sub-range test skips, the first
loop of `NewErrorPointsSpaced` never leaves its first state. -/
theorem spacedLineLoop_spins (f : List F64 → F64 × F64 × F64) (g : F64 → List F64)
    (maxX minRange maxRange curX : F64) (i : Nat) (points : List XY)
    (hcond : i < points.length ∧ curX ≤ maxX + F64.fin 0)
    (hskip : curX < minRange ∨ curX > maxRange) (hstay : curX + F64.fin 0 = curX) :
    ∀ fuel, spacedLineLoop f g maxX (F64.fin 0) minRange maxRange fuel i curX points =
      ⟨[], .outOfFuel⟩ := by
  intro fuel
  induction fuel with
  | zero => rfl
  | succ fuel ih =>
    rw [spacedLineLoop_skip f g _ _ _ _ fuel i curX points hcond hskip, hstay]
    exact ih

/-- With `min = max` and that value outside the sub-range, `NewErrorPointsSpaced`
does not return, whatever the fuel. -/
theorem spaced_diverges_on_empty_range (f : List F64 → F64 × F64 × F64)
    (pointSet totalNumberOfPointSets howManyPoints howManyErrorBars : Int) (c : ℚ)
    (g : F64 → List F64) (minRange maxRange : F64) (hn : 2 ≤ howManyPoints)
    (hE : 0 ≤ howManyErrorBars) (hout : F64.fin c < minRange ∨ F64.fin c > maxRange) :
    ∀ fuel, NewErrorPointsSpaced fuel f pointSet totalNumberOfPointSets howManyPoints
      howManyErrorBars (F64.fin c) (F64.fin c) g minRange maxRange = ⟨[], .outOfFuel⟩ := by
  intro fuel
  have hincr : (F64.fin c - F64.fin c) / (F64.ofInt howManyPoints - F64.fin 1) = F64.fin 0 := by
    rw [lineIncr_fin c c _ hn]
    simp
  have hlen : 0 < (makeSlice XY.zero howManyPoints).length := by
    simp only [makeSlice, List.length_replicate]
    omega
  rw [spaced_uses_offset fuel f _ _ _ _ _ _ g _ _ hn hE, hincr,
    spacedLineLoop_spins f g _ _ _ _ 0 _ ⟨hlen, by simp [f64_fin_le_fin]⟩ hout (by simp)]
  rfl

/-- C17. With 2 points over the range from 0 to 0 (`min <= max`) and the
sub-range from 1 to 2, the spacing is 0 and every candidate x is skipped:
`NewErrorPointsSpaced` uses up any fuel without returning. -/
theorem spaced_walk_never_stops :
    F64.fin 0 ≤ F64.fin 0 ∧
    ∀ fuel, NewErrorPointsSpaced fuel oneAgg 0 1 2 1 (F64.fin 0) (F64.fin 0) oneGen (F64.fin 1)
      (F64.fin 2) = ⟨[], .outOfFuel⟩ :=
  ⟨by decide!, spaced_diverges_on_empty_range oneAgg 0 1 2 1 0 oneGen (F64.fin 1) (F64.fin 2)
    (by decide) (by decide) (Or.inl (by decide!))⟩

theorem iterX_succ_right (curX xIncr : F64) (m : Nat) :
    iterX curX xIncr (m + 1) = iterX curX xIncr m + xIncr := by
  induction m generalizing curX with
  | zero => rfl
  | succ m ih => rw [iterX_succ, ih, ← iterX_succ]

/-- The first loop returns within `K - m` turns when the walk is beyond the
bound `maxX + xIncr` from turn `K` on. -/
theorem spacedLineLoop_terminates (f : List F64 → F64 × F64 × F64) (g : F64 → List F64)
    (maxX xIncr minRange maxRange minX : F64) (K : Nat)
    (hK : ∀ m, K ≤ m → ¬ (iterX minX xIncr m ≤ maxX + xIncr)) :
    ∀ (fuel m i : Nat) (points : List XY), K - m < fuel →
      (spacedLineLoop f g maxX xIncr minRange maxRange fuel i (iterX minX xIncr m)
        points).outcome ≠ .outOfFuel := by
  intro fuel
  induction fuel with
  | zero => intro m i points h; omega
  | succ fuel ih =>
    intro m i points hfuel
    by_cases hcond : i < points.length ∧ iterX minX xIncr m ≤ maxX + xIncr
    · have hm : m < K := by
        by_contra hcon
        exact hK m (Nat.le_of_not_lt hcon) hcond.2
      by_cases hskip : iterX minX xIncr m < minRange ∨ iterX minX xIncr m > maxRange
      · rw [spacedLineLoop_skip f g _ _ _ _ fuel i _ points hcond hskip, ← iterX_succ_right]
        exact ih (m + 1) i points (by omega)
      · by_cases hchk : CheckFloats [iterX minX xIncr m] = true ∧
            CheckFloats (g (iterX minX xIncr m)) = true ∧
            CheckFloats [(f (g (iterX minX xIncr m))).1] = true
        · rw [spacedLineLoop_keep f g _ _ _ _ fuel i _ points hcond hskip hchk.1 hchk.2.1
            hchk.2.2, ← iterX_succ_right]
          exact ih (m + 1) (i + 1) _ (by omega)
        · rw [spacedLineLoop_abort f g _ _ _ _ fuel i _ points hcond hskip hchk]
          simp
    · rw [spacedLineLoop_exit f g _ _ _ _ fuel i _ points hcond]
      simp

/-- The second loop returns within `K - m` turns when the walk is beyond the
bound `maxX + xIncr` from turn `K` on. -/
theorem spacedErrorLoop_terminates (f : List F64 → F64 × F64 × F64) (g : F64 → List F64)
    (maxX xIncr xOffset minRange maxRange minX : F64) (K : Nat)
    (hK : ∀ m, K ≤ m → ¬ (iterX minX xIncr m ≤ maxX + xIncr)) :
    ∀ (fuel m i : Nat) (bars : ErrorPoints),
      bars.XErrors.length = bars.XYs.length → bars.YErrors.length = bars.XYs.length →
      K - m < fuel →
      (spacedErrorLoop f g maxX xIncr xOffset minRange maxRange fuel i (iterX minX xIncr m)
        bars).outcome ≠ .outOfFuel := by
  intro fuel
  induction fuel with
  | zero => intro m i bars _ _ h; omega
  | succ fuel ih =>
    intro m i bars hlx hly hfuel
    by_cases hcond : i < bars.XYs.length ∧ iterX minX xIncr m ≤ maxX + xIncr
    · have hm : m < K := by
        by_contra hcon
        exact hK m (Nat.le_of_not_lt hcon) hcond.2
      by_cases hskip : iterX minX xIncr m < minRange ∨ iterX minX xIncr m > maxRange ∨
          iterX minX xIncr m + xOffset < minRange ∨ iterX minX xIncr m + xOffset > maxRange
      · rw [spacedErrorLoop_skip f g _ _ _ _ _ fuel i _ bars hcond hskip, ← iterX_succ_right]
        exact ih (m + 1) i bars hlx hly (by omega)
      · have hix : i < bars.XErrors.length := by omega
        have hiy : i < bars.YErrors.length := by omega
        by_cases hchk : CheckFloats [iterX minX xIncr m + xOffset] = true ∧
            CheckFloats (g (iterX minX xIncr m + xOffset)) = true ∧
            CheckFloats [(f (g (iterX minX xIncr m + xOffset))).2.1,
              (f (g (iterX minX xIncr m + xOffset))).2.2] = true
        · rw [spacedErrorLoop_keep f g _ _ _ _ _ fuel i _ bars hcond hskip hix hiy hchk.1
            hchk.2.1 hchk.2.2, ← iterX_succ_right]
          exact ih (m + 1) (i + 1) _ (by simp [hlx]) (by simp [hly]) (by omega)
        · rw [spacedErrorLoop_abort f g _ _ _ _ _ fuel i _ bars hcond hskip hix hiy hchk]
          simp
    · rw [spacedErrorLoop_exit f g _ _ _ _ _ fuel i _ bars hcond]
      simp

theorem bind_outcome_outOfFuel {α β : Type} (r : Run α) (k : α → Run β)
    (h : (r.bind k).outcome = .outOfFuel) :
    r.outcome = .outOfFuel ∨ ∃ a, (k a).outcome = .outOfFuel := by
  obtain ⟨c, o⟩ := r
  cases o with
  | ok a => exact Or.inr ⟨a, by simpa [Run.bind, Run.after] using h⟩
  | error => simp [Run.bind] at h
  | panic q => simp [Run.bind] at h
  | outOfFuel => exact Or.inl rfl

/-- The walk with spacing `(hi - lo) / k`, `lo < hi`, is beyond `hi` plus one
spacing from turn `k + 2` on. -/
theorem walk_bound (lo hi : ℚ) (hlt : lo < hi) (k : ℚ) (hk : 0 < k) (K : Nat)
    (hKk : k + 1 < K) :
    ∀ m, K ≤ m → ¬ (iterX (F64.fin lo) (F64.fin ((hi - lo) / k)) m ≤
      F64.fin hi + F64.fin ((hi - lo) / k)) := by
  intro m hm
  rw [iterX_fin, f64_fin_add, f64_fin_le_fin]
  have hmq : (K : ℚ) ≤ (m : ℚ) := by exact_mod_cast hm
  have hs : 0 < (hi - lo) / k := div_pos (by linarith) hk
  have htop : k * ((hi - lo) / k) = hi - lo := by field_simp
  intro hle
  have h1 : (m : ℚ) * ((hi - lo) / k) ≤ (k + 1) * ((hi - lo) / k) := by
    have : (k + 1) * ((hi - lo) / k) = (hi - lo) + (hi - lo) / k := by rw [add_mul, htop, one_mul]
    linarith
  have h2 : (m : ℚ) ≤ k + 1 := le_of_mul_le_mul_right h1 hs
  linarith

/-- For a range with `lo < hi`, `NewErrorPointsSpaced` terminates, whatever the
sub-range and the supplied functions: fuel for `howManyPoints + 1` turns of the
first loop and `howManyErrorBars + 2` turns of the second, and the test that
ends each, is enough. -/
theorem spaced_terminates (fuel : Nat) (f : List F64 → F64 × F64 × F64)
    (pointSet totalNumberOfPointSets howManyPoints howManyErrorBars : Int)
    (lo hi : ℚ) (hlt : lo < hi) (g : F64 → List F64) (minRange maxRange : F64)
    (hfuel1 : howManyPoints.toNat + 1 < fuel) (hfuel2 : howManyErrorBars.toNat + 2 < fuel) :
    (NewErrorPointsSpaced fuel f pointSet totalNumberOfPointSets howManyPoints
      howManyErrorBars (F64.fin lo) (F64.fin hi) g minRange maxRange).outcome ≠ .outOfFuel := by
  by_cases hn : howManyPoints < 2
  · simp [NewErrorPointsSpaced, hn]
  by_cases hE : howManyErrorBars < 0
  · simp [NewErrorPointsSpaced, hn, hE]
  have hn' : 2 ≤ howManyPoints := not_lt.1 hn
  have hE' : 0 ≤ howManyErrorBars := not_lt.1 hE
  rw [spaced_uses_offset fuel f _ _ _ _ _ _ g _ _ hn' hE']
  intro h
  rcases bind_outcome_outOfFuel _ _ h with h1 | ⟨a, h1⟩
  · revert h1
    rw [lineIncr_fin lo hi _ hn']
    have h2 : (2 : ℚ) ≤ (howManyPoints : ℚ) := by exact_mod_cast hn'
    have hcast : ((howManyPoints.toNat : Nat) : ℚ) = (howManyPoints : ℚ) := by
      have : ((howManyPoints.toNat : Nat) : Int) = howManyPoints := Int.toNat_of_nonneg (by omega)
      exact_mod_cast this
    exact spacedLineLoop_terminates f g _ _ _ _ (F64.fin lo) (howManyPoints.toNat + 1)
      (walk_bound lo hi hlt _ (by linarith) _ (by push_cast; rw [hcast]; linarith))
      fuel 0 0 _ (by omega)
  · rcases bind_outcome_outOfFuel _ _ h1 with h2 | ⟨b, h2⟩
    · revert h2
      obtain ⟨fuel', rfl⟩ : ∃ fuel', fuel = fuel' + 1 := ⟨fuel - 1, by omega⟩
      rcases eq_or_lt_of_le hE' with hE0 | hEpos
      · rw [spacedErrorLoop_exit f g _ _ _ _ _ fuel' 0 _ _ (by simp [makeSlice, ← hE0])]
        simp
      · have hq : (0 : ℚ) < (howManyErrorBars : ℚ) := by exact_mod_cast hEpos
        have hcast : ((howManyErrorBars.toNat : Nat) : ℚ) = (howManyErrorBars : ℚ) := by
          have : ((howManyErrorBars.toNat : Nat) : Int) = howManyErrorBars :=
            Int.toNat_of_nonneg hE'
          exact_mod_cast this
        rw [errorBarSpacing_fin lo hi _ (by omega)]
        exact spacedErrorLoop_terminates f g _ _ _ _ _ (F64.fin lo) (howManyErrorBars.toNat + 2)
          (walk_bound lo hi hlt _ hq _ (by push_cast; rw [hcast]; linarith))
          (fuel' + 1) 0 0 _ (by simp [makeSlice]) (by simp [makeSlice]) (by omega)
    · cases h2

/-! ### The error bars over the whole range -/

/-- The second loop of `NewErrorPointsSpaced`, with the sub-range equal to the
range from `lo` to `hi = lo + E * s`, a spacing `s > 0`, an offset `0 ≤ o < s`
and functions returning finite values: started at error bar `k` with
`curX = lo + k * s`, it fills the error bars `k`, ..., `E - 1`, the `j`-th at the
position `lo + j * s + o`. -/
theorem spacedErrorLoop_all (f : List F64 → F64 × F64 × F64) (g : F64 → List F64)
    (lo hi s o : ℚ) (E : Nat) (hs : 0 < s) (ho : 0 ≤ o) (hos : o < s) (hhi : hi = lo + E * s)
    (hg : ∀ x, CheckFloats (g x) = true)
    (hf : ∀ ys, CheckFloats [(f ys).2.1, (f ys).2.2] = true) :
    ∀ (fuel k : Nat) (bars : ErrorPoints), k ≤ E → bars.XYs.length = E →
      bars.XErrors.length = E → bars.YErrors.length = E → E - k < fuel →
      ∃ calls bars',
        spacedErrorLoop f g (F64.fin hi) (F64.fin s) (F64.fin o) (F64.fin lo) (F64.fin hi)
          fuel k (F64.fin (lo + k * s)) bars = ⟨calls, .ok (E, bars')⟩ ∧
        bars'.XYs.length = E ∧ bars'.XErrors.length = E ∧ bars'.YErrors.length = E ∧
        (∀ j, j < k → bars'.XYs[j]? = bars.XYs[j]?) ∧
        (∀ j : Nat, k ≤ j → j < E →
          bars'.XYs[j]? = some (linePoint f g (F64.fin (lo + j * s + o)))) := by
  intro fuel
  induction fuel with
  | zero => intro k bars _ _ _ _ h; omega
  | succ fuel ih =>
    intro k bars hkE h1 h2 h3 hfuel
    by_cases hk : k < E
    · have hkq : (k : ℚ) + 1 ≤ (E : ℚ) := by exact_mod_cast hk
      have hks : (k : ℚ) * s + s ≤ E * s := by nlinarith
      have hpos : (0 : ℚ) ≤ (k : ℚ) * s :=
        mul_nonneg (by exact_mod_cast Nat.zero_le k) hs.le
      have hcond : k < bars.XYs.length ∧
          F64.fin (lo + k * s) ≤ F64.fin hi + F64.fin s := by
        refine ⟨by omega, ?_⟩
        rw [f64_fin_add, f64_fin_le_fin, hhi]
        linarith
      have hskip : ¬ (F64.fin (lo + k * s) < F64.fin lo ∨ F64.fin (lo + k * s) > F64.fin hi ∨
          F64.fin (lo + k * s) + F64.fin o < F64.fin lo ∨
          F64.fin (lo + k * s) + F64.fin o > F64.fin hi) := by
        simp only [f64_fin_add, gt_iff_lt, f64_fin_lt_fin, hhi]
        push_neg
        refine ⟨?_, ?_, ?_, ?_⟩ <;> linarith
      rw [spacedErrorLoop_keep f g _ _ _ _ _ fuel k _ bars hcond hskip (by omega) (by omega)
        (by rw [f64_fin_add]; rfl) (hg _) (hf _)]
      have hnext : F64.fin (lo + k * s) + F64.fin s = F64.fin (lo + ((k + 1 : Nat) : ℚ) * s) := by
        rw [f64_fin_add]; congr 1; push_cast; ring
      rw [hnext]
      obtain ⟨calls, bars', hrun, l1, l2, l3, hbefore, hafter⟩ := ih (k + 1)
        ⟨bars.XYs.set k ⟨F64.fin (lo + k * s) + F64.fin o,
            (f (g (F64.fin (lo + k * s) + F64.fin o))).1⟩,
          bars.XErrors.set k ⟨F64.fin 0, F64.fin 0⟩,
          bars.YErrors.set k ⟨(f (g (F64.fin (lo + k * s) + F64.fin o))).2.1,
            (f (g (F64.fin (lo + k * s) + F64.fin o))).2.2⟩⟩
        hk (by simp [h1]) (by simp [h2]) (by simp [h3]) (by omega)
      refine ⟨_, bars', by rw [hrun]; rfl, l1, l2, l3, ?_, ?_⟩
      · intro j hj
        rw [hbefore j (by omega)]
        exact List.getElem?_set_ne (by omega)
      · intro j hkj hjE
        rcases Nat.eq_or_lt_of_le hkj with heq | hlt
        · subst heq
          rw [hbefore k (by omega)]
          simp only [List.getElem?_set_self (show k < bars.XYs.length by omega), f64_fin_add,
            linePoint]
        · exact hafter j hlt hjE
    · have hkE' : k = E := by omega
      subst hkE'
      rw [spacedErrorLoop_exit f g _ _ _ _ _ fuel k _ bars (by omega)]
      exact ⟨[], bars, rfl, h1, h2, h3, fun j _ => rfl, fun j hj1 hj2 => by omega⟩

/-- C20, as stated, fails for a point count below 2: over the range from 0 to
1, with 1 error bar, series 0 of 1 and functions returning only the value 1, a
call with 1 point panics and returns no error bar. -/
theorem spaced_no_bars_without_points :
    F64.fin 0 < F64.fin 1 ∧ (∀ x, CheckFloats (oneGen x) = true) ∧
    (∀ ys, CheckFloats [(oneAgg ys).1, (oneAgg ys).2.1, (oneAgg ys).2.2] = true) ∧
    NewErrorPointsSpaced 10 oneAgg 0 1 1 1 (F64.fin 0) (F64.fin 1) oneGen (F64.fin 0)
      (F64.fin 1) = ⟨[], .panic .tooFewPoints⟩ :=
  ⟨by decide!, fun _ => rfl, fun _ => rfl, by decide!⟩

/-- C20, amended. For a point count `n ≥ 2`, a range `lo < hi`, an error-bar
count `E ≥ 1`, a series index `0 ≤ i < total`, the sub-range equal to the range
and functions returning only finite values, `NewErrorPointsSpaced` (given
enough fuel) returns exactly `E` error bars, the `k`-th at
`x = lo + k*s + s/4 + i*s/(2*total)` with `s = (hi - lo)/E`; this position lies
in its slot, from `lo + k*s + s/4` (included) to `lo + k*s + 3s/4` (excluded),
and strictly below `hi`. -/
theorem spaced_error_bar_positions (fuel : Nat) (f : List F64 → F64 × F64 × F64)
    (g : F64 → List F64) (i total n E : Int) (lo hi : ℚ)
    (hn : 2 ≤ n) (hlt : lo < hi) (hE : 1 ≤ E) (hi0 : 0 ≤ i) (hit : i < total)
    (hg : ∀ x, ∀ y ∈ g x, F64.isFinite y = true)
    (hf : ∀ ys, F64.isFinite (f ys).1 = true ∧ F64.isFinite (f ys).2.1 = true ∧
      F64.isFinite (f ys).2.2 = true)
    (hfuel : n.toNat + E.toNat + 1 < fuel) :
    ∃ pts bars,
      (NewErrorPointsSpaced fuel f i total n E (F64.fin lo) (F64.fin hi) g (F64.fin lo)
        (F64.fin hi)).outcome = .ok (pts, bars) ∧
      bars.XYs.length = E.toNat ∧ bars.XErrors.length = E.toNat ∧
      bars.YErrors.length = E.toNat ∧
      ∀ k : Nat, k < E.toNat →
        (∃ y, bars.XYs[k]? = some ⟨F64.fin (lo + k * ((hi - lo) / E) + (hi - lo) / E / 4 +
          i * ((hi - lo) / E) / (2 * total)), y⟩) ∧
        lo + k * ((hi - lo) / E) + (hi - lo) / E / 4 ≤
          lo + k * ((hi - lo) / E) + (hi - lo) / E / 4 + i * ((hi - lo) / E) / (2 * total) ∧
        lo + k * ((hi - lo) / E) + (hi - lo) / E / 4 + i * ((hi - lo) / E) / (2 * total) <
          lo + k * ((hi - lo) / E) + 3 * ((hi - lo) / E) / 4 ∧
        lo + k * ((hi - lo) / E) + (hi - lo) / E / 4 + i * ((hi - lo) / E) / (2 * total) < hi := by
  have hg' : ∀ x, CheckFloats (g x) = true := fun x => by
    simp only [CheckFloats, List.all_eq_true]; exact hg x
  have hf1 : ∀ ys, CheckFloats [(f ys).1] = true := fun ys => by
    simp [CheckFloats, (hf ys).1]
  have hf2 : ∀ ys, CheckFloats [(f ys).2.1, (f ys).2.2] = true := fun ys => by
    simp [CheckFloats, (hf ys).2.1, (hf ys).2.2]
  obtain ⟨N, rfl⟩ : ∃ N : Nat, n = (N : Int) := ⟨n.toNat, (Int.toNat_of_nonneg (by omega)).symm⟩
  obtain ⟨M, rfl⟩ : ∃ M : Nat, E = (M : Int) := ⟨E.toNat, (Int.toNat_of_nonneg (by omega)).symm⟩
  have hN : 2 ≤ N := by exact_mod_cast hn
  have hM : 1 ≤ M := by exact_mod_cast hE
  simp only [Int.toNat_ofNat, Int.cast_natCast] at hfuel ⊢
  have hMq : (0 : ℚ) < (M : ℚ) := by exact_mod_cast hM
  have htpos : (0 : ℚ) < (total : ℚ) := by exact_mod_cast (show (0 : Int) < total by omega)
  have hiq : (0 : ℚ) ≤ (i : ℚ) := by exact_mod_cast hi0
  have hitq : (i : ℚ) < (total : ℚ) := by exact_mod_cast hit
  have hs : 0 < (hi - lo) / M := div_pos (by linarith) hMq
  -- the offset lies in the second and third quarter of the spacing
  have hfrac : (i : ℚ) / total < 1 := (div_lt_one htpos).2 hitq
  have hfrac0 : (0 : ℚ) ≤ (i : ℚ) / total := div_nonneg hiq htpos.le
  have hoff : (i : ℚ) * ((hi - lo) / M / 2) / total = (i / total) * ((hi - lo) / M / 2) := by
    ring
  have hterm : 0 ≤ (i : ℚ) * ((hi - lo) / M / 2) / total := by
    rw [hoff]
    exact mul_nonneg hfrac0 (show (0 : ℚ) ≤ (hi - lo) / M / 2 by linarith)
  have ho0 : 0 ≤ (hi - lo) / M / 4 + i * ((hi - lo) / M / 2) / total := by
    linarith
  have ho1 : (hi - lo) / M / 4 + i * ((hi - lo) / M / 2) / total < 3 * ((hi - lo) / M) / 4 := by
    rw [hoff]
    have : (i : ℚ) / total * ((hi - lo) / M / 2) < 1 * ((hi - lo) / M / 2) :=
      mul_lt_mul_of_pos_right hfrac (by linarith)
    linarith
  have hform : ∀ k : ℚ, lo + k * ((hi - lo) / M) + (hi - lo) / M / 4 +
      i * ((hi - lo) / M) / (2 * total) =
      lo + k * ((hi - lo) / M) + ((hi - lo) / M / 4 + i * ((hi - lo) / M / 2) / total) := by
    intro k
    ring
  -- the line
  obtain ⟨c1, points, hline, -, -, -⟩ :=
    spacedLineLoop_even f g lo hi N hN hlt.le hg' hf1 fuel 0 (makeSlice XY.zero (N : Int))
      (Nat.zero_le _) (by simp [makeSlice]) (by omega)
  simp only [Nat.cast_zero, zero_mul, add_zero] at hline
  have hl := lineIncr_fin lo hi (N : Int) hn
  simp only [Int.cast_natCast] at hl
  rw [← hl] at hline
  -- the error bars
  obtain ⟨c2, bars, hbars, l1, l2, l3, -, hpos⟩ :=
    spacedErrorLoop_all f g lo hi ((hi - lo) / M)
      ((hi - lo) / M / 4 + i * ((hi - lo) / M / 2) / total) M hs ho0 (by linarith)
      (by field_simp) hg' hf2 fuel 0
      ⟨makeSlice XY.zero (M : Int), makeSlice LowHigh.zero (M : Int),
        makeSlice LowHigh.zero (M : Int)⟩
      (Nat.zero_le _) (by simp [makeSlice]) (by simp [makeSlice]) (by simp [makeSlice])
      (by omega)
  simp only [Nat.cast_zero, zero_mul, add_zero] at hbars
  have hMne : (M : Int) ≠ 0 := by omega
  have htne : total ≠ 0 := by omega
  have hsp := errorBarSpacing_fin lo hi (M : Int) hMne
  have hof := errorBarOffset_fin ((hi - lo) / ((M : Int) : ℚ)) i total htne
  simp only [Int.cast_natCast] at hsp hof
  have hbars' : spacedErrorLoop f g (F64.fin hi) ((F64.fin hi - F64.fin lo) / F64.ofInt (M : Int))
      ((F64.fin hi - F64.fin lo) / F64.ofInt (M : Int) / F64.fin 4 +
        F64.ofInt i * ((F64.fin hi - F64.fin lo) / F64.ofInt (M : Int) / F64.fin 2) /
          F64.ofInt total)
      (F64.fin lo) (F64.fin hi) fuel 0 (F64.fin lo)
      ⟨makeSlice XY.zero (M : Int), makeSlice LowHigh.zero (M : Int),
        makeSlice LowHigh.zero (M : Int)⟩ = ⟨c2, .ok (M, bars)⟩ := by
    have e1 : (F64.fin hi - F64.fin lo) / F64.ofInt (M : Int) = F64.fin ((hi - lo) / M) := hsp
    rw [e1]
    have e2 : F64.fin ((hi - lo) / M) / F64.fin 4 +
        F64.ofInt i * (F64.fin ((hi - lo) / M) / F64.fin 2) / F64.ofInt total =
        F64.fin ((hi - lo) / M / 4 + i * ((hi - lo) / M / 2) / total) := hof
    rw [e2]
    exact hbars
  refine ⟨points.take N, ⟨bars.XYs.take M, bars.XErrors.take M, bars.YErrors.take M⟩, ?_, ?_, ?_,
    ?_, ?_⟩
  · rw [spaced_of_loops fuel f i total N M (F64.fin lo) (F64.fin hi) g (F64.fin lo)
      (F64.fin hi) hn (by omega) c1 c2 N M points bars hline hbars']
  · simp [l1]
  · simp [l2]
  · simp [l3]
  · intro k hk
    have hkq : (k : ℚ) + 1 ≤ (M : ℚ) := by exact_mod_cast hk
    have htop : (M : ℚ) * ((hi - lo) / M) = hi - lo := by field_simp
    refine ⟨⟨(f (g (F64.fin (lo + k * ((hi - lo) / M) +
        ((hi - lo) / M / 4 + i * ((hi - lo) / M / 2) / total))))).1, ?_⟩, ?_, ?_, ?_⟩
    · simp only [List.take_of_length_le (le_of_eq l1)]
      rw [hpos k (Nat.zero_le _) hk, hform]
      rfl
    · rw [hform]; linarith
    · rw [hform]; linarith
    · rw [hform]
      have : (k : ℚ) * ((hi - lo) / M) + (hi - lo) / M ≤ M * ((hi - lo) / M) := by nlinarith
      linarith

/-- C20, amended, for 2 points and 2 error bars over the range from 0 to 4,
series 1 of 2: the error bars stand at 1 and 3. -/
theorem spaced_error_bar_positions_witness :
    ∃ pts bars,
      (NewErrorPointsSpaced 10 oneAgg 1 2 2 2 (F64.fin 0) (F64.fin 4) oneGen (F64.fin 0)
        (F64.fin 4)).outcome = .ok (pts, bars) ∧ bars.XYs.length = 2 ∧
      (∃ y, bars.XYs[0]? = some ⟨F64.fin 1, y⟩) ∧ (∃ y, bars.XYs[1]? = some ⟨F64.fin 3, y⟩) := by
  obtain ⟨pts, bars, hout, hlen, -, -, hpos⟩ :=
    spaced_error_bar_positions 10 oneAgg oneGen 1 2 2 2 0 4 (by decide) (by norm_num)
      (by decide) (by decide) (by decide)
      (fun _ y hy => by simp only [oneGen, List.mem_singleton] at hy; rw [hy]; rfl)
      (fun _ => ⟨rfl, rfl, rfl⟩) (by decide)
  obtain ⟨y0, h0⟩ := (hpos 0 (by decide)).1
  obtain ⟨y1, h1⟩ := (hpos 1 (by decide)).1
  norm_num at h0 h1
  exact ⟨pts, bars, hout, hlen, ⟨y0, h0⟩, ⟨y1, h1⟩⟩

/-! ### The stagger of the error bars in what the functions return -/

/-- An offset position that is finite: the start of the walk and the spacing
are finite, and so are the base position and the offset of every series. -/
theorem stagger_positions (minX s : F64) (N i : Int) (hN : 1 ≤ N) (m : Nat)
    (hfin : F64.isFinite (iterX minX s m + errorBarOffset s i N) = true) :
    ∃ c σ : ℚ, minX = F64.fin c ∧ s = F64.fin σ ∧
      ∀ k : Int, iterX minX s m + errorBarOffset s k N =
        F64.fin (c + m * σ + (σ / 4 + k * (σ / 2) / N)) := by
  have hN0 : N ≠ 0 := by omega
  have hbase : F64.isFinite (iterX minX s m) = true := by
    cases hb : F64.isFinite (iterX minX s m) with
    | true => rfl
    | false => rw [add_not_finite_left _ _ hb] at hfin; cases hfin
  have hoff : F64.isFinite (errorBarOffset s i N) = true := by
    cases hb : F64.isFinite (errorBarOffset s i N) with
    | true => rfl
    | false => rw [add_not_finite_right _ _ hb] at hfin; cases hfin
  have hquarter : F64.isFinite (s / F64.fin 4) = true := by
    cases hb : F64.isFinite (s / F64.fin 4) with
    | true => rfl
    | false =>
      have : F64.isFinite (errorBarOffset s i N) = false := add_not_finite_left _ _ hb
      rw [this] at hoff
      cases hoff
  obtain ⟨σ, rfl, -⟩ := div_fin_finite _ _ hquarter
  have hstart : F64.isFinite minX = true := by
    cases hb : F64.isFinite minX with
    | true => rfl
    | false => rw [iterX_not_finite_of_start _ _ hb] at hbase; cases hbase
  obtain ⟨c, rfl⟩ := (isFinite_iff _).1 hstart
  refine ⟨c, σ, rfl, rfl, ?_⟩
  intro k
  rw [iterX_fin, errorBarOffset_fin _ k N hN0, f64_fin_add]

/-- Error bars that sit at finite offset positions of the two series are
staggered. -/
theorem staggered_of_positions (minX maxX : F64) (E N i j : Int) (hN : 1 ≤ N) (hij : i < j)
    (barsI barsJ : ErrorPoints)
    (hI : ∀ a ∈ barsI.XYs, F64.isFinite a.X = true ∧ ∃ m : Nat, a.X =
      iterX minX (errorBarSpacing minX maxX E) m +
        errorBarOffset (errorBarSpacing minX maxX E) i N)
    (hJ : ∀ b ∈ barsJ.XYs, F64.isFinite b.X = true ∧ ∃ m : Nat, b.X =
      iterX minX (errorBarSpacing minX maxX E) m +
        errorBarOffset (errorBarSpacing minX maxX E) j N) :
    Staggered minX maxX E N i j barsI barsJ := by
  refine ⟨fun a ha => (hI a ha).2, fun b hb => (hJ b hb).2, ?_⟩
  intro m a ha b hb hax hbx
  have hfin : F64.isFinite (iterX minX (errorBarSpacing minX maxX E) m +
      errorBarOffset (errorBarSpacing minX maxX E) i N) = true := by
    rw [← hax]; exact (hI a ha).1
  obtain ⟨c, σ, -, hs, hpos⟩ := stagger_positions minX _ N i hN m hfin
  have hq : (N : ℚ) ≠ 0 := by
    have : (N : ℚ) ≥ 1 := by exact_mod_cast hN
    intro h; rw [h] at this; norm_num at this
  have hNpos : (0 : ℚ) < (N : ℚ) := by exact_mod_cast (show (0 : Int) < N by omega)
  have hijq : (i : ℚ) < (j : ℚ) := by exact_mod_cast hij
  have hdiff : b.X - a.X = F64.fin ((j - i) * σ / (2 * N)) := by
    rw [hax, hbx, hpos i, hpos j, f64_fin_sub]
    congr 1
    field_simp
    ring
  refine ⟨σ, hs, hdiff, ?_, ?_⟩
  · intro hi hj hN2
    rw [hdiff, hs, f64_fin_div _ _ (by norm_num), hi, hj, hN2]
    congr 1
    push_cast
    ring
  · intro hσ heq
    rw [hax, hbx, hpos i, hpos j] at heq
    have h := F64.fin.inj heq
    have h2 : (i : ℚ) * (σ / 2) / N = j * (σ / 2) / N := by linarith
    rw [div_left_inj' hq] at h2
    have h3 : (0 : ℚ) < σ / 2 := by linarith
    have := mul_right_cancel₀ (ne_of_gt h3) h2
    linarith

/-- The error bars of a pass of the two loops sit at finite offset positions. -/
theorem shape_bars_positions (f : List F64 → F64 × F64 × F64) (g : F64 → List F64)
    (minX maxX lineIncr errIncr xOffset minRange maxRange : F64) (n E : Int)
    (pts : List XY) (bars : ErrorPoints) (calls : List Call)
    (hshape : SpacedShape f g minX maxX lineIncr errIncr xOffset minRange maxRange n E pts bars
      calls) :
    ∀ a ∈ bars.XYs, F64.isFinite a.X = true ∧ ∃ m : Nat, a.X = iterX minX errIncr m + xOffset := by
  obtain ⟨ms, es, -, -, -, -, -, -, -, hxy, -, -, -, -, hk2⟩ := hshape
  intro a ha
  rw [hxy] at ha
  obtain ⟨m, hm, rfl⟩ := List.mem_map.1 ha
  exact ⟨barKept_finite (hk2 m hm), m, rfl⟩

/-- A property of the entry of index `k` that the turn of index `k` establishes
holds for the entry of index `k` that `NewErrorPointsXSpaced` returns. -/
theorem xSpacedLoop_indexed (fuel : Nat) (f : List F64 → F64 × F64 × F64)
    (howManyPoints howManyErrorBars : Int) (dataMin dataMax : F64) (numGenerators : Nat)
    (hn : 0 ≤ howManyPoints) (P : Nat → PointsAndErrorPoints → Prop)
    (hturn : ∀ (idx : Nat) (pg : PointGenerator) (xIncr : F64) (entry : PointsAndErrorPoints)
      (calls : List Call),
      SpacedShape f pg.generator dataMin dataMax xIncr
        (errorBarSpacing dataMin dataMax howManyErrorBars)
        (errorBarOffset (errorBarSpacing dataMin dataMax howManyErrorBars) idx numGenerators)
        pg.pointRange.min pg.pointRange.max howManyPoints howManyErrorBars entry.points
        entry.errorPoints calls → P idx entry) :
    ∀ (gens : List PointGenerator) (idx : Nat) (xIncr : F64) (acc : List PointsAndErrorPoints)
      (calls : List Call) (res : List PointsAndErrorPoints),
      idx = acc.length → (∀ (k : Nat) (e : PointsAndErrorPoints), acc[k]? = some e → P k e) →
      xSpacedLoop fuel f howManyPoints howManyErrorBars dataMin dataMax numGenerators gens idx
        xIncr acc = ⟨calls, .ok res⟩ →
      ∀ (k : Nat) (e : PointsAndErrorPoints), res[k]? = some e → P k e := by
  intro gens
  induction gens with
  | nil =>
    intro idx xIncr acc calls res _ hacc h
    simp only [xSpacedLoop, Run.mk.injEq, Outcome.ok.injEq] at h
    obtain ⟨-, rfl⟩ := h
    exact hacc
  | cons pg rest ih =>
    intro idx xIncr acc calls res hidx hacc h
    rw [xSpacedLoop] at h
    generalize ht : xSpacedTurn fuel f howManyPoints howManyErrorBars dataMin dataMax
      numGenerators idx pg xIncr = t at h
    obtain ⟨c1, o1⟩ := t
    cases o1 with
    | ok a =>
      obtain ⟨entry, xIncr'⟩ := a
      simp only [Run.bind, Run.after] at h
      generalize hr : xSpacedLoop fuel f howManyPoints howManyErrorBars dataMin dataMax
        numGenerators rest (idx + 1) xIncr' (acc ++ [entry]) = r at h
      obtain ⟨c2, o2⟩ := r
      simp only [Run.mk.injEq] at h
      obtain ⟨-, ho⟩ := h
      subst ho
      obtain ⟨-, -, hshape⟩ := xSpacedTurn_shape fuel f _ _ _ _ _ _ _ _ hn _ _ _ ht
      have hacc' : ∀ (k : Nat) (e : PointsAndErrorPoints), (acc ++ [entry])[k]? = some e →
          P k e := by
        intro k e hk
        by_cases hlt : k < acc.length
        · rw [List.getElem?_append_left hlt] at hk
          exact hacc k e hk
        · have hlen : k < (acc ++ [entry]).length := (List.getElem?_eq_some_iff.1 hk).1
          simp only [List.length_append, List.length_singleton] at hlen
          have hk' : k = acc.length := by omega
          subst hk'
          rw [List.getElem?_append_right (le_refl _)] at hk
          simp only [Nat.sub_self, List.getElem?_cons_zero, Option.some.injEq] at hk
          subst hk
          rw [← hidx]
          exact hturn idx pg xIncr entry c1 hshape
      exact ih (idx + 1) xIncr' (acc ++ [entry]) c2 res (by simp [hidx]) hacc' hr
    | error => simp [Run.bind] at h
    | panic p => simp [Run.bind] at h
    | outOfFuel => simp [Run.bind] at h

theorem xSpaced_indexed (fuel : Nat) (f : List F64 → F64 × F64 × F64)
    (howManyPoints howManyErrorBars : Int) (dataRange : Float64Range)
    (pointsGenerators : List PointGenerator) (P : Nat → PointsAndErrorPoints → Prop)
    (hturn : ∀ (idx : Nat) (pg : PointGenerator) (xIncr : F64) (entry : PointsAndErrorPoints)
      (calls : List Call),
      SpacedShape f pg.generator dataRange.min dataRange.max xIncr
        (errorBarSpacing dataRange.min dataRange.max howManyErrorBars)
        (errorBarOffset (errorBarSpacing dataRange.min dataRange.max howManyErrorBars) idx
          pointsGenerators.length)
        pg.pointRange.min pg.pointRange.max howManyPoints howManyErrorBars entry.points
        entry.errorPoints calls → P idx entry)
    (calls : List Call) (res : List PointsAndErrorPoints)
    (h : NewErrorPointsXSpaced fuel f howManyPoints howManyErrorBars dataRange pointsGenerators
      = ⟨calls, .ok res⟩) :
    ∀ (k : Nat) (e : PointsAndErrorPoints), res[k]? = some e → P k e := by
  by_cases hn : howManyPoints < 2
  · simp [NewErrorPointsXSpaced, hn] at h
  simp only [NewErrorPointsXSpaced, if_neg hn] at h
  exact xSpacedLoop_indexed fuel f howManyPoints howManyErrorBars dataRange.min dataRange.max
    pointsGenerators.length (by omega) P hturn pointsGenerators 0 _ [] calls res rfl
    (by intro k e hk; simp at hk) h

/-- C12, amended. In exact arithmetic, for `N ≥ 1` series and two series
`i < j`: the error bars that two calls of `NewErrorPointsSpaced` differing only
in the series return without error, and the error bars of the entries `i` and
`j` that a call of `NewErrorPointsXSpaced` with `N` descriptors returns without
error, are staggered. Every error bar sits at a base position of the walk plus
the offset `s/4 + k*(s/2)/N` of its series `k`, where `s` is the spacing of the
error bars; two error bars of the same base position differ by exactly
`(j - i)*s/(2N)`, by `s/4` for the series 0 and 1 of 2, and are at different
positions when `s > 0`. -/
theorem error_bar_stagger (fuel : Nat) (f : List F64 → F64 × F64 × F64)
    (N i j howManyPoints howManyErrorBars : Int) (hN : 1 ≤ N) (hij : i < j)
    (minX maxX : F64) (g : F64 → List F64) (minRange maxRange : F64)
    (dataRange : Float64Range) (pointsGenerators : List PointGenerator) :
    (∀ ptsI barsI ptsJ barsJ,
      (NewErrorPointsSpaced fuel f i N howManyPoints howManyErrorBars minX maxX g minRange
        maxRange).outcome = .ok (ptsI, barsI) →
      (NewErrorPointsSpaced fuel f j N howManyPoints howManyErrorBars minX maxX g minRange
        maxRange).outcome = .ok (ptsJ, barsJ) →
      Staggered minX maxX howManyErrorBars N i j barsI barsJ) ∧
    (∀ res (k l : Nat) (eK eL : PointsAndErrorPoints),
      (NewErrorPointsXSpaced fuel f howManyPoints howManyErrorBars dataRange
        pointsGenerators).outcome = .ok res →
      k < l → res[k]? = some eK → res[l]? = some eL →
      Staggered dataRange.min dataRange.max howManyErrorBars pointsGenerators.length k l
        eK.errorPoints eL.errorPoints) := by
  constructor
  · intro ptsI barsI ptsJ barsJ hI hJ
    obtain ⟨-, -, hshapeI⟩ := spaced_shape fuel f _ _ _ _ _ _ g _ _ _ _ _ (run_eta _ _ hI)
    obtain ⟨-, -, hshapeJ⟩ := spaced_shape fuel f _ _ _ _ _ _ g _ _ _ _ _ (run_eta _ _ hJ)
    exact staggered_of_positions minX maxX howManyErrorBars N i j hN hij barsI barsJ
      (shape_bars_positions f g _ _ _ _ _ _ _ _ _ _ _ _ hshapeI)
      (shape_bars_positions f g _ _ _ _ _ _ _ _ _ _ _ _ hshapeJ)
  · intro res k l eK eL h hkl hK hL
    have hidx := xSpaced_indexed fuel f howManyPoints howManyErrorBars dataRange pointsGenerators
      (fun idx e => ∀ a ∈ e.errorPoints.XYs, F64.isFinite a.X = true ∧ ∃ m : Nat, a.X =
        iterX dataRange.min (errorBarSpacing dataRange.min dataRange.max howManyErrorBars) m +
          errorBarOffset (errorBarSpacing dataRange.min dataRange.max howManyErrorBars) idx
            pointsGenerators.length)
      (fun idx pg xIncr entry calls hshape =>
        shape_bars_positions f _ _ _ _ _ _ _ _ _ _ _ _ _ hshape)
      _ res (run_eta _ _ h)
    have hlen : l < pointsGenerators.length := by
      have := (xSpaced_forall fuel f howManyPoints howManyErrorBars dataRange pointsGenerators
        (fun _ => True) (fun _ _ _ _ _ _ _ => trivial) _ res (run_eta _ _ h)).2
      have hl := (List.getElem?_eq_some_iff.1 hL).1
      omega
    exact staggered_of_positions dataRange.min dataRange.max howManyErrorBars
      pointsGenerators.length k l (by exact_mod_cast (show 1 ≤ pointsGenerators.length by omega))
      (by exact_mod_cast hkl) eK.errorPoints eL.errorPoints (hidx k eK hK) (hidx l eL hL)

/-- C12, amended, for the series 0 and 1 of 2 with 1 error bar over the range
from 0 to 2 (spacing 2): the error bars sit at 1/2 and 1, a quarter of the
spacing apart. -/
theorem error_bar_stagger_witness :
    (NewErrorPointsSpaced 10 firstAgg 0 2 3 1 (F64.fin 0) (F64.fin 2) idGen (F64.fin 0)
      (F64.fin 2)).outcome = .ok (sampleLine, sampleBars) ∧
    (NewErrorPointsSpaced 10 firstAgg 1 2 3 1 (F64.fin 0) (F64.fin 2) idGen (F64.fin 0)
      (F64.fin 2)).outcome = .ok (sampleLine, sampleBarsSecond) ∧
    Staggered (F64.fin 0) (F64.fin 2) 1 2 0 1 sampleBars sampleBarsSecond ∧
    F64.fin 1 - F64.fin (1 / 2) = errorBarSpacing (F64.fin 0) (F64.fin 2) 1 / F64.fin 4 :=
  have h := (error_bar_stagger 10 firstAgg 2 0 1 3 1 (by decide) (by decide) (F64.fin 0)
    (F64.fin 2) idGen (F64.fin 0) (F64.fin 2) ⟨F64.fin 0, F64.fin 2⟩ twoGenerators).1
    sampleLine sampleBars sampleLine sampleBarsSecond (by decide!) (by decide!)
  ⟨by decide!, by decide!, h, by
    obtain ⟨s, -, -, hq, -⟩ := h.2.2 0 ⟨F64.fin (1 / 2), F64.fin (1 / 2)⟩ (by decide!)
      ⟨F64.fin 1, F64.fin 1⟩ (by decide!) (by decide!) (by decide!)
    exact hq rfl rfl rfl⟩

/-! ### The two loops in rounded arithmetic -/

theorem spacedLineLoopRounded_exit (rnd : F64 → F64) (f : List F64 → F64 × F64 × F64) (g : F64 → List F64)
    (maxX xIncr minRange maxRange : F64) (fuel i : Nat) (curX : F64) (points : List XY)
    (h : ¬ (i < points.length ∧ curX ≤ rnd (maxX + xIncr))) :
    spacedLineLoopRounded rnd f g maxX xIncr minRange maxRange (fuel + 1) i curX points =
      ⟨[], .ok (i, points)⟩ := by
  rw [spacedLineLoopRounded, if_neg h]

theorem spacedLineLoopRounded_skip (rnd : F64 → F64) (f : List F64 → F64 × F64 × F64) (g : F64 → List F64)
    (maxX xIncr minRange maxRange : F64) (fuel i : Nat) (curX : F64) (points : List XY)
    (h : i < points.length ∧ curX ≤ rnd (maxX + xIncr)) (hskip : curX < minRange ∨ curX > maxRange) :
    spacedLineLoopRounded rnd f g maxX xIncr minRange maxRange (fuel + 1) i curX points =
      spacedLineLoopRounded rnd f g maxX xIncr minRange maxRange fuel i (rnd (curX + xIncr)) points := by
  rw [spacedLineLoopRounded, if_pos h, if_pos hskip]

theorem spacedLineLoopRounded_keep (rnd : F64 → F64) (f : List F64 → F64 × F64 × F64) (g : F64 → List F64)
    (maxX xIncr minRange maxRange : F64) (fuel i : Nat) (curX : F64) (points : List XY)
    (h : i < points.length ∧ curX ≤ rnd (maxX + xIncr))
    (hskip : ¬ (curX < minRange ∨ curX > maxRange))
    (hx : CheckFloats [curX] = true) (hys : CheckFloats (g curX) = true)
    (hy : CheckFloats [(f (g curX)).1] = true) :
    spacedLineLoopRounded rnd f g maxX xIncr minRange maxRange (fuel + 1) i curX points =
      Run.after [.gen curX, .agg (g curX)]
        (spacedLineLoopRounded rnd f g maxX xIncr minRange maxRange fuel (i + 1) (rnd (curX + xIncr))
          (points.set i ⟨curX, (f (g curX)).1⟩)) := by
  rw [spacedLineLoopRounded, if_pos h, if_neg hskip]
  simp only [all_checkFloats, hx, hys, hy, store_lt _ _ _ h.1]
  simp

theorem spacedErrorLoopRounded_exit (rnd : F64 → F64) (f : List F64 → F64 × F64 × F64) (g : F64 → List F64)
    (maxX xIncr xOffset minRange maxRange : F64) (fuel i : Nat) (curX : F64)
    (errorBars : ErrorPoints) (h : ¬ (i < errorBars.XYs.length ∧ curX ≤ rnd (maxX + xIncr))) :
    spacedErrorLoopRounded rnd f g maxX xIncr xOffset minRange maxRange (fuel + 1) i curX errorBars =
      ⟨[], .ok (i, errorBars)⟩ := by
  rw [spacedErrorLoopRounded, if_neg h]

theorem spacedErrorLoopRounded_skip (rnd : F64 → F64) (f : List F64 → F64 × F64 × F64) (g : F64 → List F64)
    (maxX xIncr xOffset minRange maxRange : F64) (fuel i : Nat) (curX : F64)
    (errorBars : ErrorPoints) (h : i < errorBars.XYs.length ∧ curX ≤ rnd (maxX + xIncr))
    (hskip : curX < minRange ∨ curX > maxRange ∨ rnd (curX + xOffset) < minRange ∨
      rnd (curX + xOffset) > maxRange) :
    spacedErrorLoopRounded rnd f g maxX xIncr xOffset minRange maxRange (fuel + 1) i curX errorBars =
      spacedErrorLoopRounded rnd f g maxX xIncr xOffset minRange maxRange fuel i (rnd (curX + xIncr))
        errorBars := by
  rw [spacedErrorLoopRounded, if_pos h]
  simp only [if_pos hskip]

theorem spacedErrorLoopRounded_keep (rnd : F64 → F64) (f : List F64 → F64 × F64 × F64) (g : F64 → List F64)
    (maxX xIncr xOffset minRange maxRange : F64) (fuel i : Nat) (curX : F64)
    (errorBars : ErrorPoints) (h : i < errorBars.XYs.length ∧ curX ≤ rnd (maxX + xIncr))
    (hskip : ¬ (curX < minRange ∨ curX > maxRange ∨ rnd (curX + xOffset) < minRange ∨
      rnd (curX + xOffset) > maxRange))
    (hlx : i < errorBars.XErrors.length) (hly : i < errorBars.YErrors.length)
    (hx : CheckFloats [rnd (curX + xOffset)] = true) (hys : CheckFloats (g (rnd (curX + xOffset))) = true)
    (hlh : CheckFloats [(f (g (rnd (curX + xOffset)))).2.1, (f (g (rnd (curX + xOffset)))).2.2] = true) :
    spacedErrorLoopRounded rnd f g maxX xIncr xOffset minRange maxRange (fuel + 1) i curX errorBars =
      Run.after [.gen (rnd (curX + xOffset)), .agg (g (rnd (curX + xOffset)))]
        (spacedErrorLoopRounded rnd f g maxX xIncr xOffset minRange maxRange fuel (i + 1) (rnd (curX + xIncr))
          ⟨errorBars.XYs.set i ⟨rnd (curX + xOffset), (f (g (rnd (curX + xOffset)))).1⟩,
            errorBars.XErrors.set i ⟨F64.fin 0, F64.fin 0⟩,
            errorBars.YErrors.set i ⟨(f (g (rnd (curX + xOffset)))).2.1,
              (f (g (rnd (curX + xOffset)))).2.2⟩⟩) := by
  rw [spacedErrorLoopRounded, if_pos h]
  simp only [if_neg hskip, all_checkFloats, hx, hys, hlh, store_lt _ _ _ h.1,
    store_lt _ _ _ hlx, store_lt _ _ _ hly]
  simp

theorem spacedLineLoopRounded_abort (rnd : F64 → F64) (f : List F64 → F64 × F64 × F64) (g : F64 → List F64)
    (maxX xIncr minRange maxRange : F64) (fuel i : Nat) (curX : F64) (points : List XY)
    (h : i < points.length ∧ curX ≤ rnd (maxX + xIncr))
    (hskip : ¬ (curX < minRange ∨ curX > maxRange))
    (hbad : ¬ (CheckFloats [curX] = true ∧ CheckFloats (g curX) = true ∧
      CheckFloats [(f (g curX)).1] = true)) :
    (spacedLineLoopRounded rnd f g maxX xIncr minRange maxRange (fuel + 1) i curX points).outcome =
      .error := by
  rw [spacedLineLoopRounded, if_pos h, if_neg hskip]
  simp only [all_checkFloats, store_lt _ _ _ h.1]
  by_cases h1 : CheckFloats [curX] = true
  · by_cases h2 : CheckFloats (g curX) = true
    · by_cases h3 : CheckFloats [(f (g curX)).1] = true
      · exact absurd ⟨h1, h2, h3⟩ hbad
      · simp [h1, h2, h3]
    · simp [h1, h2]
  · simp [h1]

theorem spacedErrorLoopRounded_abort (rnd : F64 → F64) (f : List F64 → F64 × F64 × F64) (g : F64 → List F64)
    (maxX xIncr xOffset minRange maxRange : F64) (fuel i : Nat) (curX : F64)
    (errorBars : ErrorPoints) (h : i < errorBars.XYs.length ∧ curX ≤ rnd (maxX + xIncr))
    (hskip : ¬ (curX < minRange ∨ curX > maxRange ∨ rnd (curX + xOffset) < minRange ∨
      rnd (curX + xOffset) > maxRange))
    (hlx : i < errorBars.XErrors.length) (hly : i < errorBars.YErrors.length)
    (hbad : ¬ (CheckFloats [rnd (curX + xOffset)] = true ∧ CheckFloats (g (rnd (curX + xOffset))) = true ∧
      CheckFloats [(f (g (rnd (curX + xOffset)))).2.1, (f (g (rnd (curX + xOffset)))).2.2] = true)) :
    (spacedErrorLoopRounded rnd f g maxX xIncr xOffset minRange maxRange (fuel + 1) i curX
      errorBars).outcome = .error := by
  rw [spacedErrorLoopRounded, if_pos h]
  simp only [if_neg hskip, all_checkFloats, store_lt _ _ _ h.1, store_lt _ _ _ hlx,
    store_lt _ _ _ hly]
  by_cases h1 : CheckFloats [rnd (curX + xOffset)] = true
  · by_cases h2 : CheckFloats (g (rnd (curX + xOffset))) = true
    · by_cases h3 : CheckFloats [(f (g (rnd (curX + xOffset)))).2.1,
          (f (g (rnd (curX + xOffset)))).2.2] = true
      · exact absurd ⟨h1, h2, h3⟩ hbad
      · simp [h1, h2, h3]
    · simp [h1, h2]
  · simp [h1]

theorem spacedLineLoopRounded_no_panic (rnd : F64 → F64) (f : List F64 → F64 × F64 × F64) (g : F64 → List F64)
    (maxX xIncr minRange maxRange : F64) (p : Fault) :
    ∀ (fuel i : Nat) (curX : F64) (points : List XY),
      (spacedLineLoopRounded rnd f g maxX xIncr minRange maxRange fuel i curX points).outcome ≠ .panic p := by
  intro fuel
  induction fuel with
  | zero => intro i curX points; simp [spacedLineLoopRounded]
  | succ fuel ih =>
    intro i curX points
    by_cases hcond : i < points.length ∧ curX ≤ rnd (maxX + xIncr)
    · by_cases hskip : curX < minRange ∨ curX > maxRange
      · rw [spacedLineLoopRounded_skip rnd f g _ _ _ _ fuel i curX points hcond hskip]
        exact ih _ _ _
      · by_cases hchk : CheckFloats [curX] = true ∧ CheckFloats (g curX) = true ∧
            CheckFloats [(f (g curX)).1] = true
        · rw [spacedLineLoopRounded_keep rnd f g _ _ _ _ fuel i curX points hcond hskip hchk.1 hchk.2.1
            hchk.2.2]
          exact ih _ _ _
        · rw [spacedLineLoopRounded_abort rnd f g _ _ _ _ fuel i curX points hcond hskip hchk]
          simp
    · rw [spacedLineLoopRounded_exit rnd f g _ _ _ _ fuel i curX points hcond]
      simp

theorem spacedErrorLoopRounded_no_panic (rnd : F64 → F64) (f : List F64 → F64 × F64 × F64) (g : F64 → List F64)
    (maxX xIncr xOffset minRange maxRange : F64) (p : Fault) :
    ∀ (fuel i : Nat) (curX : F64) (bars : ErrorPoints),
      bars.XErrors.length = bars.XYs.length → bars.YErrors.length = bars.XYs.length →
      (spacedErrorLoopRounded rnd f g maxX xIncr xOffset minRange maxRange fuel i curX bars).outcome ≠
        .panic p := by
  intro fuel
  induction fuel with
  | zero => intro i curX bars _ _; simp [spacedErrorLoopRounded]
  | succ fuel ih =>
    intro i curX bars hlx hly
    by_cases hcond : i < bars.XYs.length ∧ curX ≤ rnd (maxX + xIncr)
    · by_cases hskip : curX < minRange ∨ curX > maxRange ∨ rnd (curX + xOffset) < minRange ∨
          rnd (curX + xOffset) > maxRange
      · rw [spacedErrorLoopRounded_skip rnd f g _ _ _ _ _ fuel i curX bars hcond hskip]
        exact ih _ _ _ hlx hly
      · have hix : i < bars.XErrors.length := by omega
        have hiy : i < bars.YErrors.length := by omega
        by_cases hchk : CheckFloats [rnd (curX + xOffset)] = true ∧
            CheckFloats (g (rnd (curX + xOffset))) = true ∧
            CheckFloats [(f (g (rnd (curX + xOffset)))).2.1, (f (g (rnd (curX + xOffset)))).2.2] = true
        · rw [spacedErrorLoopRounded_keep rnd f g _ _ _ _ _ fuel i curX bars hcond hskip hix hiy hchk.1
            hchk.2.1 hchk.2.2]
          exact ih _ _ _ (by simp [hlx]) (by simp [hly])
        · rw [spacedErrorLoopRounded_abort rnd f g _ _ _ _ _ fuel i curX bars hcond hskip hix hiy hchk]
          simp
    · rw [spacedErrorLoopRounded_exit rnd f g _ _ _ _ _ fuel i curX bars hcond]
      simp

/-- What the first loop of `NewErrorPointsSpaced` returns: it has retained the
positions `curX + m * xIncr` for an increasing list `ms` of turn numbers `m`,
written their points from index `i` on, and called the supplied functions at
these positions only. -/
theorem spacedLineLoopRounded_shape (rnd : F64 → F64) (f : List F64 → F64 × F64 × F64) (g : F64 → List F64)
    (maxX xIncr minRange maxRange : F64) :
    ∀ (fuel i : Nat) (curX : F64) (points : List XY) (calls : List Call) (i' : Nat)
      (points' : List XY),
      spacedLineLoopRounded rnd f g maxX xIncr minRange maxRange fuel i curX points =
        ⟨calls, .ok (i', points')⟩ →
      ∃ ms : List Nat, ms.Pairwise (· < ·) ∧ i' = i + ms.length ∧
        (ms ≠ [] → i' ≤ points.length ∧ curX ≤ rnd (maxX + xIncr)) ∧
        points' = points.take i ++ ms.map (fun m => linePoint f g (iterXRounded rnd curX xIncr m)) ++
          points.drop i' ∧
        calls = ms.flatMap (fun m => callsAt g (iterXRounded rnd curX xIncr m)) ∧
        ∀ m ∈ ms, LineKeptRounded rnd f g maxX xIncr minRange maxRange (iterXRounded rnd curX xIncr m) := by
  intro fuel
  induction fuel with
  | zero => intro i curX points calls i' points' h; simp [spacedLineLoopRounded] at h
  | succ fuel ih =>
    intro i curX points calls i' points' h
    by_cases hcond : i < points.length ∧ curX ≤ rnd (maxX + xIncr)
    · by_cases hskip : curX < minRange ∨ curX > maxRange
      · rw [spacedLineLoopRounded_skip rnd f g _ _ _ _ fuel i curX points hcond hskip] at h
        obtain ⟨ms, hsorted, hi', hne, hpts, hcalls, hkept⟩ := ih _ _ _ _ _ _ h
        refine ⟨ms.map (· + 1), ?_, by simp [hi'], ?_, ?_, ?_, ?_⟩
        · rw [List.pairwise_map]; exact hsorted.imp (fun hab => by omega)
        · intro hms
          exact ⟨(hne (by simpa using hms)).1, hcond.2⟩
        · simp only [List.map_map, hpts]; rfl
        · rw [hcalls, List.flatMap_map]; rfl
        · intro m hm
          obtain ⟨m0, hm0, rfl⟩ := List.mem_map.1 hm
          exact hkept m0 hm0
      · by_cases hchk : CheckFloats [curX] = true ∧ CheckFloats (g curX) = true ∧
            CheckFloats [(f (g curX)).1] = true
        · rw [spacedLineLoopRounded_keep rnd f g _ _ _ _ fuel i curX points hcond hskip hchk.1 hchk.2.1
            hchk.2.2] at h
          generalize hr : spacedLineLoopRounded rnd f g maxX xIncr minRange maxRange fuel (i + 1)
            (rnd (curX + xIncr)) (points.set i ⟨curX, (f (g curX)).1⟩) = r at h
          obtain ⟨calls0, o0⟩ := r
          simp only [Run.after, Run.mk.injEq] at h
          obtain ⟨hc, ho⟩ := h
          subst ho
          obtain ⟨ms, hsorted, hi', hne, hpts, hcalls, hkept⟩ := ih _ _ _ _ _ _ hr
          have hlt : i < i' := by omega
          refine ⟨0 :: ms.map (· + 1), pairwise_lt_shift ms hsorted, by simp [hi']; omega,
            ?_, ?_, ?_, ?_⟩
          · intro _
            refine ⟨?_, hcond.2⟩
            by_cases hms : ms = []
            · subst hms; simp at hi'; omega
            · have := (hne hms).1; simpa using this
          · rw [hpts, List.drop_set_of_lt _ _ hlt, List.take_succ,
              List.getElem?_set_self hcond.1, take_set_self]
            simp only [Option.toList, List.map_cons, List.map_map, List.append_assoc,
              List.singleton_append, List.cons_append, List.nil_append]
            rfl
          · rw [← hc, hcalls, List.flatMap_cons, List.flatMap_map]; rfl
          · intro m hm
            rcases List.mem_cons.1 hm with rfl | hm
            · exact ⟨hcond.2, hskip, hchk⟩
            · obtain ⟨m0, hm0, rfl⟩ := List.mem_map.1 hm
              exact hkept m0 hm0
        · have := spacedLineLoopRounded_abort rnd f g _ _ _ _ fuel i curX points hcond hskip hchk
          rw [h] at this
          cases this
    · rw [spacedLineLoopRounded_exit rnd f g _ _ _ _ fuel i curX points hcond] at h
      simp only [Run.mk.injEq, Outcome.ok.injEq, Prod.mk.injEq] at h
      obtain ⟨rfl, rfl, rfl⟩ := h
      exact ⟨[], List.Pairwise.nil, rfl, fun h => absurd rfl h, by simp, rfl, by simp⟩

/-- What the second loop of `NewErrorPointsSpaced` returns: it has retained the
base positions `curX + m * xIncr` for an increasing list `ms` of turn numbers,
written the three entries of their error bars from index `i` on, and called the
supplied functions at the offset positions only. -/
theorem spacedErrorLoopRounded_shape (rnd : F64 → F64) (f : List F64 → F64 × F64 × F64) (g : F64 → List F64)
    (maxX xIncr xOffset minRange maxRange : F64) :
    ∀ (fuel i : Nat) (curX : F64) (bars : ErrorPoints) (calls : List Call) (i' : Nat)
      (bars' : ErrorPoints),
      bars.XErrors.length = bars.XYs.length → bars.YErrors.length = bars.XYs.length →
      spacedErrorLoopRounded rnd f g maxX xIncr xOffset minRange maxRange fuel i curX bars =
        ⟨calls, .ok (i', bars')⟩ →
      ∃ ms : List Nat, ms.Pairwise (· < ·) ∧ i' = i + ms.length ∧
        (ms ≠ [] → i' ≤ bars.XYs.length ∧ curX ≤ rnd (maxX + xIncr)) ∧
        bars'.XYs = bars.XYs.take i ++
          ms.map (fun m => linePoint f g (rnd (iterXRounded rnd curX xIncr m + xOffset))) ++ bars.XYs.drop i' ∧
        bars'.XErrors = bars.XErrors.take i ++ ms.map (fun _ => LowHigh.zero) ++
          bars.XErrors.drop i' ∧
        bars'.YErrors = bars.YErrors.take i ++
          ms.map (fun m => barDeviation f g (rnd (iterXRounded rnd curX xIncr m + xOffset))) ++
          bars.YErrors.drop i' ∧
        calls = ms.flatMap (fun m => callsAt g (rnd (iterXRounded rnd curX xIncr m + xOffset))) ∧
        ∀ m ∈ ms, BarKeptRounded rnd f g maxX xIncr xOffset minRange maxRange (iterXRounded rnd curX xIncr m) := by
  intro fuel
  induction fuel with
  | zero => intro i curX bars calls i' bars' _ _ h; simp [spacedErrorLoopRounded] at h
  | succ fuel ih =>
    intro i curX bars calls i' bars' hlx hly h
    by_cases hcond : i < bars.XYs.length ∧ curX ≤ rnd (maxX + xIncr)
    · by_cases hskip : curX < minRange ∨ curX > maxRange ∨ rnd (curX + xOffset) < minRange ∨
          rnd (curX + xOffset) > maxRange
      · rw [spacedErrorLoopRounded_skip rnd f g _ _ _ _ _ fuel i curX bars hcond hskip] at h
        obtain ⟨ms, hsorted, hi', hne, hxy, hxe, hye, hcalls, hkept⟩ := ih _ _ _ _ _ _ hlx hly h
        refine ⟨ms.map (· + 1), ?_, by simp [hi'], ?_, ?_, ?_, ?_, ?_, ?_⟩
        · rw [List.pairwise_map]; exact hsorted.imp (fun hab => by omega)
        · intro hms
          exact ⟨(hne (by simpa using hms)).1, hcond.2⟩
        · simp only [List.map_map, hxy]; rfl
        · simp only [List.map_map, hxe]; rfl
        · simp only [List.map_map, hye]; rfl
        · rw [hcalls, List.flatMap_map]; rfl
        · intro m hm
          obtain ⟨m0, hm0, rfl⟩ := List.mem_map.1 hm
          exact hkept m0 hm0
      · have hix : i < bars.XErrors.length := by omega
        have hiy : i < bars.YErrors.length := by omega
        by_cases hchk : CheckFloats [rnd (curX + xOffset)] = true ∧
            CheckFloats (g (rnd (curX + xOffset))) = true ∧
            CheckFloats [(f (g (rnd (curX + xOffset)))).2.1, (f (g (rnd (curX + xOffset)))).2.2] = true
        · rw [spacedErrorLoopRounded_keep rnd f g _ _ _ _ _ fuel i curX bars hcond hskip hix hiy hchk.1
            hchk.2.1 hchk.2.2] at h
          generalize hr : spacedErrorLoopRounded rnd f g maxX xIncr xOffset minRange maxRange fuel (i + 1)
            (rnd (curX + xIncr)) _ = r at h
          obtain ⟨calls0, o0⟩ := r
          simp only [Run.after, Run.mk.injEq] at h
          obtain ⟨hc, ho⟩ := h
          subst ho
          obtain ⟨ms, hsorted, hi', hne, hxy, hxe, hye, hcalls, hkept⟩ :=
            ih _ _ _ _ _ _ (by simp [hlx]) (by simp [hly]) hr
          have hlt : i < i' := by omega
          refine ⟨0 :: ms.map (· + 1), pairwise_lt_shift ms hsorted, by simp [hi']; omega,
            ?_, ?_, ?_, ?_, ?_, ?_⟩
          · intro _
            refine ⟨?_, hcond.2⟩
            by_cases hms : ms = []
            · subst hms; simp at hi'; omega
            · have := (hne hms).1; simpa using this
          · rw [hxy]
            simp only [List.map_cons, List.map_map]
            exact set_shape _ _ _ _ _ hcond.1 hlt
          · rw [hxe]
            simp only [List.map_cons, List.map_map]
            exact set_shape _ _ _ _ _ hix hlt
          · rw [hye]
            simp only [List.map_cons, List.map_map]
            exact set_shape _ _ _ _ _ hiy hlt
          · rw [← hc, hcalls, List.flatMap_cons, List.flatMap_map]; rfl
          · intro m hm
            rcases List.mem_cons.1 hm with rfl | hm
            · exact ⟨hcond.2, hskip, hchk⟩
            · obtain ⟨m0, hm0, rfl⟩ := List.mem_map.1 hm
              exact hkept m0 hm0
        · have := spacedErrorLoopRounded_abort rnd f g _ _ _ _ _ fuel i curX bars hcond hskip hix hiy hchk
          rw [h] at this
          cases this
    · rw [spacedErrorLoopRounded_exit rnd f g _ _ _ _ _ fuel i curX bars hcond] at h
      simp only [Run.mk.injEq, Outcome.ok.injEq, Prod.mk.injEq] at h
      obtain ⟨rfl, rfl, rfl⟩ := h
      exact ⟨[], List.Pairwise.nil, rfl, fun h => absurd rfl h, by simp, by simp, by simp, rfl,
        by simp⟩

/-- The two loops run one after the other from fresh slices. -/
theorem two_loops_shape_rounded (rnd : F64 → F64) (f : List F64 → F64 × F64 × F64) (g : F64 → List F64)
    (minX maxX lineIncr errIncr xOffset minRange maxRange : F64) (n E : Int) (fuel : Nat)
    (hn : 0 ≤ n) (hE : 0 ≤ E)
    (c1 c2 : List Call) (i1 i2 : Nat) (p1 : List XY) (b2 : ErrorPoints)
    (h1 : spacedLineLoopRounded rnd f g maxX lineIncr minRange maxRange fuel 0 minX
      (makeSlice XY.zero n) = ⟨c1, .ok (i1, p1)⟩)
    (h2 : spacedErrorLoopRounded rnd f g maxX errIncr xOffset minRange maxRange fuel 0 minX
      ⟨makeSlice XY.zero E, makeSlice LowHigh.zero E, makeSlice LowHigh.zero E⟩ =
        ⟨c2, .ok (i2, b2)⟩) :
    SpacedShapeRounded rnd f g minX maxX lineIncr errIncr xOffset minRange maxRange n E (p1.take i1)
      ⟨b2.XYs.take i2, b2.XErrors.take i2, b2.YErrors.take i2⟩ (c1 ++ c2) := by
  obtain ⟨ms, hms, hi1, hne1, hp1, hc1, hk1⟩ := spacedLineLoopRounded_shape rnd f g _ _ _ _ _ _ _ _ _ _ _ h1
  obtain ⟨es, hes, hi2, hne2, hxy, hxe, hye, hc2, hk2⟩ :=
    spacedErrorLoopRounded_shape rnd f g _ _ _ _ _ _ _ _ _ _ _ _ (by simp [makeSlice]) (by simp [makeSlice]) h2
  have hlen1 : (ms.length : Int) ≤ n := by
    by_cases h : ms = []
    · subst h; simpa using hn
    · have := (hne1 h).1
      simp only [makeSlice, List.length_replicate] at this
      omega
  have hlen2 : (es.length : Int) ≤ E := by
    by_cases h : es = []
    · subst h; simpa using hE
    · have := (hne2 h).1
      simp only [makeSlice, List.length_replicate] at this
      omega
  refine ⟨ms, es, hms, hes, hlen1, hlen2, fun h => (hne1 h).2, fun h => (hne2 h).2, ?_, ?_, ?_,
    ?_, by rw [hc1, hc2], hk1, hk2⟩
  · rw [hp1, hi1, List.take_zero, List.nil_append, take_map_append]
  · simp only [hxy, hi2, List.take_zero, List.nil_append, take_map_append]
  · simp only [hxe, hi2, List.take_zero, List.nil_append, take_map_append]
  · simp only [hye, hi2, List.take_zero, List.nil_append, take_map_append]

/-- The function in rounded arithmetic is its two loops run one after the other. -/
theorem spacedRounded_of_loops (rnd : F64 → F64) (fuel : Nat) (f : List F64 → F64 × F64 × F64)
    (pointSet totalNumberOfPointSets howManyPoints howManyErrorBars : Int)
    (minX maxX : F64) (g : F64 → List F64) (minRange maxRange : F64)
    (hn : 2 ≤ howManyPoints) (hE : 0 ≤ howManyErrorBars) :
    NewErrorPointsSpacedRounded rnd fuel f pointSet totalNumberOfPointSets howManyPoints
      howManyErrorBars minX maxX g minRange maxRange =
    (spacedLineLoopRounded rnd f g maxX (lineSpacingRounded rnd minX maxX howManyPoints)
      minRange maxRange fuel 0 minX (makeSlice XY.zero howManyPoints)).bind
      fun r =>
        (spacedErrorLoopRounded rnd f g maxX (errorBarSpacingRounded rnd minX maxX howManyErrorBars)
          (errorBarOffsetRounded rnd (errorBarSpacingRounded rnd minX maxX howManyErrorBars)
            pointSet totalNumberOfPointSets)
          minRange maxRange fuel 0 minX
          ⟨makeSlice XY.zero howManyErrorBars, makeSlice LowHigh.zero howManyErrorBars,
            makeSlice LowHigh.zero howManyErrorBars⟩).bind
          fun e => ⟨[], .ok (r.2.take r.1,
            ⟨e.2.XYs.take e.1, e.2.XErrors.take e.1, e.2.YErrors.take e.1⟩)⟩ := by
  simp only [NewErrorPointsSpacedRounded, if_neg (not_lt.2 hn), if_neg (not_lt.2 hE)]

/-- A call of `NewErrorPointsSpaced` in rounded arithmetic that returns without
error has the shape of a pass of the two loops. -/
theorem spaced_shape_rounded (rnd : F64 → F64) (fuel : Nat) (f : List F64 → F64 × F64 × F64)
    (pointSet totalNumberOfPointSets howManyPoints howManyErrorBars : Int)
    (minX maxX : F64) (g : F64 → List F64) (minRange maxRange : F64)
    (calls : List Call) (pts : List XY) (bars : ErrorPoints)
    (h : NewErrorPointsSpacedRounded rnd fuel f pointSet totalNumberOfPointSets howManyPoints
      howManyErrorBars minX maxX g minRange maxRange = ⟨calls, .ok (pts, bars)⟩) :
    2 ≤ howManyPoints ∧ 0 ≤ howManyErrorBars ∧
    SpacedShapeRounded rnd f g minX maxX (lineSpacingRounded rnd minX maxX howManyPoints)
      (errorBarSpacingRounded rnd minX maxX howManyErrorBars)
      (errorBarOffsetRounded rnd (errorBarSpacingRounded rnd minX maxX howManyErrorBars) pointSet
        totalNumberOfPointSets)
      minRange maxRange howManyPoints howManyErrorBars pts bars calls := by
  by_cases hn : howManyPoints < 2
  · simp [NewErrorPointsSpacedRounded, hn] at h
  by_cases hE : howManyErrorBars < 0
  · simp [NewErrorPointsSpacedRounded, hn, hE] at h
  have hn' : 2 ≤ howManyPoints := not_lt.1 hn
  have hE' : 0 ≤ howManyErrorBars := not_lt.1 hE
  refine ⟨hn', hE', ?_⟩
  rw [spacedRounded_of_loops rnd fuel f _ _ _ _ _ _ g _ _ hn' hE'] at h
  generalize h1 : spacedLineLoopRounded rnd f g maxX _ minRange maxRange fuel 0 minX _ = r1 at h
  obtain ⟨c1, o1⟩ := r1
  cases o1 with
  | ok a =>
    obtain ⟨i1, p1⟩ := a
    simp only [Run.bind, Run.after] at h
    generalize h2 : spacedErrorLoopRounded rnd f g maxX _ _ minRange maxRange fuel 0 minX _ = r2
      at h
    obtain ⟨c2, o2⟩ := r2
    cases o2 with
    | ok b =>
      obtain ⟨i2, b2⟩ := b
      simp only [Run.mk.injEq, Outcome.ok.injEq, Prod.mk.injEq, List.append_nil] at h
      obtain ⟨hc, hp, hb⟩ := h
      subst hc hp hb
      exact two_loops_shape_rounded rnd f g _ _ _ _ _ _ _ _ _ fuel (by omega) hE' c1 c2 i1 i2 p1
        b2 h1 h2
    | error => simp at h
    | panic p => simp at h
    | outOfFuel => simp at h
  | error => simp [Run.bind] at h
  | panic p => simp [Run.bind] at h
  | outOfFuel => simp [Run.bind] at h

theorem spacedRounded_no_index_panic (rnd : F64 → F64) (fuel : Nat)
    (f : List F64 → F64 × F64 × F64)
    (pointSet totalNumberOfPointSets howManyPoints howManyErrorBars : Int)
    (minX maxX : F64) (g : F64 → List F64) (minRange maxRange : F64) :
    (NewErrorPointsSpacedRounded rnd fuel f pointSet totalNumberOfPointSets howManyPoints
      howManyErrorBars minX maxX g minRange maxRange).outcome ≠ .panic .indexOutOfRange := by
  by_cases hn : howManyPoints < 2
  · simp [NewErrorPointsSpacedRounded, hn]
  by_cases hE : howManyErrorBars < 0
  · simp [NewErrorPointsSpacedRounded, hn, hE]
  rw [spacedRounded_of_loops rnd fuel f _ _ _ _ _ _ g _ _ (not_lt.1 hn) (not_lt.1 hE)]
  intro h
  rcases bind_outcome_panic _ _ _ h with h1 | ⟨a, h1⟩
  · exact spacedLineLoopRounded_no_panic rnd f g _ _ _ _ _ _ _ _ _ h1
  · rcases bind_outcome_panic _ _ _ h1 with h2 | ⟨b, h2⟩
    · exact spacedErrorLoopRounded_no_panic rnd f g _ _ _ _ _ _ _ _ _ _ (by simp [makeSlice])
        (by simp [makeSlice]) h2
    · cases h2

/-! ### Exact arithmetic is the rounding that changes nothing -/

theorem spacedLineLoopRounded_id (f : List F64 → F64 × F64 × F64) (g : F64 → List F64)
    (maxX xIncr minRange maxRange : F64) :
    ∀ (fuel i : Nat) (curX : F64) (points : List XY),
      spacedLineLoopRounded id f g maxX xIncr minRange maxRange fuel i curX points =
        spacedLineLoop f g maxX xIncr minRange maxRange fuel i curX points := by
  intro fuel
  induction fuel with
  | zero => intro i curX points; rfl
  | succ fuel ih =>
    intro i curX points
    simp only [spacedLineLoopRounded, spacedLineLoop, ih, id]

theorem spacedErrorLoopRounded_id (f : List F64 → F64 × F64 × F64) (g : F64 → List F64)
    (maxX xIncr xOffset minRange maxRange : F64) :
    ∀ (fuel i : Nat) (curX : F64) (bars : ErrorPoints),
      spacedErrorLoopRounded id f g maxX xIncr xOffset minRange maxRange fuel i curX bars =
        spacedErrorLoop f g maxX xIncr xOffset minRange maxRange fuel i curX bars := by
  intro fuel
  induction fuel with
  | zero => intro i curX bars; rfl
  | succ fuel ih =>
    intro i curX bars
    simp only [spacedErrorLoopRounded, spacedErrorLoop, ih, id]

/-- With the rounding that changes nothing, the function in rounded arithmetic
is `NewErrorPointsSpaced`. -/
theorem spacedRounded_id (fuel : Nat) (f : List F64 → F64 × F64 × F64)
    (pointSet totalNumberOfPointSets howManyPoints howManyErrorBars : Int)
    (minX maxX : F64) (g : F64 → List F64) (minRange maxRange : F64) :
    NewErrorPointsSpacedRounded id fuel f pointSet totalNumberOfPointSets howManyPoints
      howManyErrorBars minX maxX g minRange maxRange =
    NewErrorPointsSpaced fuel f pointSet totalNumberOfPointSets howManyPoints howManyErrorBars
      minX maxX g minRange maxRange := by
  simp only [NewErrorPointsSpacedRounded, NewErrorPointsSpaced, spacedLineLoopRounded_id,
    spacedErrorLoopRounded_id, lineSpacingRounded, errorBarSpacingRounded, errorBarOffsetRounded,
    id]

/-! ### Rounding to `float64` -/

/-- The rounding `F64.round` on some known values: 0.1 and 1/3 round to their
`float64`, a tie goes to the even significand, values beyond the largest finite
`float64` round to an infinity, and half the smallest subnormal rounds to 0. -/
theorem round_samples :
    F64.round (F64.fin (1 / 10)) = F64.fin (3602879701896397 / 2 ^ 55) ∧
    F64.round (F64.fin (1 / 3)) = F64.fin (6004799503160661 / 2 ^ 54) ∧
    F64.round (F64.fin (1 + 1 / 2 ^ 53)) = F64.fin 1 ∧
    F64.round (F64.fin (1 + 3 / 2 ^ 53)) = F64.fin (1 + 1 / 2 ^ 51) ∧
    F64.round (F64.fin (-(1 + 3 / 2 ^ 53))) = F64.fin (-(1 + 1 / 2 ^ 51)) ∧
    F64.round (F64.fin (10 ^ 16 + 1)) = F64.fin (10 ^ 16) ∧
    F64.round (F64.fin (2 ^ 1024 - 2 ^ 970 - 1)) = F64.fin (2 ^ 1024 - 2 ^ 971) ∧
    F64.round (F64.fin (2 ^ 1024 - 2 ^ 970)) = F64.posInf ∧
    F64.round (F64.fin (-(2 ^ 1024))) = F64.negInf ∧
    F64.round (F64.fin (3 / 2 ^ 1076)) = F64.fin (1 / 2 ^ 1074) ∧
    F64.round (F64.fin (1 / 2 ^ 1075)) = F64.fin 0 ∧
    F64.round F64.nan = F64.nan ∧ F64.round F64.posInf = F64.posInf := by
  decide!

theorem inSubRange_le_of_not_nan (minRange maxRange x : F64) (h : InSubRange minRange maxRange x)
    (hx : x.isNaN = false) (hmin : minRange.isNaN = false) (hmax : maxRange.isNaN = false) :
    minRange ≤ x ∧ x ≤ maxRange := by
  unfold InSubRange at h
  push_neg at h
  exact ⟨f64_le_of_not_lt hx hmin h.1, f64_le_of_not_lt hmax hx h.2⟩

theorem nan_add (b : F64) : F64.nan + b = F64.nan := by
  cases b <;> rfl

theorem isFinite_not_nan {x : F64} (h : F64.isFinite x = true) : x.isNaN = false := by
  cases x <;> simp_all [F64.isFinite, F64.isNaN]

/-- C19, as stated, fails in `float64`: with 2 error bars over the range from 0.1
to 0.7, which is also the sub-range, `NewErrorPointsSpaced` returns an error bar
at `x' = 0.175` for which `x' - xOffset` is below `minRange = 0.1`, whether the
subtraction is rounded or not. -/
theorem spaced_bar_less_offset_below_subrange :
    (NewErrorPointsSpacedRounded F64.round 10 firstAgg 0 1 2 2 tenth sevenTenths idGen tenth
      sevenTenths).outcome = .ok (tenthsLine, tenthsBars) ∧
    ∃ xy ∈ tenthsBars.XYs,
      F64.round (xy.X - errorBarOffsetRounded F64.round
        (errorBarSpacingRounded F64.round tenth sevenTenths 2) 0 1) < tenth ∧
      xy.X - errorBarOffsetRounded F64.round
        (errorBarSpacingRounded F64.round tenth sevenTenths 2) 0 1 < tenth := by
  decide!

/-- C19, amended. Whatever the rounding `rnd` of the arithmetic (one that leaves
NaN a NaN, as `F64.round` and no rounding do), `NewErrorPointsSpaced` never
writes outside its slices (no index panic). In a call that returns without
error, the line has at most `howManyPoints` points and the error bars are at
most `howManyErrorBars`; no x of the line was skipped by the sub-range test;
every error bar sits at `x' = base + xOffset` for a position `base` of the walk,
and neither `x'` nor `base` was skipped by the sub-range test; when the bounds of
the sub-range are not NaN, these positions lie in `[minRange, maxRange]`. -/
theorem spaced_within_subrange (rnd : F64 → F64) (hnan : rnd F64.nan = F64.nan) (fuel : Nat)
    (f : List F64 → F64 × F64 × F64)
    (pointSet totalNumberOfPointSets howManyPoints howManyErrorBars : Int)
    (minX maxX : F64) (g : F64 → List F64) (minRange maxRange : F64) :
    (NewErrorPointsSpacedRounded rnd fuel f pointSet totalNumberOfPointSets howManyPoints
      howManyErrorBars minX maxX g minRange maxRange).outcome ≠ .panic .indexOutOfRange ∧
    ∀ pts bars, (NewErrorPointsSpacedRounded rnd fuel f pointSet totalNumberOfPointSets
        howManyPoints howManyErrorBars minX maxX g minRange maxRange).outcome = .ok (pts, bars) →
      (pts.length : Int) ≤ howManyPoints ∧ (bars.XYs.length : Int) ≤ howManyErrorBars ∧
      (∀ p ∈ pts, InSubRange minRange maxRange p.X ∧
        (minRange.isNaN = false → maxRange.isNaN = false →
          minRange ≤ p.X ∧ p.X ≤ maxRange)) ∧
      (∀ xy ∈ bars.XYs, ∃ m : Nat,
        xy.X = rnd (iterXRounded rnd minX
            (errorBarSpacingRounded rnd minX maxX howManyErrorBars) m +
          errorBarOffsetRounded rnd (errorBarSpacingRounded rnd minX maxX howManyErrorBars)
            pointSet totalNumberOfPointSets) ∧
        InSubRange minRange maxRange xy.X ∧
        InSubRange minRange maxRange
          (iterXRounded rnd minX (errorBarSpacingRounded rnd minX maxX howManyErrorBars) m) ∧
        (minRange.isNaN = false → maxRange.isNaN = false →
          (minRange ≤ xy.X ∧ xy.X ≤ maxRange) ∧
          (minRange ≤ iterXRounded rnd minX
              (errorBarSpacingRounded rnd minX maxX howManyErrorBars) m ∧
            iterXRounded rnd minX (errorBarSpacingRounded rnd minX maxX howManyErrorBars) m ≤
              maxRange))) := by
  refine ⟨spacedRounded_no_index_panic rnd fuel f _ _ _ _ _ _ g _ _, ?_⟩
  intro pts bars h
  obtain ⟨-, -, ms, es, -, -, hlen1, hlen2, -, -, hpts, hxy, -, -, -, hk1, hk2⟩ :=
    spaced_shape_rounded rnd fuel f _ _ _ _ _ _ g _ _ _ _ _ (run_eta _ _ h)
  refine ⟨by rw [hpts]; simpa using hlen1, by rw [hxy]; simpa using hlen2, ?_, ?_⟩
  · intro p hp
    rw [hpts] at hp
    obtain ⟨m, hm, rfl⟩ := List.mem_map.1 hp
    have hk := hk1 m hm
    have hin : InSubRange minRange maxRange (linePoint f g (iterXRounded rnd minX _ m)).X := hk.2.1
    exact ⟨hin, fun hmin hmax => inSubRange_le_of_not_nan _ _ _ hin
      (isFinite_not_nan ((checkFloats_single _).1 hk.2.2.1)) hmin hmax⟩
  · intro xy hxy'
    rw [hxy] at hxy'
    obtain ⟨m, hm, rfl⟩ := List.mem_map.1 hxy'
    have hk := hk2 m hm
    have hfin : F64.isFinite (rnd (iterXRounded rnd minX
        (errorBarSpacingRounded rnd minX maxX howManyErrorBars) m +
        errorBarOffsetRounded rnd (errorBarSpacingRounded rnd minX maxX howManyErrorBars)
          pointSet totalNumberOfPointSets)) = true := (checkFloats_single _).1 hk.2.2.1
    have hbase : (iterXRounded rnd minX
        (errorBarSpacingRounded rnd minX maxX howManyErrorBars) m).isNaN = false := by
      cases hb : iterXRounded rnd minX (errorBarSpacingRounded rnd minX maxX howManyErrorBars) m
        with
      | nan =>
        rw [hb, nan_add, hnan] at hfin
        cases hfin
      | fin q => rfl
      | posInf => rfl
      | negInf => rfl
    have hnot := hk.2.1
    have hin1 : InSubRange minRange maxRange
        (rnd (iterXRounded rnd minX (errorBarSpacingRounded rnd minX maxX howManyErrorBars) m +
          errorBarOffsetRounded rnd (errorBarSpacingRounded rnd minX maxX howManyErrorBars)
            pointSet totalNumberOfPointSets)) := fun hc => hnot (by tauto)
    have hin2 : InSubRange minRange maxRange
        (iterXRounded rnd minX (errorBarSpacingRounded rnd minX maxX howManyErrorBars) m) :=
      fun hc => hnot (by tauto)
    exact ⟨m, rfl, hin1, hin2, fun hmin hmax =>
      ⟨inSubRange_le_of_not_nan _ _ _ hin1 (isFinite_not_nan hfin) hmin hmax,
        inSubRange_le_of_not_nan _ _ _ hin2 hbase hmin hmax⟩⟩

/-- C19, amended, in `float64` on 2 points and 2 error bars over the range from
0.1 to 0.7, with that range as sub-range: the line and the error bars lie in the
sub-range. -/
theorem spaced_within_subrange_witness :
    F64.round F64.nan = F64.nan ∧
    (NewErrorPointsSpacedRounded F64.round 10 firstAgg 0 1 2 2 tenth sevenTenths idGen tenth
      sevenTenths).outcome = .ok (tenthsLine, tenthsBars) ∧
    (tenthsLine.length : Int) ≤ 2 ∧ (tenthsBars.XYs.length : Int) ≤ 2 ∧
    (∀ p ∈ tenthsLine, tenth ≤ p.X ∧ p.X ≤ sevenTenths) ∧
    (∀ xy ∈ tenthsBars.XYs, tenth ≤ xy.X ∧ xy.X ≤ sevenTenths) :=
  have h := (spaced_within_subrange F64.round rfl 10 firstAgg 0 1 2 2 tenth sevenTenths idGen
    tenth sevenTenths).2 tenthsLine tenthsBars (by decide!)
  ⟨rfl, by decide!, h.1, h.2.1, fun p hp => (h.2.2.1 p hp).2 (by decide!) (by decide!),
    fun xy hxy => by
      obtain ⟨m, -, -, -, hle⟩ := h.2.2.2 xy hxy
      exact (hle (by decide!) (by decide!)).1⟩

/-- C12, as stated, fails in `float64`. With 10 error bars over the range from 0
to 1, the second error bars of the series 0 and 1 of 2 have the same base
position and sit at 0.125 and 0.15000000000000002, which do not differ by a
quarter of the spacing, whether the subtraction is rounded or not. With 1 error
bar over the range from `10^16` to `10^16 + 2` the spacing is 2 and the error
bars of the series 0 and 1 of 2 sit at the same position `10^16`. -/
theorem stagger_lost_to_rounding :
    (barXAt (unitRun 0) 1 = some (F64.fin (1 / 8)) ∧
      barXAt (unitRun 1) 1 = some (F64.fin (1351079888211149 / 2 ^ 53)) ∧
      F64.fin (1 / 8) = F64.round
        (iterXRounded F64.round (F64.fin 0)
            (errorBarSpacingRounded F64.round (F64.fin 0) (F64.fin 1) 10) 1 +
          errorBarOffsetRounded F64.round
            (errorBarSpacingRounded F64.round (F64.fin 0) (F64.fin 1) 10) 0 2) ∧
      F64.fin (1351079888211149 / 2 ^ 53) = F64.round
        (iterXRounded F64.round (F64.fin 0)
            (errorBarSpacingRounded F64.round (F64.fin 0) (F64.fin 1) 10) 1 +
          errorBarOffsetRounded F64.round
            (errorBarSpacingRounded F64.round (F64.fin 0) (F64.fin 1) 10) 1 2) ∧
      F64.fin (1351079888211149 / 2 ^ 53) - F64.fin (1 / 8) ≠
        errorBarSpacingRounded F64.round (F64.fin 0) (F64.fin 1) 10 / F64.fin 4 ∧
      F64.round (F64.fin (1351079888211149 / 2 ^ 53) - F64.fin (1 / 8)) ≠
        F64.round (errorBarSpacingRounded F64.round (F64.fin 0) (F64.fin 1) 10 / F64.fin 4)) ∧
    (F64.fin 0 < errorBarSpacingRounded F64.round (F64.fin (10 ^ 16)) (F64.fin (10 ^ 16 + 2)) 1 ∧
      barXAt (largeRun 0) 0 = some (F64.fin (10 ^ 16)) ∧
      barXAt (largeRun 1) 0 = some (F64.fin (10 ^ 16))) := by
  decide!

/-- In `float64` the x-values of the line can repeat although `min < max`: with
3 points over the range from 1 to `1 + 2^-52` the spacing `2^-53` is lost when it
is added to 1, and `NewErrorPointsSpaced` returns a line whose three points all
have `x = 1`. -/
theorem spaced_repeats_x_after_rounding :
    F64.fin 1 < F64.fin (1 + 1 / 2 ^ 52) ∧
    F64.round (F64.fin (1 + 1 / 2 ^ 52)) = F64.fin (1 + 1 / 2 ^ 52) ∧
    (NewErrorPointsSpacedRounded F64.round 10 firstAgg 0 1 3 1 (F64.fin 1)
      (F64.fin (1 + 1 / 2 ^ 52)) idGen (F64.fin 1) (F64.fin (1 + 1 / 2 ^ 52))).outcome =
      .ok ([⟨F64.fin 1, F64.fin 1⟩, ⟨F64.fin 1, F64.fin 1⟩, ⟨F64.fin 1, F64.fin 1⟩],
        ⟨[⟨F64.fin 1, F64.fin 1⟩], [⟨F64.fin 0, F64.fin 0⟩], [⟨F64.fin 1, F64.fin 2⟩]⟩) := by
  decide!

end Plotutil
